import Mathlib

/-!
# The open-node cache, the registry, reads and name lookup of the ext2 file system server

A shallow embedding of `uspace/srv/fs/ext2fs/ext2fs_ops.c`.

* The two heaps (`ext2fs_instance_t` and `ext2fs_node_t` objects) are partial
  functions from addresses to records.  An address is the name of an object of
  its heap, a natural number; `NULL` is `Option.none`.  An `ext2fs_node_t` and
  the `fs_node_t` that is allocated with it point at each other (`node->data`,
  `enode->fs_node`) and are freed together, so the pair has one address here.
* `unsigned int` counters are natural numbers below `2 ^ 32`; `++` and `--` are
  written with their wrap-around.  Offsets and sizes of files (`aoff64_t`,
  `uint64_t`) are natural numbers below `2 ^ 64`, and the one sum of the read
  path that can leave this range is written with its wrap-around.
* Calls into libext2, libblock, the allocator and the IPC layer are not part of
  this file: their outcomes are arguments of the operation that makes the call.
  A directory is the stream of entries that its iterator goes through, each
  with the outcome of the advance that is made at it.
* `assert` failures and wild pointer accesses end the server; an operation
  returns `Except.error` of a `Fault` then and there is no state afterwards.
* The fibril mutexes are not modelled: every operation runs to completion.
-/

namespace Ext2fs

/-- Error codes of `errno.h` that the server returns; `EOK` is `Except.ok`. -/
inductive Errno where
  | ENOENT
  | ENOMEM
  | EINVAL
  | EBUSY
  | ENOTSUP
  | ENOTDIR
  | other (code : Nat)
  deriving DecidableEq, Repr

/-- Ways in which the server stops instead of returning. -/
inductive Fault where
  /-- Failure of `assert(keys > 0)` in `open_nodes_compare` -/
  | assert_keys_positive
  /-- Failure of `assert(keys == 2)` in `open_nodes_compare` -/
  | assert_keys_two
  /-- Failure of `assert(enode->references > 0)` in `ext2fs_node_put` -/
  | assert_references
  /-- Failure of `assert(enode->instance->open_nodes_count > 0)` in `ext2fs_node_put_core` -/
  | assert_open_nodes_count
  /-- access through a pointer to no live object -/
  | wild_pointer
  /-- Failure of `assert(offset_in_block + bytes <= block_size)` in `ext2fs_read_file` -/
  | assert_block_bounds
  /-- division by a block size of 0 in `ext2fs_read_file` -/
  | division_by_zero
  deriving DecidableEq, Repr

/-- The width of `unsigned int`: counters live in `[0, UINT_WRAP)`. -/
def UINT_WRAP : Nat := 2 ^ 32

/-- The largest `unsigned int`. -/
def UINT_MAX : Nat := UINT_WRAP - 1

def OPEN_NODES_KEYS : Nat := 2
def OPEN_NODES_DEV_HANDLE_KEY : Nat := 0
def OPEN_NODES_INODE_KEY : Nat := 1
def OPEN_NODES_BUCKETS : Nat := 256

/-- Modelled from the spec: the root object_index, `EXT2_INODE_ROOT_INDEX` of
libext2 (the header is not among the sources; ext2 numbers the root inode 2). -/
def EXT2_INODE_ROOT_INDEX : Nat := 2

/-- Modelled from the spec: the decoded on-disk record (`ext2_inode_t` of
libext2) as far as the server looks at it: type bits, size and link count. -/
structure ext2_inode where
  mode : Nat
  size : Nat
  usage_count : Nat
  deriving DecidableEq, Repr

/-- Modelled from the spec: `ext2_inode_ref_t` of libext2, the decoded record
together with the object index it was decoded for. -/
structure ext2_inode_ref where
  index : Nat
  inode : ext2_inode
  deriving DecidableEq, Repr

/-- The type `ext2fs_instance_t` (the list link is the position in `instance_list`). -/
structure ext2fs_instance where
  devmap_handle : Nat
  filesystem : Nat
  open_nodes_count : Nat
  deriving DecidableEq, Repr

/-- The type `ext2fs_node_t`; `inst` is the field `instance`, the address of the owning
instance. -/
structure ext2fs_node where
  inst : Nat
  inode_ref : ext2_inode_ref
  references : Nat
  deriving DecidableEq, Repr

/-- The static variables of the server and the two heaps. -/
structure State where
  /-- live `ext2fs_instance_t` objects -/
  insts : Nat → Option ext2fs_instance
  /-- live `ext2fs_node_t` objects -/
  nodes : Nat → Option ext2fs_node
  /-- The variable `instance_list`, in list order -/
  instance_list : List Nat
  /-- The variable `open_nodes`: the items of the hash table, oldest first -/
  open_nodes : List Nat

/-- The state at start-up, after `ext2fs_global_init`. -/
def State.init : State :=
  { insts := fun _ => none, nodes := fun _ => none, instance_list := [], open_nodes := [] }

/-- Store `v` at node address `p`: a write through the pointer, or with `none`
the `free` of the node. -/
def State.set_node (s : State) (p : Nat) (v : Option ext2fs_node) : State :=
  { s with nodes := Function.update s.nodes p v }

/-- Store `v` at instance address `p`: a write through the pointer, or with
`none` the `free` of the instance. -/
def State.set_inst (s : State) (p : Nat) (v : Option ext2fs_instance) : State :=
  { s with insts := Function.update s.insts p v }

/-- The key array `unsigned long key[]`: `(key[OPEN_NODES_DEV_HANDLE_KEY],
key[OPEN_NODES_INODE_KEY])`. -/
abbrev Key := Nat × Nat

/-- The function `open_nodes_hash`.  It selects the chain of the table an item
is kept in; since `open_nodes_compare` compares the whole key, the chains are
kept as one chain below. -/
def open_nodes_hash (key : Key) : Nat :=
  key.2 % OPEN_NODES_BUCKETS

/-- The function `open_nodes_compare`. -/
def open_nodes_compare (s : State) (key : Key) (keys : Nat) (item : Nat) :
    Except Fault Bool :=
  if keys > 0 then
    match s.nodes item with
    | none => .error .wild_pointer
    | some enode =>
      match s.insts enode.inst with
      | none => .error .wild_pointer
      | some i =>
        if i.devmap_handle ≠ key.1 then .ok false
        else if keys = 1 then .ok true
        else if keys = 2 then .ok (enode.inode_ref.index == key.2)
        else .error .assert_keys_two
  else .error .assert_keys_positive

/-- Modelled from the spec: `hash_table_find` of `adt/hash_table.h` (not among
the sources), the lookup of "a mapping from (device_handle, object_index) to
Node": the first item of the chain that the table's compare callback accepts
for all `OPEN_NODES_KEYS` keys.  The chain is given as the third argument. -/
def hash_table_find (s : State) (key : Key) : List Nat → Except Fault (Option Nat)
  | [] => .ok none
  | cur :: rest =>
    match open_nodes_compare s key OPEN_NODES_KEYS cur with
    | .error f => .error f
    | .ok true => .ok (some cur)
    | .ok false => hash_table_find s key rest

/-- Modelled from the spec: `hash_table_insert` of `adt/hash_table.h`: the item
is appended to its chain. -/
def hash_table_insert (s : State) (item : Nat) : State :=
  { s with open_nodes := s.open_nodes ++ [item] }

/-- Modelled from the spec: `hash_table_remove` of `adt/hash_table.h` with all
`OPEN_NODES_KEYS` keys given: the item found for the key, if any, is unlinked
(the remove callback of this table does nothing). -/
def hash_table_remove (s : State) (key : Key) : Except Fault State :=
  match hash_table_find s key s.open_nodes with
  | .error f => .error f
  | .ok none => .ok s
  | .ok (some cur) => .ok { s with open_nodes := s.open_nodes.erase cur }

/-- Outcomes of the calls `ext2fs_node_get_core` makes when the node is not open
yet: the two `malloc`s and `ext2_filesystem_get_inode_ref`. -/
structure GetEnv where
  /-- Outcome of `malloc(sizeof(ext2fs_node_t))`: the address, or `none` for `NULL` -/
  enode : Option Nat
  /-- Outcome of `malloc(sizeof(fs_node_t))` did not return `NULL` -/
  node : Bool
  /-- Outcome of `ext2_filesystem_get_inode_ref`: an error code or the decoded record -/
  inode : Except Errno ext2_inode

/-- The function `ext2fs_node_get_core`: returns `rc` (with `*rfn` when
`rc == EOK`) and the state afterwards.  The reference that
`ext2_filesystem_get_inode_ref` hands back carries the index it was asked for. -/
def ext2fs_node_get_core (s : State) (inst : Nat) (index : Nat) (env : GetEnv) :
    Except Fault (Except Errno Nat × State) :=
  match s.insts inst with
  | none => .error .wild_pointer
  | some i =>
    match hash_table_find s (i.devmap_handle, index) s.open_nodes with
    | .error f => .error f
    | .ok (some already_open) =>
      match s.nodes already_open with
      | none => .error .wild_pointer
      | some enode =>
        let enode1 : ext2fs_node :=
          { enode with references := (enode.references + 1) % UINT_WRAP }
        .ok (.ok already_open,
          s.set_node already_open (some enode1))
    | .ok none =>
      match env.enode with
      | none => .ok (.error .ENOMEM, s)
      | some p =>
        if env.node then
          match env.inode with
          | .error rc => .ok (.error rc, s)
          | .ok inode =>
            let enode : ext2fs_node :=
              { inst := inst, inode_ref := { index := index, inode := inode }, references := 1 }
            let s1 : State := s.set_node p (some enode)
            let s2 := hash_table_insert s1 p
            let i1 : ext2fs_instance :=
              { i with open_nodes_count := (i.open_nodes_count + 1) % UINT_WRAP }
            .ok (.ok p, s2.set_inst inst (some i1))
        else .ok (.error .ENOMEM, s)

/-- The function `ext2fs_node_put_core`; `put_rc` is what
`ext2_filesystem_put_inode_ref` returns. -/
def ext2fs_node_put_core (s : State) (enode_p : Nat) (put_rc : Except Errno Unit) :
    Except Fault (Except Errno Unit × State) :=
  match s.nodes enode_p with
  | none => .error .wild_pointer
  | some enode =>
    match s.insts enode.inst with
    | none => .error .wild_pointer
    | some i =>
      match hash_table_remove s (i.devmap_handle, enode.inode_ref.index) with
      | .error f => .error f
      | .ok s1 =>
        if i.open_nodes_count > 0 then
          let i1 : ext2fs_instance :=
            { i with open_nodes_count := (i.open_nodes_count + UINT_MAX) % UINT_WRAP }
          let s2 : State := s1.set_inst enode.inst (some i1)
          match put_rc with
          | .error rc => .ok (.error rc, s2)
          | .ok _ => .ok (.ok (), s2.set_node enode_p none)
        else .error .assert_open_nodes_count

/-- The function `ext2fs_node_put`. -/
def ext2fs_node_put (s : State) (fn : Nat) (put_rc : Except Errno Unit) :
    Except Fault (Except Errno Unit × State) :=
  match s.nodes fn with
  | none => .error .wild_pointer
  | some enode =>
    if enode.references > 0 then
      let enode1 : ext2fs_node :=
        { enode with references := (enode.references + UINT_MAX) % UINT_WRAP }
      let s1 : State := s.set_node fn (some enode1)
      if enode1.references = 0 then
        match ext2fs_node_put_core s1 fn put_rc with
        | .error f => .error f
        | .ok (.error rc, s2) => .ok (.error rc, s2)
        | .ok (.ok _, s2) => .ok (.ok (), s2)
      else .ok (.ok (), s1)
    else .error .assert_references

/-- The `list_foreach` loop of `ext2fs_instance_get` over the links of
`instance_list`. -/
def ext2fs_instance_get_loop (s : State) (devmap_handle : Nat) :
    List Nat → Except Fault (Except Errno Nat)
  | [] => .ok (.error .EINVAL)
  | link :: rest =>
    match s.insts link with
    | none => .error .wild_pointer
    | some tmp =>
      if tmp.devmap_handle = devmap_handle then .ok (.ok link)
      else ext2fs_instance_get_loop s devmap_handle rest

/-- The function `ext2fs_instance_get`: returns `rc` (with `*inst` when `rc == EOK`). -/
def ext2fs_instance_get (s : State) (devmap_handle : Nat) : Except Fault (Except Errno Nat) :=
  if s.instance_list.isEmpty then .ok (.error .EINVAL)
  else ext2fs_instance_get_loop s devmap_handle s.instance_list

/-- The function `ext2fs_node_get`. -/
def ext2fs_node_get (s : State) (devmap_handle : Nat) (index : Nat) (env : GetEnv) :
    Except Fault (Except Errno Nat × State) :=
  match ext2fs_instance_get s devmap_handle with
  | .error f => .error f
  | .ok (.error rc) => .ok (.error rc, s)
  | .ok (.ok inst) => ext2fs_node_get_core s inst index env

/-- The function `ext2fs_root_get`. -/
def ext2fs_root_get (s : State) (devmap_handle : Nat) (env : GetEnv) :
    Except Fault (Except Errno Nat × State) :=
  ext2fs_node_get s devmap_handle EXT2_INODE_ROOT_INDEX env

/-- The answer to a request: `async_answer_0(rid, rc)` is `.error rc`, and
`async_answer_n(rid, EOK, ...)` is `.ok` of the argument list. -/
abbrev Answer := Except Errno (List Nat)

/-- Outcomes of the calls `ext2fs_mounted` makes. -/
structure MountEnv where
  /-- Outcome of `async_data_write_accept` -/
  opts : Except Errno Unit
  /-- Outcome of `malloc(sizeof(ext2_filesystem_t))` -/
  fs : Option Nat
  /-- Outcome of `malloc(sizeof(ext2fs_instance_t))` -/
  inst : Option Nat
  /-- Outcome of `ext2_filesystem_init` -/
  init : Except Errno Unit
  /-- Outcome of `ext2_filesystem_check_sanity` -/
  check_sanity : Except Errno Unit
  /-- Outcome of `ext2_filesystem_check_flags`, with `read_only` -/
  check_flags : Except Errno Bool
  /-- the calls of `ext2fs_node_get_core` for the root node -/
  root : GetEnv
  /-- Outcome of `ext2_filesystem_put_inode_ref` in the final `ext2fs_node_put` -/
  root_put : Except Errno Unit

/-- The function `ext2fs_mounted` for the device handle in the request. -/
def ext2fs_mounted (s : State) (devmap_handle : Nat) (env : MountEnv) :
    Except Fault (Answer × State) :=
  match env.opts with
  | .error rc => .ok (.error rc, s)
  | .ok _ =>
  match env.fs with
  | none => .ok (.error .ENOMEM, s)
  | some fs =>
  match env.inst with
  | none => .ok (.error .ENOMEM, s)
  | some inst =>
  match env.init with
  | .error rc => .ok (.error rc, s)
  | .ok _ =>
  match env.check_sanity with
  | .error rc => .ok (.error rc, s)
  | .ok _ =>
  match env.check_flags with
  | .error rc => .ok (.error rc, s)
  | .ok _ =>
    let i : ext2fs_instance :=
      { devmap_handle := devmap_handle, filesystem := fs, open_nodes_count := 0 }
    let s1 : State := s.set_inst inst (some i)
    match ext2fs_node_get_core s1 inst EXT2_INODE_ROOT_INDEX env.root with
    | .error f => .error f
    | .ok (.error rc, s2) =>
      .ok (.error rc, s2.set_inst inst none)
    | .ok (.ok root_node, s2) =>
      match s2.nodes root_node with
      | none => .error .wild_pointer
      | some enode =>
        let s3 : State := { s2 with instance_list := s2.instance_list ++ [inst] }
        match ext2fs_node_put s3 root_node env.root_put with
        | .error f => .error f
        | .ok (_, s4) =>
          .ok (.ok [EXT2_INODE_ROOT_INDEX, 0, enode.inode_ref.inode.usage_count], s4)

/-- The function `ext2fs_unmounted` for the device handle in the request. -/
def ext2fs_unmounted (s : State) (devmap_handle : Nat) : Except Fault (Answer × State) :=
  match ext2fs_instance_get s devmap_handle with
  | .error f => .error f
  | .ok (.error rc) => .ok (.error rc, s)
  | .ok (.ok inst) =>
    match s.insts inst with
    | none => .error .wild_pointer
    | some i =>
      if i.open_nodes_count ≠ 0 then .ok (.error .EBUSY, s)
      else .ok (.ok [], { s with instance_list := s.instance_list.erase inst })

/-- The address `malloc` hands out for a node is not that of a live node. -/
def GetEnv.fresh (env : GetEnv) (s : State) : Prop :=
  ∀ p, env.enode = some p → s.nodes p = none

/-- The address `malloc` hands out for an instance is not that of a live
instance, and the same for the root node. -/
def MountEnv.fresh (env : MountEnv) (s : State) : Prop :=
  (∀ p, env.inst = some p → s.insts p = none) ∧ env.root.fresh s

/-- The states the server can be in: from start-up, any finite sequence of mount
and unmount requests, `ext2fs_node_get_core` calls on live instances and
`ext2fs_node_put` calls on live nodes, each with any outcome of the calls it
makes, as long as no assertion has failed. -/
inductive Reachable : State → Prop where
  | init : Reachable State.init
  | mounted {s s' : State} {devmap_handle : Nat} {env : MountEnv} {ans : Answer} :
      Reachable s → env.fresh s →
      ext2fs_mounted s devmap_handle env = .ok (ans, s') → Reachable s'
  | unmounted {s s' : State} {devmap_handle : Nat} {ans : Answer} :
      Reachable s →
      ext2fs_unmounted s devmap_handle = .ok (ans, s') → Reachable s'
  | node_get_core {s s' : State} {inst index : Nat} {env : GetEnv} {rc : Except Errno Nat} :
      Reachable s → env.fresh s →
      ext2fs_node_get_core s inst index env = .ok (rc, s') → Reachable s'
  | node_put {s s' : State} {fn : Nat} {put_rc rc : Except Errno Unit} :
      Reachable s →
      ext2fs_node_put s fn put_rc = .ok (rc, s') → Reachable s'

/-- The key under which a node is found in `open_nodes`: the device handle of
its instance and the index of its inode reference. -/
def node_key (s : State) (p : Nat) : Option Key :=
  match s.nodes p with
  | none => none
  | some enode =>
    match s.insts enode.inst with
    | none => none
    | some i => some (i.devmap_handle, enode.inode_ref.index)

/-- What the cache key of a node depends on: its instance and its index. -/
def node_ident (n : ext2fs_node) : Nat × Nat := (n.inst, n.inode_ref.index)

/-- Node `p` is live and its `instance` field is `ip`. -/
def owned_by (s : State) (ip : Nat) (p : Nat) : Bool :=
  match s.nodes p with
  | none => false
  | some enode => enode.inst == ip

/-- The nodes in the open-node cache whose owning volume is the instance at `ip`. -/
def cached_nodes_of (s : State) (ip : Nat) : List Nat :=
  s.open_nodes.filter (owned_by s ip)

/-- The consistency of the heaps, the cache and the registry. -/
structure WF (s : State) : Prop where
  node_inst : ∀ p n, s.nodes p = some n → ∃ i, s.insts n.inst = some i
  cached_live : ∀ p ∈ s.open_nodes, ∃ n, s.nodes p = some n
  nodup : s.open_nodes.Nodup
  unique : ∀ p ∈ s.open_nodes, ∀ q ∈ s.open_nodes, node_key s p = node_key s q → p = q
  referenced_cached : ∀ p n, s.nodes p = some n → 0 < n.references → p ∈ s.open_nodes
  references_lt : ∀ p n, s.nodes p = some n → n.references < UINT_WRAP
  count : ∀ ip i, s.insts ip = some i →
    i.open_nodes_count = (cached_nodes_of s ip).length % UINT_WRAP
  list_live : ∀ ip ∈ s.instance_list, ∃ i, s.insts ip = some i
  list_nodup : s.instance_list.Nodup

/-- No cached node with the key `key` has `UINT_MAX` references: taking one more
reference of the object does not wrap the counter. -/
def below_max (s : State) (key : Key) : Prop :=
  ∀ p ∈ s.open_nodes, ∀ n, node_key s p = some key → s.nodes p = some n →
    n.references < UINT_MAX

/-- The states the server can be in when no reference counter was ever
incremented at `UINT_MAX`: as `Reachable`, with `ext2fs_node_get_core` (also the
one inside a mount) applied only to objects whose cached node, if there is
one, has fewer than `UINT_MAX` references. -/
inductive ReachableNoWrap : State → Prop where
  | init : ReachableNoWrap State.init
  | mounted {s s' : State} {devmap_handle : Nat} {env : MountEnv} {ans : Answer} :
      ReachableNoWrap s → env.fresh s →
      below_max s (devmap_handle, EXT2_INODE_ROOT_INDEX) →
      ext2fs_mounted s devmap_handle env = .ok (ans, s') → ReachableNoWrap s'
  | unmounted {s s' : State} {devmap_handle : Nat} {ans : Answer} :
      ReachableNoWrap s →
      ext2fs_unmounted s devmap_handle = .ok (ans, s') → ReachableNoWrap s'
  | node_get_core {s s' : State} {inst index : Nat} {i : ext2fs_instance} {env : GetEnv}
      {rc : Except Errno Nat} :
      ReachableNoWrap s → env.fresh s → s.insts inst = some i →
      below_max s (i.devmap_handle, index) →
      ext2fs_node_get_core s inst index env = .ok (rc, s') → ReachableNoWrap s'
  | node_put {s s' : State} {fn : Nat} {put_rc rc : Except Errno Unit} :
      ReachableNoWrap s →
      ext2fs_node_put s fn put_rc = .ok (rc, s') → ReachableNoWrap s'

/-- A call of a client that works on one object: it opens it, with the outcomes
of the calls `ext2fs_node_get_core` makes, or closes it, with the outcome of
`ext2_filesystem_put_inode_ref`. -/
inductive Call where
  | open_node (env : GetEnv)
  | close_node (put_rc : Except Errno Unit)

/-- Outcome of `malloc` would hand out `env.enode` in state `s`: it is `NULL` or the address
of no live node. -/
def GetEnv.is_fresh (env : GetEnv) (s : State) : Bool :=
  match env.enode with
  | none => true
  | some p => (s.nodes p).isNone

/-- Runs the calls on object `index` of the instance at `inst`, each close on the
node handle that the last open returned.  The result is the final state and
handle when every call returned `EOK`, and `none` as soon as a call fails or
stops the server (or an allocator outcome is impossible). -/
def run_calls (inst index : Nat) : State → Option Nat → List Call → Option (State × Option Nat)
  | s, handle, [] => some (s, handle)
  | s, _, .open_node env :: rest =>
    if env.is_fresh s then
      match ext2fs_node_get_core s inst index env with
      | .ok (.ok fn, s') => run_calls inst index s' (some fn) rest
      | _ => none
    else none
  | s, handle, .close_node put_rc :: rest =>
    match handle with
    | none => none
    | some fn =>
      match ext2fs_node_put s fn put_rc with
      | .ok (.ok _, s') => run_calls inst index s' (some fn) rest
      | _ => none

/-- The number of opens among the calls. -/
def opens : List Call → Nat
  | [] => 0
  | .open_node _ :: rest => opens rest + 1
  | .close_node _ :: rest => opens rest

/-- The number of closes among the calls. -/
def closes : List Call → Nat
  | [] => 0
  | .open_node _ :: rest => closes rest
  | .close_node _ :: rest => closes rest + 1

/-- The largest number of references outstanding at any time while the calls
run, when `d` are outstanding at the start. -/
def peak (d : Nat) : List Call → Nat
  | [] => d
  | .open_node _ :: rest => max d (peak (d + 1) rest)
  | .close_node _ :: rest => max d (peak (d - 1) rest)

/-- Every cached node is live and has at least one reference. -/
def all_referenced (s : State) : Prop :=
  ∀ p ∈ s.open_nodes, ∃ n, s.nodes p = some n ∧ 0 < n.references

/-- What holds while `run_calls` works on object `index` of the instance at
`inst`, whose record was `i0` when the object was not cached yet, and `d`
references are outstanding: with `d = 0` the object is not cached, the handle
is stale and `open_nodes_count` is that of `i0`; with `d > 0` the handle is the
one cached node of the object, which has `d` references. -/
structure Outstanding (inst index : Nat) (i0 : ext2fs_instance) (s : State)
    (handle : Option Nat) (d : Nat) : Prop where
  wf : WF s
  start_lt : i0.open_nodes_count < UINT_WRAP
  inst_live : ∃ i, s.insts inst = some i ∧ i.devmap_handle = i0.devmap_handle ∧
    (d = 0 → i.open_nodes_count = i0.open_nodes_count) ∧
    (0 < d → i.open_nodes_count = (i0.open_nodes_count + 1) % UINT_WRAP)
  closed : d = 0 → (∀ q ∈ s.open_nodes, node_key s q ≠ some (i0.devmap_handle, index)) ∧
    ∀ fn, handle = some fn → s.nodes fn = none
  opened : 0 < d → ∃ p n, handle = some p ∧ p ∈ s.open_nodes ∧
    node_key s p = some (i0.devmap_handle, index) ∧ s.nodes p = some n ∧ n.inst = inst ∧
    n.references = d

/-! ## The registry and the read path -/

/-- The device handle of the instance at `ip`, when it is live. -/
def inst_handle (s : State) (ip : Nat) : Option Nat :=
  (s.insts ip).map (fun i => i.devmap_handle)

/-- Nothing of device `devmap_handle` is in the server: no instance in
`instance_list` has the handle and no cached node belongs to the device. -/
def not_mounted (s : State) (devmap_handle : Nat) : Prop :=
  (∀ ip ∈ s.instance_list, inst_handle s ip ≠ some devmap_handle) ∧
    ∀ q ∈ s.open_nodes, ∀ key : Key, node_key s q = some key → key.1 ≠ devmap_handle

/-- The instances in `instance_list` have pairwise distinct device handles. -/
def handles_distinct (s : State) : Prop :=
  (s.instance_list.map (inst_handle s)).Nodup

/-- The width of `aoff64_t` and `uint64_t`: offsets live in `[0, UINT64_WRAP)`. -/
def UINT64_WRAP : Nat := 2 ^ 64

/-- Outcomes of the calls `ext2fs_read_file` makes. -/
structure ReadEnv where
  /-- Outcome of `ext2_superblock_get_block_size` -/
  block_size : Nat
  /-- Outcome of `ext2_filesystem_get_inode_data_block_index` for a logical block:
  an error code or the physical block index, 0 for a block that is not
  allocated -/
  block_index : Nat → Except Errno Nat
  /-- Outcome of `malloc(bytes)` for the buffer of zeros: it is not `NULL` -/
  buffer : Bool
  /-- Outcome of `block_get` for a device handle and a physical block index: an
  error code or the bytes of the block -/
  block : Nat → Nat → Except Errno (List Nat)
  /-- Outcome of `block_put` -/
  block_put : Except Errno Unit

/-- What a read sends back: `data` to the data-read request `callid`, the bytes
of `async_data_read_finalize` or the code of `async_answer_0`, and `answer` to
the request `rid`. -/
structure ReadReply where
  data : Except Errno (List Nat)
  answer : Answer

/-- The byte count `ext2fs_read_file` computes for a read of `size` bytes at
`pos` below `file_size`: the rest of the block or `size`, whichever is smaller
(`min` of `macros.h`), cut at the end of the file when the 64-bit sum
`pos + bytes` is above `file_size`. -/
def ext2fs_read_file_bytes (pos size file_size block_size : Nat) : Nat :=
  let offset_in_block := pos % block_size
  let bytes :=
    if block_size - offset_in_block < size then block_size - offset_in_block else size
  if (pos + bytes) % UINT64_WRAP > file_size then file_size - pos else bytes

/-- The function `ext2fs_read_file`.  The size of the file is the size of the decoded
record (`ext2_inode_get_size`, modelled from the spec: "object_size(record)").
The count written to `size_t bytes` at the end of the file is below the count
it replaces, so the assignment does not truncate. -/
def ext2fs_read_file (pos size : Nat) (inst : ext2fs_instance) (inode_ref : ext2_inode_ref)
    (env : ReadEnv) : Except Fault ReadReply :=
  let file_size := inode_ref.inode.size
  if pos ≥ file_size then
    .ok { data := .ok [], answer := .ok [0] }
  else
    let block_size := env.block_size
    if block_size = 0 then .error .division_by_zero
    else
      let file_block := pos / block_size
      let offset_in_block := pos % block_size
      let bytes := ext2fs_read_file_bytes pos size file_size block_size
      match env.block_index file_block with
      | .error rc => .ok { data := .error rc, answer := .error rc }
      | .ok fs_block =>
        if fs_block = 0 then
          if env.buffer then
            .ok { data := .ok (List.replicate bytes 0), answer := .ok [bytes] }
          else .ok { data := .error .ENOMEM, answer := .error .ENOMEM }
        else
          match env.block inst.devmap_handle fs_block with
          | .error rc => .ok { data := .error rc, answer := .error rc }
          | .ok block_data =>
            if offset_in_block + bytes ≤ block_size then
              let sent := (block_data.drop offset_in_block).take bytes
              match env.block_put with
              | .error rc => .ok { data := .ok sent, answer := .error rc }
              | .ok _ => .ok { data := .ok sent, answer := .ok [bytes] }
            else .error .assert_block_bounds

/-! ## Directories, name lookup and the operations that are not supported -/

/-- Modelled from the spec: the mask of the type bits in the mode of a record,
`EXT2_INODE_MODE_TYPE_MASK` of libext2 (the header is not among the sources). -/
def EXT2_INODE_MODE_TYPE_MASK : Nat := 0xF000

/-- Modelled from the spec: the type bits of a directory,
`EXT2_INODE_MODE_DIRECTORY` of libext2. -/
def EXT2_INODE_MODE_DIRECTORY : Nat := 0x4000

/-- Modelled from the spec: the type bits of a regular file,
`EXT2_INODE_MODE_FILE` of libext2. -/
def EXT2_INODE_MODE_FILE : Nat := 0x8000

/-- Modelled from the spec: `ext2_inode_is_type` of libext2,
"object_type(record) -> {File, Directory, Other}": the type bits of the mode
are those of `mode_type`. -/
def ext2_inode_is_type (inode : ext2_inode) (mode_type : Nat) : Bool :=
  (inode.mode &&& EXT2_INODE_MODE_TYPE_MASK) == mode_type

/-- Modelled from the spec: a directory entry (`ext2_directory_entry_ll_t` of
libext2) as far as the server looks at it: the object index `inode`, which is 0
in an entry that is deleted or empty, and `name`, the bytes of its name, as
many as `ext2_directory_entry_ll_get_name_length` says. -/
structure ext2_directory_entry_ll where
  inode : Nat
  name : List Nat
  deriving DecidableEq, Repr

/-- Modelled from the spec: `ext2_directory_entry_ll_get_name_length` of libext2. -/
def ext2_directory_entry_ll_get_name_length (entry : ext2_directory_entry_ll) : Nat :=
  entry.name.length

/-- Outcomes of the calls on an `ext2_directory_iterator_t` over one directory:
`ext2_directory_iterator_init`, the entries `it.current` goes through in the
order of the disk (it is `NULL` after the last), each with the outcome of the
`ext2_directory_iterator_next` that is called at it, and
`ext2_directory_iterator_fini`. -/
structure DirEnv where
  init : Except Errno Unit
  entries : List (ext2_directory_entry_ll × Except Errno Unit)
  fini : Except Errno Unit

/-- The function `ext2fs_is_dots`; 46 is the character `'.'`. -/
def ext2fs_is_dots (name : List Nat) (name_size : Nat) : Bool :=
  if name_size = 1 ∧ name.getD 0 0 = 46 then true
  else if name_size = 2 ∧ name.getD 0 0 = 46 ∧ name.getD 1 0 = 46 then true
  else false

/-- What a directory read sends back: `data` to the data-read request `callid`
(`none` when the request is left without an answer) and `answer` to the request
`rid`. -/
structure DirReply where
  data : Option (Except Errno (List Nat))
  answer : Answer

/-- The `while (it.current != NULL)` loop of `ext2fs_read_directory` from the
entry `it.current` on, with the value of `cur`.  It ends with an error code
that goes to both requests, or with `found`: `some` of the bytes handed to
`async_data_read_finalize`, or `none`.  `buffer` tells whether `malloc` gives
a buffer; `cur` is an `aoff64_t`. -/
def ext2fs_read_directory_loop (pos : Nat) (buffer : Bool) :
    Nat → List (ext2_directory_entry_ll × Except Errno Unit) →
      Except Errno (Option (List Nat))
  | _, [] => .ok none
  | cur, (current, next_rc) :: rest =>
    if current.inode = 0 then
      match next_rc with
      | .error rc => .error rc
      | .ok _ => ext2fs_read_directory_loop pos buffer cur rest
    else if ext2fs_is_dots current.name (ext2_directory_entry_ll_get_name_length current) then
      match next_rc with
      | .error rc => .error rc
      | .ok _ => ext2fs_read_directory_loop pos buffer cur rest
    else if cur = pos then
      if buffer then .ok (some (current.name ++ [0]))
      else .error .ENOMEM
    else
      match next_rc with
      | .error rc => .error rc
      | .ok _ => ext2fs_read_directory_loop pos buffer ((cur + 1) % UINT64_WRAP) rest

/-- The function `ext2fs_read_directory`.  The size of the request is not looked
at; the instance and the reference are handed to
`ext2_directory_iterator_init`, whose outcomes are `dir`. -/
def ext2fs_read_directory (pos _size : Nat) (_inst : ext2fs_instance)
    (_inode_ref : ext2_inode_ref) (dir : DirEnv) (buffer : Bool) : DirReply :=
  match dir.init with
  | .error rc => { data := some (.error rc), answer := .error rc }
  | .ok _ =>
    match ext2fs_read_directory_loop pos buffer 0 dir.entries with
    | .error rc => { data := some (.error rc), answer := .error rc }
    | .ok found =>
      match dir.fini with
      | .error rc => { data := found.map .ok, answer := .error rc }
      | .ok _ =>
        match found with
        | some name => { data := some (.ok name), answer := .ok [1] }
        | none => { data := some (.error .ENOENT), answer := .error .ENOENT }

/-- The `while (it.current != NULL)` loop of `ext2fs_has_children`: an error
code, or `found`. -/
def ext2fs_has_children_loop :
    List (ext2_directory_entry_ll × Except Errno Unit) → Except Errno Bool
  | [] => .ok false
  | (current, next_rc) :: rest =>
    if current.inode ≠ 0 ∧
        ¬ ext2fs_is_dots current.name (ext2_directory_entry_ll_get_name_length current) then
      .ok true
    else
      match next_rc with
      | .error rc => .error rc
      | .ok _ => ext2fs_has_children_loop rest

/-- The function `ext2fs_has_children`: `rc`, with `*has_children` when `rc == EOK`. -/
def ext2fs_has_children (s : State) (fn : Nat) (dir : DirEnv) :
    Except Fault (Except Errno Bool) :=
  match s.nodes fn with
  | none => .error .wild_pointer
  | some enode =>
    match s.insts enode.inst with
    | none => .error .wild_pointer
    | some _ =>
      if ¬ ext2_inode_is_type enode.inode_ref.inode EXT2_INODE_MODE_DIRECTORY then
        .ok (.ok false)
      else
        match dir.init with
        | .error rc => .ok (.error rc)
        | .ok _ =>
          match ext2fs_has_children_loop dir.entries with
          | .error rc => .ok (.error rc)
          | .ok found =>
            match dir.fini with
            | .error rc => .ok (.error rc)
            | .ok _ => .ok (.ok found)

/-- Modelled from the spec: `bcmp` of the C library, "byte-for-byte equal": 0
when the first `n` bytes of the two areas are the same. -/
def bcmp (s1 s2 : List Nat) (n : Nat) : Nat :=
  if s1.take n = s2.take n then 0 else 1

/-- The `while (it.current != NULL)` loop of `ext2fs_match` from the entry
`it.current` on: a fault, or with the state afterwards an error code or
`found`, `some` of `*rfn` or `none`.  `component` holds the bytes of the name
before the terminating 0, so `component_size` is its length; `instance` is
`eparent->instance`. -/
def ext2fs_match_loop (s : State) (inst : Nat) (component : List Nat) (env : GetEnv) :
    List (ext2_directory_entry_ll × Except Errno Unit) →
      Except Fault (Except Errno (Option Nat) × State)
  | [] => .ok (.ok none, s)
  | (current, next_rc) :: rest =>
    if current.inode ≠ 0 ∧
        (ext2_directory_entry_ll_get_name_length current = component.length ∧
          bcmp component current.name (ext2_directory_entry_ll_get_name_length current) = 0) then
      match ext2fs_node_get_core s inst current.inode env with
      | .error f => .error f
      | .ok (.error rc, s1) => .ok (.error rc, s1)
      | .ok (.ok rfn, s1) => .ok (.ok (some rfn), s1)
    else
      match next_rc with
      | .error rc => .ok (.error rc, s)
      | .ok _ => ext2fs_match_loop s inst component env rest

/-- The function `ext2fs_match`: `rc`, with `*rfn` when `rc == EOK`, and the state
afterwards; what `ext2_directory_iterator_fini` returns is not looked at. -/
def ext2fs_match (s : State) (pfn : Nat) (component : List Nat) (dir : DirEnv)
    (env : GetEnv) : Except Fault (Except Errno Nat × State) :=
  match s.nodes pfn with
  | none => .error .wild_pointer
  | some eparent =>
    match s.insts eparent.inst with
    | none => .error .wild_pointer
    | some _ =>
      if ¬ ext2_inode_is_type eparent.inode_ref.inode EXT2_INODE_MODE_DIRECTORY then
        .ok (.error .ENOTDIR, s)
      else
        match dir.init with
        | .error rc => .ok (.error rc, s)
        | .ok _ =>
          match ext2fs_match_loop s eparent.inst component env dir.entries with
          | .error f => .error f
          | .ok (.error rc, s1) => .ok (.error rc, s1)
          | .ok (.ok none, s1) => .ok (.error .ENOENT, s1)
          | .ok (.ok (some rfn), s1) => .ok (.ok rfn, s1)

/-- The function `ext2fs_create_node`. -/
def ext2fs_create_node (s : State) (_devmap_handle _flags : Nat) :
    Except Errno Nat × State :=
  (.error .ENOTSUP, s)

/-- The function `ext2fs_destroy_node`. -/
def ext2fs_destroy_node (s : State) (_fn : Nat) : Except Errno Unit × State :=
  (.error .ENOTSUP, s)

/-- The function `ext2fs_link`. -/
def ext2fs_link (s : State) (_pfn _cfn : Nat) (_name : List Nat) : Except Errno Unit × State :=
  (.error .ENOTSUP, s)

/-- The function `ext2fs_unlink`. -/
def ext2fs_unlink (s : State) (_pfn _cfn : Nat) (_nm : List Nat) : Except Errno Unit × State :=
  (.error .ENOTSUP, s)

/-- The function `ext2fs_write`; the request is its list of arguments. -/
def ext2fs_write (s : State) (_request : List Nat) : Answer × State :=
  (.error .ENOTSUP, s)

/-- The function `ext2fs_truncate`. -/
def ext2fs_truncate (s : State) (_request : List Nat) : Answer × State :=
  (.error .ENOTSUP, s)

/-- The function `ext2fs_destroy`. -/
def ext2fs_destroy (s : State) (_request : List Nat) : Answer × State :=
  (.error .ENOTSUP, s)

/-- An entry survives the filter of a directory read and of
`ext2fs_has_children`: its object index is not 0 and its name is neither "."
nor "..". -/
def is_visible (entry : ext2_directory_entry_ll) : Bool :=
  entry.inode != 0 && !ext2fs_is_dots entry.name entry.name.length

/-- The entries a directory read counts, in the order of the disk. -/
def visible_entries (dir : DirEnv) : List ext2_directory_entry_ll :=
  (dir.entries.map Prod.fst).filter is_visible

/-- An entry is one that `ext2fs_match` accepts for a name: its object index is
not 0 and its name is the name, byte for byte. -/
def is_match (component : List Nat) (entry : ext2_directory_entry_ll) : Bool :=
  entry.inode != 0 && entry.name == component

/-- No `ext2_directory_iterator_next` of the walk fails. -/
def DirEnv.no_io_error (dir : DirEnv) : Prop :=
  ∀ x ∈ dir.entries, x.2 = .ok ()

/-- The count in the answer of a read, 0 when the read did not answer with one. -/
def answer_length : Except Fault ReadReply → Nat
  | .ok r =>
    match r.answer with
    | .ok [n] => n
    | _ => 0
  | .error _ => 0

/-- The offset of a caller that repeats a read of `size` bytes `k` times from
`pos` on, each time advancing the offset by the count of the answer. -/
def repeated_reads (size : Nat) (inst : ext2fs_instance) (inode_ref : ext2_inode_ref)
    (env : ReadEnv) : Nat → Nat → Nat
  | 0, pos => pos
  | k + 1, pos =>
    repeated_reads size inst inode_ref env k
      (pos + answer_length (ext2fs_read_file pos size inst inode_ref env))

/-! ## Concrete states -/

/-- A decoded record for the examples. -/
def demo_inode : ext2_inode := { mode := 0, size := 0, usage_count := 1 }

/-- Both allocations succeed, the node is placed at address `p`, and the record
decodes to `demo_inode`. -/
def demo_env (p : Nat) : GetEnv :=
  { enode := some p, node := true, inode := .ok demo_inode }

/-- Every call of a mount succeeds; the instance is placed at address 0 and the
root node at address 0 of the node heap. -/
def demo_mount_env : MountEnv :=
  { opts := .ok (), fs := some 100, inst := some 0, init := .ok (), check_sanity := .ok (),
    check_flags := .ok true, root := demo_env 0, root_put := .ok () }

/-- The state in which device 7 is mounted (instance at address 0) and the `k`
objects with index `0, ..., k - 1` are open, object `q` in the node at address
`q` with one reference. -/
def many_nodes (k : Nat) : State :=
  { insts := fun q =>
      if q = 0 then
        some { devmap_handle := 7, filesystem := 100, open_nodes_count := k % UINT_WRAP }
      else none,
    nodes := fun q =>
      if q < k then
        some { inst := 0, inode_ref := { index := q, inode := demo_inode }, references := 1 }
      else none,
    instance_list := [0],
    open_nodes := List.range k }

/-- The state `many_nodes 1` after `k` more references to its one node were
taken. -/
def many_references (k : Nat) : State :=
  (many_nodes 1).set_node 0 (some
    { inst := 0, inode_ref := { index := 0, inode := demo_inode },
      references := (1 + k) % UINT_WRAP })

/-- The state after the only reference of `many_nodes 1` was released and
`ext2_filesystem_put_inode_ref` failed: the node is out of the cache, and it is
not freed. -/
def leaked_node : State :=
  match ext2fs_node_put (many_nodes 1) 0 (.error (.other 5)) with
  | .ok (_, s) => s
  | .error _ => State.init

/-- The outcomes for a call of `ext2fs_node_get_core` in which every call it
could make fails; a call that finds the node in the cache makes none. -/
def idle_env : GetEnv :=
  { enode := none, node := false, inode := .error .ENOMEM }

/-- Two opens and a close of object 9, which is not cached in `many_nodes 2`. -/
def demo_calls : List Call :=
  [Call.open_node (demo_env 5), Call.open_node idle_env, Call.close_node (.ok ())]

/-- Every call of a second mount succeeds; the instance is placed at address 1
and the root node at address 9. -/
def second_mount_env : MountEnv :=
  { opts := .ok (), fs := some 101, inst := some 1, init := .ok (), check_sanity := .ok (),
    check_flags := .ok true, root := demo_env 9, root_put := .ok () }

/-- The state after device 7 was mounted a second time while object 0 of the
first mount is open. -/
def mounted_twice : State :=
  match ext2fs_mounted (many_nodes 1) 7 second_mount_env with
  | .ok (_, s) => s
  | .error _ => State.init

/-- Outcomes of a mount in which every call succeeds up to the decoding of the
root record, which fails; the instance is placed at address 1. -/
def failed_root_env : MountEnv :=
  { opts := .ok (), fs := some 101, inst := some 1, init := .ok (), check_sanity := .ok (),
    check_flags := .ok false, root := { enode := some 9, node := true, inode := .error (.other 5) },
    root_put := .ok () }

/-- The state after device 7 was mounted twice from start-up. -/
def registered_twice : State :=
  match ext2fs_mounted (many_nodes 0) 7 second_mount_env with
  | .ok (_, s) => s
  | .error _ => State.init

/-- The instance of the examples of a read. -/
def demo_instance : ext2fs_instance :=
  { devmap_handle := 7, filesystem := 100, open_nodes_count := 1 }

/-- The reference of object 12, a file of `file_size` bytes. -/
def file_of_size (file_size : Nat) : ext2_inode_ref :=
  { index := 12, inode := { mode := 0, size := file_size, usage_count := 1 } }

/-- Outcomes of the calls of a read on a volume with blocks of `block_size`
bytes: logical block 2 of the file is not allocated, logical block `b` is
physical block `b + 10` otherwise; every call succeeds, and byte `j` of every
block of the device is `j % 256`. -/
def demo_read_env (block_size : Nat) : ReadEnv :=
  { block_size := block_size,
    block_index := fun b => if b = 2 then .ok 0 else .ok (b + 10),
    buffer := true,
    block := fun _ _ => .ok ((List.range block_size).map (fun j => j % 256)),
    block_put := .ok () }

/-- Outcomes of the calls of a read in which every call fails and the block
size is 0. -/
def failing_read_env : ReadEnv :=
  { block_size := 0,
    block_index := fun _ => .error (.other 5),
    buffer := false,
    block := fun _ _ => .error (.other 5),
    block_put := .error (.other 5) }

/-- A directory record. -/
def dir_inode : ext2_inode := { mode := 0x41ED, size := 1024, usage_count := 2 }

/-- The stream of a directory with the entries ".", "..", "a", "b" and "c" (objects
5, 2, 13, 14 and 15) that is walked without an error. -/
def demo_dir : DirEnv :=
  { init := .ok (),
    entries := [(⟨5, [46]⟩, .ok ()), (⟨2, [46, 46]⟩, .ok ()), (⟨13, [97]⟩, .ok ()),
      (⟨14, [98]⟩, .ok ()), (⟨15, [99]⟩, .ok ())],
    fini := .ok () }

/-- The stream of a directory that holds ".", ".." and a deleted entry only. -/
def empty_dir : DirEnv :=
  { init := .ok (),
    entries := [(⟨5, [46]⟩, .ok ()), (⟨2, [46, 46]⟩, .ok ()), (⟨0, [97]⟩, .ok ())],
    fini := .ok () }

/-- Both allocations succeed, the node is placed at address `p`, and the record
decodes to the directory record `dir_inode`. -/
def dir_env (p : Nat) : GetEnv :=
  { enode := some p, node := true, inode := .ok dir_inode }

/-- The state `many_nodes 1` after directory 5 of the volume was opened: its
node is at address 1. -/
def dir_open : State :=
  match ext2fs_node_get_core (many_nodes 1) 0 5 (dir_env 1) with
  | .ok (_, s) => s
  | .error _ => State.init

/-- The state `dir_open` after file 13 of the volume, the entry "a" of directory
5, was opened: its node is at address 2. -/
def file_open : State :=
  match ext2fs_node_get_core dir_open 0 13 (demo_env 2) with
  | .ok (_, s) => s
  | .error _ => State.init

/-- The state `file_open` after `UINT_MAX - 1` more references to file 13 were
taken. -/
def file_full : State :=
  file_open.set_node 2 (some
    { inst := 0, inode_ref := { index := 13, inode := demo_inode }, references := 4294967295 })

/-- Every collaborator call of a file read succeeds: the lookup of every logical
block, the allocation of the buffer of zeros, `block_get` of every block and
`block_put`. -/
def ReadEnv.succeeds (env : ReadEnv) : Prop :=
  (∀ b, ∃ fs_block, env.block_index b = .ok fs_block) ∧ env.buffer = true ∧
    (∀ d b, ∃ block_data, env.block d b = .ok block_data) ∧ env.block_put = .ok ()

/-! ## Lookup in the cache and the frame of a heap write -/

theorem node_key_isSome_of_wf {s : State} (h : WF s) {p : Nat} (hp : p ∈ s.open_nodes) :
    ∃ k, node_key s p = some k := by
  obtain ⟨n, hn⟩ := h.cached_live p hp
  obtain ⟨i, hi⟩ := h.node_inst p n hn
  exact ⟨(i.devmap_handle, n.inode_ref.index), by simp [node_key, hn, hi]⟩

theorem open_nodes_compare_of_key {s : State} {key k : Key} {p : Nat}
    (h : node_key s p = some k) :
    open_nodes_compare s key OPEN_NODES_KEYS p = .ok (decide (k = key)) := by
  unfold node_key at h
  unfold open_nodes_compare
  rw [if_pos (by decide : OPEN_NODES_KEYS > 0)]
  cases hn : s.nodes p with
  | none => simp [hn] at h
  | some n =>
    simp only [hn] at h ⊢
    cases hi : s.insts n.inst with
    | none => simp [hi] at h
    | some i =>
      simp only [hi, Option.some.injEq] at h ⊢
      subst h
      obtain ⟨k1, k2⟩ := key
      by_cases h1 : i.devmap_handle = k1
      · by_cases h2 : n.inode_ref.index = k2 <;> simp [OPEN_NODES_KEYS, h1, h2]
      · simp [OPEN_NODES_KEYS, h1]

theorem hash_table_find_eq {s : State} {key : Key} :
    ∀ l : List Nat, (∀ p ∈ l, ∃ k, node_key s p = some k) →
      hash_table_find s key l = .ok (l.find? (fun p => decide (node_key s p = some key))) := by
  intro l
  induction l with
  | nil => intro _; rfl
  | cons cur rest ih =>
    intro h
    obtain ⟨k, hk⟩ := h cur (List.mem_cons_self _ _)
    have ih1 := ih (fun p hp => h p (List.mem_cons_of_mem _ hp))
    unfold hash_table_find
    rw [open_nodes_compare_of_key hk]
    by_cases hkk : k = key
    · subst hkk; simp [hk]
    · simp [hkk, hk, ih1]

@[simp] theorem set_node_nodes (s : State) (p : Nat) (v : Option ext2fs_node) :
    (s.set_node p v).nodes = Function.update s.nodes p v := rfl
@[simp] theorem set_node_insts (s : State) (p : Nat) (v : Option ext2fs_node) :
    (s.set_node p v).insts = s.insts := rfl
@[simp] theorem set_node_open_nodes (s : State) (p : Nat) (v : Option ext2fs_node) :
    (s.set_node p v).open_nodes = s.open_nodes := rfl
@[simp] theorem set_node_instance_list (s : State) (p : Nat) (v : Option ext2fs_node) :
    (s.set_node p v).instance_list = s.instance_list := rfl
@[simp] theorem set_inst_nodes (s : State) (p : Nat) (v : Option ext2fs_instance) :
    (s.set_inst p v).nodes = s.nodes := rfl
@[simp] theorem set_inst_insts (s : State) (p : Nat) (v : Option ext2fs_instance) :
    (s.set_inst p v).insts = Function.update s.insts p v := rfl
@[simp] theorem set_inst_open_nodes (s : State) (p : Nat) (v : Option ext2fs_instance) :
    (s.set_inst p v).open_nodes = s.open_nodes := rfl
@[simp] theorem set_inst_instance_list (s : State) (p : Nat) (v : Option ext2fs_instance) :
    (s.set_inst p v).instance_list = s.instance_list := rfl

theorem node_key_congr {s s' : State} {q q' : Nat}
    (hn : (s'.nodes q').map node_ident = (s.nodes q).map node_ident)
    (hi : ∀ ip, (s'.insts ip).map (fun i => i.devmap_handle) =
      (s.insts ip).map (fun i => i.devmap_handle)) :
    node_key s' q' = node_key s q := by
  unfold node_key
  cases h1 : s.nodes q with
  | none =>
    rw [h1] at hn
    cases h2 : s'.nodes q' with
    | none => rfl
    | some n' => rw [h2] at hn; simp at hn
  | some n =>
    rw [h1] at hn
    cases h2 : s'.nodes q' with
    | none => rw [h2] at hn; simp at hn
    | some n' =>
      rw [h2] at hn
      simp only [Option.map_some', Option.some.injEq, node_ident, Prod.mk.injEq] at hn
      have hi1 := hi n.inst
      simp only [hn.1, hn.2]
      cases h3 : s.insts n.inst with
      | none =>
        rw [h3] at hi1
        cases h4 : s'.insts n.inst with
        | none => rfl
        | some i' => rw [h4] at hi1; simp at hi1
      | some i =>
        rw [h3] at hi1
        cases h4 : s'.insts n.inst with
        | none => rw [h4] at hi1; simp at hi1
        | some i' =>
          rw [h4] at hi1
          simp only [Option.map_some', Option.some.injEq] at hi1
          simp [hi1]

theorem owned_by_congr {s s' : State} {ip q : Nat}
    (hn : (s'.nodes q).map node_ident = (s.nodes q).map node_ident) :
    owned_by s' ip q = owned_by s ip q := by
  unfold owned_by
  cases h1 : s.nodes q with
  | none =>
    rw [h1] at hn
    cases h2 : s'.nodes q with
    | none => rfl
    | some n' => rw [h2] at hn; simp at hn
  | some n =>
    rw [h1] at hn
    cases h2 : s'.nodes q with
    | none => rw [h2] at hn; simp at hn
    | some n' =>
      rw [h2] at hn
      simp only [Option.map_some', Option.some.injEq, node_ident, Prod.mk.injEq] at hn
      simp [hn.1]

theorem cached_nodes_of_congr {s s' : State} {ip : Nat}
    (ho : s'.open_nodes = s.open_nodes)
    (hn : ∀ q ∈ s.open_nodes, (s'.nodes q).map node_ident = (s.nodes q).map node_ident) :
    cached_nodes_of s' ip = cached_nodes_of s ip := by
  unfold cached_nodes_of
  rw [ho]
  apply List.filter_congr
  intro q hq
  exact owned_by_congr (hn q hq)

/-- Writing a new reference count into a live node keeps the state consistent,
as long as a positive count is written to a cached node only. -/
theorem WF.set_references {s : State} (h : WF s) {p : Nat} {n : ext2fs_node} {r : Nat}
    (hp : s.nodes p = some n) (hr : r < UINT_WRAP) (hc : 0 < r → p ∈ s.open_nodes) :
    WF (s.set_node p (some { n with references := r })) := by
  have hid : ∀ q, (Function.update s.nodes p (some { n with references := r }) q).map node_ident
      = (s.nodes q).map node_ident := by
    intro q
    by_cases hq : q = p
    · subst hq; simp [hp, node_ident]
    · simp [Function.update_noteq hq]
  have hkey : ∀ q, node_key (s.set_node p (some { n with references := r })) q = node_key s q :=
    fun q => node_key_congr (hid q) (fun _ => rfl)
  refine ⟨?_, ?_, h.nodup, ?_, ?_, ?_, ?_, h.list_live, h.list_nodup⟩
  · intro q m hm
    rw [set_node_nodes] at hm
    by_cases hq : q = p
    · subst hq
      simp only [Function.update_same, Option.some.injEq] at hm
      subst hm
      exact h.node_inst q n hp
    · rw [Function.update_noteq hq] at hm
      exact h.node_inst q m hm
  · intro q hq
    by_cases hqp : q = p
    · subst hqp; exact ⟨_, Function.update_same _ _ _⟩
    · obtain ⟨m, hm⟩ := h.cached_live q hq
      exact ⟨m, by simp [Function.update_noteq hqp, hm]⟩
  · intro a ha b hb hab
    rw [hkey a, hkey b] at hab
    exact h.unique a ha b hb hab
  · intro q m hm hpos
    rw [set_node_nodes] at hm
    by_cases hq : q = p
    · subst hq
      simp only [Function.update_same, Option.some.injEq] at hm
      subst hm
      exact hc hpos
    · rw [Function.update_noteq hq] at hm
      exact h.referenced_cached q m hm hpos
  · intro q m hm
    rw [set_node_nodes] at hm
    by_cases hq : q = p
    · subst hq
      simp only [Function.update_same, Option.some.injEq] at hm
      subst hm
      exact hr
    · rw [Function.update_noteq hq] at hm
      exact h.references_lt q m hm
  · intro ip i hi
    have hcn : cached_nodes_of (s.set_node p (some { n with references := r })) ip
        = cached_nodes_of s ip := cached_nodes_of_congr rfl (fun q _ => hid q)
    rw [hcn]
    exact h.count ip i hi

@[simp] theorem hash_table_insert_nodes (s : State) (p : Nat) :
    (hash_table_insert s p).nodes = s.nodes := rfl
@[simp] theorem hash_table_insert_insts (s : State) (p : Nat) :
    (hash_table_insert s p).insts = s.insts := rfl
@[simp] theorem hash_table_insert_open_nodes (s : State) (p : Nat) :
    (hash_table_insert s p).open_nodes = s.open_nodes ++ [p] := rfl
@[simp] theorem hash_table_insert_instance_list (s : State) (p : Nat) :
    (hash_table_insert s p).instance_list = s.instance_list := rfl

/-- Two states agree on everything the cache key of `q` depends on. -/
theorem node_key_eq_of_eq {s s' : State} {q : Nat} (hn : s'.nodes q = s.nodes q)
    (hi : ∀ ip i, s.insts ip = some i → ∃ i', s'.insts ip = some i' ∧
      i'.devmap_handle = i.devmap_handle)
    (hl : ∀ n, s.nodes q = some n → ∃ i, s.insts n.inst = some i) :
    node_key s' q = node_key s q := by
  unfold node_key
  rw [hn]
  cases h1 : s.nodes q with
  | none => rfl
  | some n =>
    obtain ⟨i, h2⟩ := hl n h1
    obtain ⟨i', h3, h4⟩ := hi _ _ h2
    simp [h2, h3, h4]

theorem owned_by_eq_of_eq {s s' : State} {ip q : Nat} (hn : s'.nodes q = s.nodes q) :
    owned_by s' ip q = owned_by s ip q := by
  unfold owned_by
  rw [hn]

theorem uint_succ_mod (len : Nat) : (len % UINT_WRAP + 1) % UINT_WRAP = (len + 1) % UINT_WRAP := by
  simp only [UINT_WRAP]; omega

theorem uint_pred_mod (len : Nat) (h : 0 < len % UINT_WRAP) :
    (len % UINT_WRAP + UINT_MAX) % UINT_WRAP = (len - 1) % UINT_WRAP := by
  simp only [UINT_WRAP, UINT_MAX] at h ⊢; omega

/-- The new-node path of `ext2fs_node_get_core` keeps the state consistent. -/
theorem WF.insert_node {s : State} (h : WF s) {inst p index : Nat} {i : ext2fs_instance}
    (inode : ext2_inode) (hi : s.insts inst = some i) (hp : s.nodes p = none)
    (hfree : ∀ q ∈ s.open_nodes, node_key s q ≠ some (i.devmap_handle, index)) :
    WF ((hash_table_insert (s.set_node p (some
      { inst := inst, inode_ref := { index := index, inode := inode }, references := 1 })) p).set_inst
      inst (some { i with open_nodes_count := (i.open_nodes_count + 1) % UINT_WRAP })) := by
  have hpo : p ∉ s.open_nodes := by
    intro hmem
    obtain ⟨n, hn⟩ := h.cached_live p hmem
    rw [hp] at hn; cases hn
  generalize hs' : (hash_table_insert (s.set_node p (some
      { inst := inst, inode_ref := { index := index, inode := inode }, references := 1 })) p).set_inst
      inst (some { i with open_nodes_count := (i.open_nodes_count + 1) % UINT_WRAP }) = s'
  have e_nodes : s'.nodes = Function.update s.nodes p (some
      { inst := inst, inode_ref := { index := index, inode := inode }, references := 1 }) := by
    rw [← hs']; rfl
  have e_insts : s'.insts = Function.update s.insts inst
      (some { i with open_nodes_count := (i.open_nodes_count + 1) % UINT_WRAP }) := by
    rw [← hs']; rfl
  have e_open : s'.open_nodes = s.open_nodes ++ [p] := by rw [← hs']; rfl
  have e_list : s'.instance_list = s.instance_list := by rw [← hs']; rfl
  have hinsts : ∀ ip j, s.insts ip = some j → ∃ j', s'.insts ip = some j' ∧
      j'.devmap_handle = j.devmap_handle := by
    intro ip j hj
    rw [e_insts]
    by_cases hip : ip = inst
    · subst hip
      rw [hi] at hj; cases hj
      exact ⟨_, Function.update_same _ _ _, rfl⟩
    · exact ⟨j, by rw [Function.update_noteq hip]; exact hj, rfl⟩
  have hnodes : ∀ q, q ≠ p → s'.nodes q = s.nodes q := by
    intro q hq; rw [e_nodes, Function.update_noteq hq]
  have hnp : s'.nodes p = some
      { inst := inst, inode_ref := { index := index, inode := inode }, references := 1 } := by
    rw [e_nodes, Function.update_same]
  have hkey : ∀ q ∈ s.open_nodes, node_key s' q = node_key s q := by
    intro q hq
    have hqp : q ≠ p := fun e => hpo (e ▸ hq)
    exact node_key_eq_of_eq (hnodes q hqp) hinsts (fun n hn => h.node_inst q n hn)
  have hkeyp : node_key s' p = some (i.devmap_handle, index) := by
    obtain ⟨j', hj', hh⟩ := hinsts inst i hi
    simp [node_key, hnp, hj', hh]
  refine ⟨?_, ?_, ?_, ?_, ?_, ?_, ?_, ?_, ?_⟩
  · intro q n hn
    by_cases hq : q = p
    · subst hq
      rw [hnp] at hn; cases hn
      obtain ⟨j', hj', -⟩ := hinsts inst i hi
      exact ⟨j', hj'⟩
    · rw [hnodes q hq] at hn
      obtain ⟨j, hj⟩ := h.node_inst q n hn
      obtain ⟨j', hj', -⟩ := hinsts _ j hj
      exact ⟨j', hj'⟩
  · intro q hq
    rw [e_open, List.mem_append, List.mem_singleton] at hq
    rcases hq with hq | hq
    · have hqp : q ≠ p := fun e => hpo (e ▸ hq)
      rw [hnodes q hqp]; exact h.cached_live q hq
    · subst hq; exact ⟨_, hnp⟩
  · rw [e_open]
    exact List.Nodup.append h.nodup (List.nodup_singleton p)
      (by intro x hx hx'; rw [List.mem_singleton] at hx'; subst hx'; exact hpo hx)
  · intro a ha b hb hab
    rw [e_open, List.mem_append, List.mem_singleton] at ha hb
    rcases ha with ha | ha <;> rcases hb with hb | hb
    · rw [hkey a ha, hkey b hb] at hab
      exact h.unique a ha b hb hab
    · subst hb
      rw [hkey a ha, hkeyp] at hab
      exact absurd hab (hfree a ha)
    · subst ha
      rw [hkey b hb, hkeyp] at hab
      exact absurd hab.symm (hfree b hb)
    · rw [ha, hb]
  · intro q n hn _
    rw [e_open, List.mem_append, List.mem_singleton]
    by_cases hq : q = p
    · exact Or.inr hq
    · rw [hnodes q hq] at hn
      by_cases hpos : 0 < n.references
      · exact Or.inl (h.referenced_cached q n hn hpos)
      · omega
  · intro q n hn
    by_cases hq : q = p
    · subst hq
      rw [hnp] at hn; cases hn
      simp [UINT_WRAP]
    · rw [hnodes q hq] at hn
      exact h.references_lt q n hn
  · intro ip j hj
    have hcn : cached_nodes_of s' ip =
        cached_nodes_of s ip ++ (if inst = ip then [p] else []) := by
      unfold cached_nodes_of
      rw [e_open, List.filter_append]
      congr 1
      · apply List.filter_congr
        intro q hq
        have hqp : q ≠ p := fun e => hpo (e ▸ hq)
        exact owned_by_eq_of_eq (hnodes q hqp)
      · by_cases hip : inst = ip <;> simp [owned_by, hnp, hip]
    rw [hcn]
    rw [e_insts] at hj
    by_cases hip : ip = inst
    · subst hip
      rw [Function.update_same] at hj; cases hj
      simp only [if_true, List.length_append, List.length_singleton]
      rw [h.count ip i hi]
      exact uint_succ_mod _
    · rw [Function.update_noteq hip] at hj
      have : ¬ inst = ip := fun e => hip e.symm
      simp only [this, if_false, List.append_nil]
      exact h.count ip j hj
  · intro ip hip
    rw [e_list] at hip
    obtain ⟨j, hj⟩ := h.list_live ip hip
    obtain ⟨j', hj', -⟩ := hinsts ip j hj
    exact ⟨j', hj'⟩
  · rw [e_list]; exact h.list_nodup

/-- Unlinking a cached node with no references and counting it out of its
instance, as `ext2fs_node_put_core` does, keeps the state consistent. -/
theorem WF.remove_node {s : State} (h : WF s) {p : Nat} {n : ext2fs_node} {i : ext2fs_instance}
    (hp : s.nodes p = some n) (hr : n.references = 0) (hmem : p ∈ s.open_nodes)
    (hi : s.insts n.inst = some i) (hc : 0 < i.open_nodes_count) :
    WF (({ s with open_nodes := s.open_nodes.erase p } : State).set_inst n.inst
      (some { i with open_nodes_count := (i.open_nodes_count + UINT_MAX) % UINT_WRAP })) := by
  generalize hs' : ({ s with open_nodes := s.open_nodes.erase p } : State).set_inst n.inst
      (some { i with open_nodes_count := (i.open_nodes_count + UINT_MAX) % UINT_WRAP }) = s'
  have e_nodes : s'.nodes = s.nodes := by rw [← hs']; rfl
  have e_insts : s'.insts = Function.update s.insts n.inst
      (some { i with open_nodes_count := (i.open_nodes_count + UINT_MAX) % UINT_WRAP }) := by
    rw [← hs']; rfl
  have e_open : s'.open_nodes = s.open_nodes.erase p := by rw [← hs']; rfl
  have e_list : s'.instance_list = s.instance_list := by rw [← hs']; rfl
  have hinsts : ∀ ip j, s.insts ip = some j → ∃ j', s'.insts ip = some j' ∧
      j'.devmap_handle = j.devmap_handle := by
    intro ip j hj
    rw [e_insts]
    by_cases hip : ip = n.inst
    · subst hip
      rw [hi] at hj; cases hj
      exact ⟨_, Function.update_same _ _ _, rfl⟩
    · exact ⟨j, by rw [Function.update_noteq hip]; exact hj, rfl⟩
  have hsub : ∀ q, q ∈ s'.open_nodes → q ∈ s.open_nodes ∧ q ≠ p := by
    intro q hq
    rw [e_open, h.nodup.mem_erase_iff] at hq
    exact ⟨hq.2, hq.1⟩
  have hkey : ∀ q, node_key s' q = node_key s q := fun q =>
    node_key_eq_of_eq (by rw [e_nodes]) hinsts (fun m hm => h.node_inst q m hm)
  refine ⟨?_, ?_, ?_, ?_, ?_, ?_, ?_, ?_, ?_⟩
  · intro q m hm
    rw [e_nodes] at hm
    obtain ⟨j, hj⟩ := h.node_inst q m hm
    obtain ⟨j', hj', -⟩ := hinsts _ j hj
    exact ⟨j', hj'⟩
  · intro q hq
    rw [e_nodes]; exact h.cached_live q (hsub q hq).1
  · rw [e_open]; exact h.nodup.erase p
  · intro a ha b hb hab
    rw [hkey a, hkey b] at hab
    exact h.unique a (hsub a ha).1 b (hsub b hb).1 hab
  · intro q m hm hpos
    rw [e_nodes] at hm
    have hq := h.referenced_cached q m hm hpos
    rw [e_open, h.nodup.mem_erase_iff]
    refine ⟨?_, hq⟩
    intro e
    subst e
    rw [hp] at hm; cases hm
    omega
  · intro q m hm
    rw [e_nodes] at hm
    exact h.references_lt q m hm
  · intro ip j hj
    have hcn : cached_nodes_of s' ip = (cached_nodes_of s ip).erase p := by
      unfold cached_nodes_of
      rw [e_open, List.erase_filter]
      apply List.filter_congr
      intro q _
      exact owned_by_eq_of_eq (by rw [e_nodes])
    rw [hcn]
    rw [e_insts] at hj
    by_cases hip : ip = n.inst
    · subst hip
      rw [Function.update_same] at hj; cases hj
      have hin : p ∈ cached_nodes_of s n.inst := by
        unfold cached_nodes_of
        rw [List.mem_filter]
        exact ⟨hmem, by simp [owned_by, hp]⟩
      rw [List.length_erase_of_mem hin]
      have hcount := h.count n.inst i hi
      simp only
      rw [hcount] at hc ⊢
      exact uint_pred_mod _ hc
    · rw [Function.update_noteq hip] at hj
      have hnin : p ∉ cached_nodes_of s ip := by
        unfold cached_nodes_of
        rw [List.mem_filter]
        rintro ⟨-, ho⟩
        simp only [owned_by, hp, beq_iff_eq] at ho
        exact hip ho.symm
      rw [List.erase_of_not_mem hnin]
      exact h.count ip j hj
  · intro ip hip
    rw [e_list] at hip
    obtain ⟨j, hj⟩ := h.list_live ip hip
    obtain ⟨j', hj', -⟩ := hinsts ip j hj
    exact ⟨j', hj'⟩
  · rw [e_list]; exact h.list_nodup

/-- Freeing a node that is not in the cache keeps the state consistent. -/
theorem WF.free_node {s : State} (h : WF s) {p : Nat} (hp : p ∉ s.open_nodes) :
    WF (s.set_node p none) := by
  have hnodes : ∀ q, q ≠ p → (s.set_node p none).nodes q = s.nodes q := by
    intro q hq; rw [set_node_nodes, Function.update_noteq hq]
  have hne : ∀ q ∈ s.open_nodes, q ≠ p := fun q hq e => hp (e ▸ hq)
  have hlive : ∀ q m, (s.set_node p none).nodes q = some m → s.nodes q = some m := by
    intro q m hm
    by_cases hq : q = p
    · subst hq; rw [set_node_nodes, Function.update_same] at hm; cases hm
    · rw [hnodes q hq] at hm; exact hm
  refine ⟨?_, ?_, h.nodup, ?_, ?_, ?_, ?_, h.list_live, h.list_nodup⟩
  · intro q m hm
    exact h.node_inst q m (hlive q m hm)
  · intro q hq
    rw [hnodes q (hne q hq)]; exact h.cached_live q hq
  · intro a ha b hb hab
    have ka : node_key (s.set_node p none) a = node_key s a :=
      node_key_eq_of_eq (hnodes a (hne a ha)) (fun ip j hj => ⟨j, hj, rfl⟩)
        (fun m hm => h.node_inst a m hm)
    have kb : node_key (s.set_node p none) b = node_key s b :=
      node_key_eq_of_eq (hnodes b (hne b hb)) (fun ip j hj => ⟨j, hj, rfl⟩)
        (fun m hm => h.node_inst b m hm)
    rw [ka, kb] at hab
    exact h.unique a ha b hb hab
  · intro q m hm hpos
    exact h.referenced_cached q m (hlive q m hm) hpos
  · intro q m hm
    exact h.references_lt q m (hlive q m hm)
  · intro ip j hj
    have hcn : cached_nodes_of (s.set_node p none) ip = cached_nodes_of s ip := by
      unfold cached_nodes_of
      apply List.filter_congr
      intro q hq
      exact owned_by_eq_of_eq (hnodes q (hne q hq))
    rw [hcn]
    exact h.count ip j hj

/-! ## The operations in a consistent state -/

theorem hash_table_find_wf {s : State} (h : WF s) (key : Key) :
    hash_table_find s key s.open_nodes =
      .ok (s.open_nodes.find? (fun p => decide (node_key s p = some key))) :=
  hash_table_find_eq s.open_nodes (fun _ hp => node_key_isSome_of_wf h hp)

theorem hash_table_find_hit {s : State} (h : WF s) {key : Key} {p : Nat}
    (hp : p ∈ s.open_nodes) (hk : node_key s p = some key) :
    hash_table_find s key s.open_nodes = .ok (some p) := by
  rw [hash_table_find_wf h]
  cases hf : s.open_nodes.find? (fun p => decide (node_key s p = some key)) with
  | none =>
    rw [List.find?_eq_none] at hf
    exact absurd (by simpa using hk) (hf p hp)
  | some q =>
    have hq := List.mem_of_find?_eq_some hf
    have hqk := List.find?_some hf
    simp only [decide_eq_true_eq] at hqk
    rw [h.unique q hq p hp (hqk.trans hk.symm)]

theorem hash_table_find_miss {s : State} (h : WF s) {key : Key}
    (hk : ∀ q ∈ s.open_nodes, node_key s q ≠ some key) :
    hash_table_find s key s.open_nodes = .ok none := by
  rw [hash_table_find_wf h]
  congr 1
  rw [List.find?_eq_none]
  intro q hq
  simpa using hk q hq

/-- In a consistent state the lookup never faults, and it answers with a cached
node of that key or, when there is none, with nothing. -/
theorem hash_table_find_cases {s : State} (h : WF s) (key : Key) :
    (∃ p, p ∈ s.open_nodes ∧ node_key s p = some key ∧
        hash_table_find s key s.open_nodes = .ok (some p)) ∨
      ((∀ q ∈ s.open_nodes, node_key s q ≠ some key) ∧
        hash_table_find s key s.open_nodes = .ok none) := by
  by_cases hex : ∃ p, p ∈ s.open_nodes ∧ node_key s p = some key
  · obtain ⟨p, hp, hk⟩ := hex
    exact Or.inl ⟨p, hp, hk, hash_table_find_hit h hp hk⟩
  · have hk : ∀ q ∈ s.open_nodes, node_key s q ≠ some key :=
      fun q hq e => hex ⟨q, hq, e⟩
    exact Or.inr ⟨hk, hash_table_find_miss h hk⟩

/-- The function `ext2fs_node_get_core` on a key that is cached. -/
theorem ext2fs_node_get_core_hit {s : State} (h : WF s) {inst index p : Nat}
    {i : ext2fs_instance} {n : ext2fs_node} (env : GetEnv)
    (hi : s.insts inst = some i) (hp : p ∈ s.open_nodes)
    (hk : node_key s p = some (i.devmap_handle, index)) (hn : s.nodes p = some n) :
    ext2fs_node_get_core s inst index env =
      .ok (.ok p, s.set_node p (some { n with references := (n.references + 1) % UINT_WRAP })) := by
  unfold ext2fs_node_get_core
  simp only [hi, hash_table_find_hit h hp hk, hn]

/-- The function `ext2fs_node_get_core` on a key that is not cached. -/
theorem ext2fs_node_get_core_miss {s : State} (h : WF s) {inst index : Nat}
    {i : ext2fs_instance} (env : GetEnv)
    (hi : s.insts inst = some i)
    (hk : ∀ q ∈ s.open_nodes, node_key s q ≠ some (i.devmap_handle, index)) :
    ext2fs_node_get_core s inst index env =
      match env.enode with
      | none => .ok (.error .ENOMEM, s)
      | some p =>
        if env.node then
          match env.inode with
          | .error rc => .ok (.error rc, s)
          | .ok inode =>
            .ok (.ok p, (hash_table_insert (s.set_node p (some
              { inst := inst, inode_ref := { index := index, inode := inode }, references := 1 })) p).set_inst
              inst (some { i with open_nodes_count := (i.open_nodes_count + 1) % UINT_WRAP }))
        else .ok (.error .ENOMEM, s) := by
  unfold ext2fs_node_get_core
  simp only [hi, hash_table_find_miss h hk]

theorem uint_succ_lt (r : Nat) : (r + 1) % UINT_WRAP < UINT_WRAP :=
  Nat.mod_lt _ (by simp [UINT_WRAP])

/-- The function `ext2fs_node_get_core` keeps the state consistent. -/
theorem ext2fs_node_get_core_wf {s s' : State} (h : WF s) {inst index : Nat} {env : GetEnv}
    {rc : Except Errno Nat} (hf : env.fresh s)
    (hr : ext2fs_node_get_core s inst index env = .ok (rc, s')) : WF s' := by
  cases hi : s.insts inst with
  | none => simp [ext2fs_node_get_core, hi] at hr
  | some i =>
    rcases hash_table_find_cases h (i.devmap_handle, index) with ⟨p, hp, hk, -⟩ | ⟨hk, -⟩
    · obtain ⟨n, hn⟩ := h.cached_live p hp
      rw [ext2fs_node_get_core_hit h env hi hp hk hn] at hr
      simp only [Except.ok.injEq, Prod.mk.injEq] at hr
      rw [← hr.2]
      exact h.set_references hn (uint_succ_lt _) (fun _ => hp)
    · rw [ext2fs_node_get_core_miss h env hi hk] at hr
      cases he : env.enode with
      | none =>
        simp only [he, Except.ok.injEq, Prod.mk.injEq] at hr
        rw [← hr.2]; exact h
      | some p =>
        simp only [he] at hr
        cases hnode : env.node with
        | false =>
          simp only [hnode, Bool.false_eq_true, if_false, Except.ok.injEq, Prod.mk.injEq] at hr
          rw [← hr.2]; exact h
        | true =>
          simp only [hnode, if_true] at hr
          cases hino : env.inode with
          | error e =>
            simp only [hino, Except.ok.injEq, Prod.mk.injEq] at hr
            rw [← hr.2]; exact h
          | ok inode =>
            simp only [hino, Except.ok.injEq, Prod.mk.injEq] at hr
            rw [← hr.2]
            exact h.insert_node inode hi (hf p he) hk

theorem uint_decr (r : Nat) (h0 : 0 < r) (h1 : r < UINT_WRAP) :
    (r + UINT_MAX) % UINT_WRAP = r - 1 := by
  simp only [UINT_WRAP, UINT_MAX] at h1 ⊢; omega

theorem node_key_of_live {s : State} {p : Nat} {n : ext2fs_node} {i : ext2fs_instance}
    (hn : s.nodes p = some n) (hi : s.insts n.inst = some i) :
    node_key s p = some (i.devmap_handle, n.inode_ref.index) := by
  simp [node_key, hn, hi]

/-- The function `hash_table_remove` with the key of a cached node unlinks that node. -/
theorem hash_table_remove_cached {s : State} (h : WF s) {p : Nat} {n : ext2fs_node}
    {i : ext2fs_instance} (hn : s.nodes p = some n) (hp : p ∈ s.open_nodes)
    (hi : s.insts n.inst = some i) :
    hash_table_remove s (i.devmap_handle, n.inode_ref.index) =
      .ok { s with open_nodes := s.open_nodes.erase p } := by
  unfold hash_table_remove
  rw [hash_table_find_hit h hp (node_key_of_live hn hi)]

/-- The function `ext2fs_node_put_core` on a cached node when releasing the record fails. -/
theorem ext2fs_node_put_core_error {s : State} (h : WF s) {p : Nat} {n : ext2fs_node}
    {i : ext2fs_instance} (hn : s.nodes p = some n) (hp : p ∈ s.open_nodes)
    (hi : s.insts n.inst = some i) (hc : 0 < i.open_nodes_count) (rc : Errno) :
    ext2fs_node_put_core s p (.error rc) =
      .ok (.error rc, ({ s with open_nodes := s.open_nodes.erase p } : State).set_inst n.inst
        (some { i with open_nodes_count := (i.open_nodes_count + UINT_MAX) % UINT_WRAP })) := by
  unfold ext2fs_node_put_core
  simp only [hn, hi, hash_table_remove_cached h hn hp hi, hc, if_true]

/-- The function `ext2fs_node_put_core` on a cached node when releasing the record succeeds. -/
theorem ext2fs_node_put_core_ok {s : State} (h : WF s) {p : Nat} {n : ext2fs_node}
    {i : ext2fs_instance} (hn : s.nodes p = some n) (hp : p ∈ s.open_nodes)
    (hi : s.insts n.inst = some i) (hc : 0 < i.open_nodes_count) :
    ext2fs_node_put_core s p (.ok ()) =
      .ok (.ok (), (({ s with open_nodes := s.open_nodes.erase p } : State).set_inst n.inst
        (some { i with open_nodes_count := (i.open_nodes_count + UINT_MAX) % UINT_WRAP })).set_node
        p none) := by
  unfold ext2fs_node_put_core
  simp only [hn, hi, hash_table_remove_cached h hn hp hi, hc, if_true]

/-- The function `ext2fs_node_put` on a node with no reference stops at the assertion. -/
theorem ext2fs_node_put_zero {s : State} {p : Nat} {n : ext2fs_node}
    (hn : s.nodes p = some n) (hr : n.references = 0) (put_rc : Except Errno Unit) :
    ext2fs_node_put s p put_rc = .error .assert_references := by
  unfold ext2fs_node_put
  simp [hn, hr]

/-- The function `ext2fs_node_put` on a node with more than one reference. -/
theorem ext2fs_node_put_many {s : State} {p : Nat} {n : ext2fs_node}
    (hn : s.nodes p = some n) (hr : 1 < n.references) (hlt : n.references < UINT_WRAP)
    (put_rc : Except Errno Unit) :
    ext2fs_node_put s p put_rc =
      .ok (.ok (), s.set_node p (some { n with references := n.references - 1 })) := by
  unfold ext2fs_node_put
  have h0 : 0 < n.references := by omega
  have hd := uint_decr n.references h0 hlt
  have hne : ¬ n.references - 1 = 0 := by omega
  simp only [hn, h0, if_true, hd, hne, if_false]

/-- The function `ext2fs_node_put` on a node with exactly one reference passes the node, with
the count written back as 0, to `ext2fs_node_put_core`. -/
theorem ext2fs_node_put_one {s : State} {p : Nat} {n : ext2fs_node}
    (hn : s.nodes p = some n) (hr : n.references = 1) (put_rc : Except Errno Unit) :
    ext2fs_node_put s p put_rc =
      match ext2fs_node_put_core (s.set_node p (some { n with references := 0 })) p put_rc with
      | .error f => .error f
      | .ok (.error rc, s2) => .ok (.error rc, s2)
      | .ok (.ok _, s2) => .ok (.ok (), s2) := by
  unfold ext2fs_node_put
  have hd : (1 + UINT_MAX) % UINT_WRAP = 0 := by simp [UINT_WRAP, UINT_MAX]
  simp only [hn, hr, Nat.lt_one_iff, Nat.zero_lt_one, if_true, hd]

/-- The function `ext2fs_node_put` keeps the state consistent. -/
theorem ext2fs_node_put_wf {s s' : State} (h : WF s) {p : Nat} {put_rc rc : Except Errno Unit}
    (hr : ext2fs_node_put s p put_rc = .ok (rc, s')) : WF s' := by
  cases hn : s.nodes p with
  | none => simp [ext2fs_node_put, hn] at hr
  | some n =>
    have hlt := h.references_lt p n hn
    rcases Nat.lt_trichotomy n.references 1 with h0 | h1 | h2
    · rw [ext2fs_node_put_zero hn (by omega)] at hr; cases hr
    · have hp : p ∈ s.open_nodes := h.referenced_cached p n hn (by omega)
      obtain ⟨i, hi⟩ := h.node_inst p n hn
      have h1' : WF (s.set_node p (some { n with references := 0 })) :=
        h.set_references hn (by simp [UINT_WRAP]) (fun hpos => absurd hpos (by omega))
      have hn' : (s.set_node p (some { n with references := 0 })).nodes p
          = some { n with references := 0 } := by simp
      rw [ext2fs_node_put_one hn h1] at hr
      by_cases hc : 0 < i.open_nodes_count
      · have hw := h1'.remove_node hn' rfl hp hi hc
        cases put_rc with
        | error e =>
          rw [ext2fs_node_put_core_error h1' hn' hp hi hc] at hr
          simp only [Except.ok.injEq, Prod.mk.injEq] at hr
          rw [← hr.2]; exact hw
        | ok u =>
          cases u
          rw [ext2fs_node_put_core_ok h1' hn' hp hi hc] at hr
          simp only [Except.ok.injEq, Prod.mk.injEq] at hr
          rw [← hr.2]
          apply hw.free_node
          show p ∉ (s.open_nodes.erase p)
          rw [h.nodup.mem_erase_iff]
          exact fun e => e.1 rfl
      · have : ext2fs_node_put_core (s.set_node p (some { n with references := 0 })) p put_rc
            = .error .assert_open_nodes_count := by
          have hi' : (s.set_node p (some { n with references := 0 })).insts n.inst = some i := hi
          unfold ext2fs_node_put_core
          simp only [hn', hi', hash_table_remove_cached h1' hn' hp hi', gt_iff_lt, hc, if_false]
        rw [this] at hr; cases hr
    · rw [ext2fs_node_put_many hn h2 hlt] at hr
      simp only [Except.ok.injEq, Prod.mk.injEq] at hr
      rw [← hr.2]
      exact h.set_references hn (by omega)
        (fun _ => h.referenced_cached p n hn (by omega))

/-- A failing `ext2fs_node_get_core` returns the state it was given. -/
theorem ext2fs_node_get_core_error_state {s s' : State} {inst index : Nat} {env : GetEnv}
    {rc : Errno} (hr : ext2fs_node_get_core s inst index env = .ok (.error rc, s')) :
    s' = s := by
  unfold ext2fs_node_get_core at hr
  split at hr
  · cases hr
  · split at hr
    · cases hr
    · split at hr
      · cases hr
      · simp only [Except.ok.injEq, Prod.mk.injEq] at hr
        exact absurd hr.1 (by simp)
    · split at hr
      · simp only [Except.ok.injEq, Prod.mk.injEq] at hr
        exact hr.2.symm
      · split at hr
        · split at hr
          · simp only [Except.ok.injEq, Prod.mk.injEq] at hr
            exact hr.2.symm
          · simp only [Except.ok.injEq, Prod.mk.injEq] at hr
            exact absurd hr.1 (by simp)
        · simp only [Except.ok.injEq, Prod.mk.injEq] at hr
          exact hr.2.symm

theorem set_inst_set_inst_none {s : State} {ip : Nat} (h : s.insts ip = none)
    (v : Option ext2fs_instance) : (s.set_inst ip v).set_inst ip none = s := by
  obtain ⟨insts, nodes, il, opn⟩ := s
  simp only [State.set_inst, State.mk.injEq, and_true]
  funext q
  by_cases hq : q = ip
  · subst hq; simp at h; simp [h]
  · simp [Function.update_noteq hq]

/-- Initialising a freshly allocated instance keeps the state consistent. -/
theorem WF.add_inst {s : State} (h : WF s) {ip : Nat} (hip : s.insts ip = none)
    (devmap_handle fs : Nat) :
    WF (s.set_inst ip (some
      { devmap_handle := devmap_handle, filesystem := fs, open_nodes_count := 0 })) := by
  have hinsts : ∀ q j, s.insts q = some j → ∃ j', (s.set_inst ip (some
      { devmap_handle := devmap_handle, filesystem := fs, open_nodes_count := 0 })).insts q = some j' ∧
      j'.devmap_handle = j.devmap_handle := by
    intro q j hj
    have hq : q ≠ ip := by rintro rfl; rw [hip] at hj; cases hj
    exact ⟨j, by rw [set_inst_insts, Function.update_noteq hq]; exact hj, rfl⟩
  have hkey : ∀ q, node_key (s.set_inst ip (some
      { devmap_handle := devmap_handle, filesystem := fs, open_nodes_count := 0 })) q = node_key s q :=
    fun q => node_key_eq_of_eq rfl hinsts (fun m hm => h.node_inst q m hm)
  refine ⟨?_, h.cached_live, h.nodup, ?_, h.referenced_cached, h.references_lt, ?_, ?_,
    h.list_nodup⟩
  · intro q m hm
    obtain ⟨j, hj⟩ := h.node_inst q m hm
    obtain ⟨j', hj', -⟩ := hinsts _ j hj
    exact ⟨j', hj'⟩
  · intro a ha b hb hab
    rw [hkey a, hkey b] at hab
    exact h.unique a ha b hb hab
  · intro q j hj
    have hcn : cached_nodes_of (s.set_inst ip (some
        { devmap_handle := devmap_handle, filesystem := fs, open_nodes_count := 0 })) q
        = cached_nodes_of s q := rfl
    rw [hcn]
    rw [set_inst_insts] at hj
    by_cases hq : q = ip
    · subst hq
      rw [Function.update_same] at hj; cases hj
      have hnil : cached_nodes_of s q = [] := by
        unfold cached_nodes_of
        rw [List.filter_eq_nil_iff]
        intro a _ hown
        unfold owned_by at hown
        cases hna : s.nodes a with
        | none => simp [hna] at hown
        | some m =>
          simp only [hna, beq_iff_eq] at hown
          obtain ⟨j, hj⟩ := h.node_inst a m hna
          rw [hown, hip] at hj; cases hj
      simp [hnil]
    · rw [Function.update_noteq hq] at hj
      exact h.count q j hj
  · intro q hq
    obtain ⟨j, hj⟩ := h.list_live q hq
    obtain ⟨j', hj', -⟩ := hinsts q j hj
    exact ⟨j', hj'⟩

/-- Appending a live instance that is not yet listed to `instance_list` keeps
the state consistent. -/
theorem WF.append_inst {s : State} (h : WF s) {ip : Nat} {i : ext2fs_instance}
    (hi : s.insts ip = some i) (hnot : ip ∉ s.instance_list) :
    WF { s with instance_list := s.instance_list ++ [ip] } := by
  refine ⟨h.node_inst, h.cached_live, h.nodup, h.unique, h.referenced_cached, h.references_lt,
    h.count, ?_, ?_⟩
  · intro q hq
    simp only [List.mem_append, List.mem_singleton] at hq
    rcases hq with hq | hq
    · exact h.list_live q hq
    · subst hq; exact ⟨i, hi⟩
  · exact List.Nodup.append h.list_nodup (List.nodup_singleton ip)
      (by intro x hx hx'; rw [List.mem_singleton] at hx'; subst hx'; exact hnot hx)

/-- Unlinking an instance from `instance_list` keeps the state consistent. -/
theorem WF.erase_inst {s : State} (h : WF s) (ip : Nat) :
    WF { s with instance_list := s.instance_list.erase ip } := by
  refine ⟨h.node_inst, h.cached_live, h.nodup, h.unique, h.referenced_cached, h.references_lt,
    h.count, ?_, h.list_nodup.erase ip⟩
  intro q hq
  exact h.list_live q (List.mem_of_mem_erase hq)

/-- The function `ext2fs_unmounted` keeps the state consistent. -/
theorem ext2fs_unmounted_wf {s s' : State} (h : WF s) {devmap_handle : Nat} {ans : Answer}
    (hr : ext2fs_unmounted s devmap_handle = .ok (ans, s')) : WF s' := by
  unfold ext2fs_unmounted at hr
  split at hr
  · cases hr
  · simp only [Except.ok.injEq, Prod.mk.injEq] at hr
    rw [← hr.2]; exact h
  · split at hr
    · cases hr
    · split at hr
      · simp only [Except.ok.injEq, Prod.mk.injEq] at hr
        rw [← hr.2]; exact h
      · simp only [Except.ok.injEq, Prod.mk.injEq] at hr
        rw [← hr.2]; exact h.erase_inst _

/-- The function `ext2fs_node_get_core` leaves `instance_list` alone and frees no instance. -/
theorem ext2fs_node_get_core_insts {s s' : State} (h : WF s) {inst index : Nat} {env : GetEnv}
    {rc : Except Errno Nat} (hr : ext2fs_node_get_core s inst index env = .ok (rc, s')) :
    s'.instance_list = s.instance_list ∧
      ∀ ip j, s.insts ip = some j → ∃ j', s'.insts ip = some j' := by
  cases hi : s.insts inst with
  | none => simp [ext2fs_node_get_core, hi] at hr
  | some i =>
    rcases hash_table_find_cases h (i.devmap_handle, index) with ⟨p, hp, hk, -⟩ | ⟨hk, -⟩
    · obtain ⟨n, hn⟩ := h.cached_live p hp
      rw [ext2fs_node_get_core_hit h env hi hp hk hn] at hr
      simp only [Except.ok.injEq, Prod.mk.injEq] at hr
      rw [← hr.2]
      exact ⟨rfl, fun ip j hj => ⟨j, hj⟩⟩
    · rw [ext2fs_node_get_core_miss h env hi hk] at hr
      obtain ⟨enode, node, inode⟩ := env
      cases enode with
      | none =>
        simp only [Except.ok.injEq, Prod.mk.injEq] at hr
        rw [← hr.2]; exact ⟨rfl, fun ip j hj => ⟨j, hj⟩⟩
      | some p =>
        cases node with
        | false =>
          simp only [Bool.false_eq_true, if_false, Except.ok.injEq, Prod.mk.injEq] at hr
          rw [← hr.2]; exact ⟨rfl, fun ip j hj => ⟨j, hj⟩⟩
        | true =>
          cases inode with
          | error e =>
            simp only [if_true, Except.ok.injEq, Prod.mk.injEq] at hr
            rw [← hr.2]; exact ⟨rfl, fun ip j hj => ⟨j, hj⟩⟩
          | ok ino =>
            simp only [if_true, Except.ok.injEq, Prod.mk.injEq] at hr
            rw [← hr.2]
            refine ⟨rfl, fun ip j hj => ?_⟩
            rw [set_inst_insts]
            by_cases hip : ip = inst
            · subst hip; exact ⟨_, Function.update_same _ _ _⟩
            · exact ⟨j, by rw [Function.update_noteq hip]; exact hj⟩

/-- The function `ext2fs_mounted` keeps the state consistent. -/
theorem ext2fs_mounted_wf {s s' : State} (h : WF s) {devmap_handle : Nat} {env : MountEnv}
    {ans : Answer} (hf : env.fresh s)
    (hr : ext2fs_mounted s devmap_handle env = .ok (ans, s')) : WF s' := by
  obtain ⟨opts, fs, inst, init, cs, cf, root, root_put⟩ := env
  unfold ext2fs_mounted at hr
  rcases opts with e | u
  · simp only [Except.ok.injEq, Prod.mk.injEq] at hr; rw [← hr.2]; exact h
  rcases fs with _ | fs
  · simp only [Except.ok.injEq, Prod.mk.injEq] at hr; rw [← hr.2]; exact h
  rcases inst with _ | inst
  · simp only [Except.ok.injEq, Prod.mk.injEq] at hr; rw [← hr.2]; exact h
  rcases init with e | u
  · simp only [Except.ok.injEq, Prod.mk.injEq] at hr; rw [← hr.2]; exact h
  rcases cs with e | u
  · simp only [Except.ok.injEq, Prod.mk.injEq] at hr; rw [← hr.2]; exact h
  rcases cf with e | u
  · simp only [Except.ok.injEq, Prod.mk.injEq] at hr; rw [← hr.2]; exact h
  have hip : s.insts inst = none := hf.1 inst rfl
  have h1 := h.add_inst hip devmap_handle fs
  have hf1 : root.fresh (s.set_inst inst (some
      { devmap_handle := devmap_handle, filesystem := fs, open_nodes_count := 0 })) := hf.2
  simp only at hr
  split at hr
  · cases hr
  · rename_i rc s2 hget
    have := ext2fs_node_get_core_error_state hget
    subst this
    simp only [Except.ok.injEq, Prod.mk.injEq] at hr
    rw [← hr.2, set_inst_set_inst_none hip]
    exact h
  · rename_i root_node s2 hget
    have h2 := ext2fs_node_get_core_wf h1 hf1 hget
    obtain ⟨hl, hlive⟩ := ext2fs_node_get_core_insts h1 hget
    split at hr
    · cases hr
    · split at hr
      · cases hr
      · rename_i rc4 s4 hput
        simp only [Except.ok.injEq, Prod.mk.injEq] at hr
        rw [← hr.2]
        obtain ⟨j', hj'⟩ := hlive inst _ (by rw [set_inst_insts, Function.update_same])
        have hnot : inst ∉ s2.instance_list := by
          rw [hl]
          intro hmem
          obtain ⟨j, hj⟩ := h.list_live inst hmem
          rw [hip] at hj; cases hj
        exact ext2fs_node_put_wf (h2.append_inst hj' hnot) hput

/-- Every state the server can be in is consistent. -/
theorem reachable_wf {s : State} (h : Reachable s) : WF s := by
  induction h with
  | init =>
    refine ⟨?_, ?_, List.nodup_nil, ?_, ?_, ?_, ?_, ?_, List.nodup_nil⟩ <;>
      simp [State.init, cached_nodes_of]
  | mounted _ hf hr ih => exact ext2fs_mounted_wf ih hf hr
  | unmounted _ hr ih => exact ext2fs_unmounted_wf ih hr
  | node_get_core _ hf hr ih => exact ext2fs_node_get_core_wf ih hf hr
  | node_put _ hr ih => exact ext2fs_node_put_wf ih hr

/-! ## The concrete states are reachable -/

theorem State.ext_fields {s t : State} (h1 : s.insts = t.insts) (h2 : s.nodes = t.nodes)
    (h3 : s.instance_list = t.instance_list) (h4 : s.open_nodes = t.open_nodes) : s = t := by
  cases s; cases t; simp only [State.mk.injEq]; exact ⟨h1, h2, h3, h4⟩

theorem mounted_demo :
    ext2fs_mounted State.init 7 demo_mount_env = .ok (.ok [2, 0, 1], many_nodes 0) := by
  have h : ∃ s', ext2fs_mounted State.init 7 demo_mount_env = .ok (.ok [2, 0, 1], s') ∧
      s'.insts = (many_nodes 0).insts ∧ s'.nodes = (many_nodes 0).nodes ∧
      s'.instance_list = [0] ∧ s'.open_nodes = [] := by
    refine ⟨_, rfl, ?_, ?_, rfl, rfl⟩
    · funext q
      by_cases hq : q = 0 <;> simp [many_nodes, State.set_inst, State.set_node, hash_table_insert,
         State.init, hq, UINT_WRAP, UINT_MAX]
    · funext q
      by_cases hq : q = 0 <;> simp [many_nodes, State.set_inst, State.set_node, hash_table_insert,
         State.init, hq]
  obtain ⟨s', h0, h1, h2, h3, h4⟩ := h
  rw [h0]
  congr 2
  exact State.ext_fields h1 h2 h3 h4


theorem node_key_many_nodes {k q : Nat} (hq : q < k) :
    node_key (many_nodes k) q = some (7, q) := by
  simp [node_key, many_nodes, hq]

/-- Opening object `k` in `many_nodes k` gives `many_nodes (k + 1)`. -/
theorem many_nodes_step (k : Nat) (h : WF (many_nodes k)) :
    ext2fs_node_get_core (many_nodes k) 0 k (demo_env k) = .ok (.ok k, many_nodes (k + 1)) := by
  have hi : (many_nodes k).insts 0 = some
      { devmap_handle := 7, filesystem := 100, open_nodes_count := k % UINT_WRAP } := by
    simp [many_nodes]
  have hk : ∀ q ∈ (many_nodes k).open_nodes, node_key (many_nodes k) q ≠ some (7, k) := by
    intro q hq
    have hq' : q < k := by simpa [many_nodes] using hq
    rw [node_key_many_nodes hq']
    intro e
    simp only [Option.some.injEq, Prod.mk.injEq, true_and] at e
    omega
  rw [ext2fs_node_get_core_miss h (demo_env k) hi hk]
  simp only [demo_env, if_true]
  congr 2
  apply State.ext_fields
  · funext q
    by_cases hq : q = 0
    · subst hq
      simp only [set_inst_insts, Function.update_same, many_nodes, if_true, Option.some.injEq,
        ext2fs_instance.mk.injEq, true_and]
      exact uint_succ_mod k
    · simp [many_nodes, hq, Function.update_noteq hq]
  · funext q
    by_cases hq : q = k
    · subst hq
      simp [many_nodes]
    · have : q < k + 1 ↔ q < k := by omega
      simp [many_nodes, Function.update_noteq hq, this]
  · rfl
  · simp [many_nodes, List.range_succ]

/-- Every `many_nodes k` is a state the server can be in. -/
theorem many_nodes_reachable (k : Nat) : Reachable (many_nodes k) := by
  induction k with
  | zero =>
    exact Reachable.mounted Reachable.init
      (by constructor <;> intro p _ <;> rfl) mounted_demo
  | succ k ih =>
    exact Reachable.node_get_core ih
      (by intro p hp; simp only [demo_env, Option.some.injEq] at hp; subst hp; simp [many_nodes])
      (many_nodes_step k (reachable_wf ih))

theorem set_node_set_node (s : State) (p : Nat) (a b : Option ext2fs_node) :
    (s.set_node p a).set_node p b = s.set_node p b := by
  apply State.ext_fields <;> simp [State.set_node]

/-- Taking one more reference in `many_references k` gives
`many_references (k + 1)`. -/
theorem many_references_step (k : Nat) (h : WF (many_references k)) (env : GetEnv) :
    ext2fs_node_get_core (many_references k) 0 0 env =
      .ok (.ok 0, many_references (k + 1)) := by
  have hi : (many_references k).insts 0 = some
      { devmap_handle := 7, filesystem := 100, open_nodes_count := 1 % UINT_WRAP } := by
    simp [many_references, many_nodes]
  have hp : 0 ∈ (many_references k).open_nodes := by simp [many_references, many_nodes]
  have hn : (many_references k).nodes 0 = some
      { inst := 0, inode_ref := { index := 0, inode := demo_inode },
        references := (1 + k) % UINT_WRAP } := by
    simp [many_references]
  have hk : node_key (many_references k) 0 = some (7, 0) := by
    simp [node_key, hn, hi]
  rw [ext2fs_node_get_core_hit h env hi hp hk hn]
  congr 2
  unfold many_references
  rw [set_node_set_node]
  congr 3
  simp only [ext2fs_node.mk.injEq, true_and]
  rw [uint_succ_mod (1 + k), Nat.add_assoc]

/-- Every `many_references k` is a state the server can be in. -/
theorem many_references_reachable (k : Nat) : Reachable (many_references k) := by
  induction k with
  | zero =>
    have : many_references 0 = many_nodes 1 := by
      apply State.ext_fields
      · rfl
      · funext q
        by_cases hq : q = 0
        · subst hq; simp [many_references, many_nodes, UINT_WRAP]
        · simp [many_references, many_nodes, Function.update_noteq hq]
      · rfl
      · rfl
    rw [this]; exact many_nodes_reachable 1
  | succ k ih =>
    exact @Reachable.node_get_core _ _ _ _ (demo_env 1) _ ih
      (by intro p hp; simp only [demo_env, Option.some.injEq] at hp; subst hp
          simp [many_references, many_nodes])
      (many_references_step k (reachable_wf ih) (demo_env 1))

/-! ## Further facts about the operations and the concrete states -/

theorem length_le_one_of_all_eq {l : List Nat} (hn : l.Nodup) (h : ∀ a ∈ l, ∀ b ∈ l, a = b) :
    l.length ≤ 1 := by
  match l, hn, h with
  | [], _, _ => simp
  | [_], _, _ => simp
  | a :: b :: r, hn, h =>
    have hab : a = b := h a (by simp) b (by simp)
    rw [List.nodup_cons] at hn
    exact absurd (by rw [hab]; simp) hn.1

theorem many_nodes_nodes {k q : Nat} (hq : q < k) :
    (many_nodes k).nodes q = some
      { inst := 0, inode_ref := { index := q, inode := demo_inode }, references := 1 } := by
  simp [many_nodes, hq]

theorem many_nodes_insts (k : Nat) :
    (many_nodes k).insts 0 = some
      { devmap_handle := 7, filesystem := 100, open_nodes_count := k % UINT_WRAP } := rfl

theorem many_nodes_open_nodes (k : Nat) : (many_nodes k).open_nodes = List.range k := rfl

/-- The function `ext2fs_node_put_core` on a cached node of an instance whose
`open_nodes_count` is 0 stops at the assertion. -/
theorem ext2fs_node_put_core_count_zero {s : State} (h : WF s) {p : Nat} {n : ext2fs_node}
    {i : ext2fs_instance} (hn : s.nodes p = some n) (hp : p ∈ s.open_nodes)
    (hi : s.insts n.inst = some i) (hc : i.open_nodes_count = 0) (put_rc : Except Errno Unit) :
    ext2fs_node_put_core s p put_rc = .error .assert_open_nodes_count := by
  unfold ext2fs_node_put_core
  simp only [hn, hi, hash_table_remove_cached h hn hp hi, hc, gt_iff_lt, Nat.lt_irrefl, if_false]

theorem many_nodes_absent (k : Nat) :
    ∀ q ∈ (many_nodes k).open_nodes, node_key (many_nodes k) q ≠ some (7, k) := by
  intro q hq
  rw [many_nodes_open_nodes, List.mem_range] at hq
  rw [node_key_many_nodes hq]
  intro e
  simp only [Option.some.injEq, Prod.mk.injEq, true_and] at e
  omega

/-- The state after the last reference of a cached node is released, before the
node is freed. -/
theorem ext2fs_node_put_last {s : State} (h : WF s) {p : Nat} {n : ext2fs_node}
    {i : ext2fs_instance} (hn : s.nodes p = some n) (hr : n.references = 1)
    (hi : s.insts n.inst = some i) (hc : 0 < i.open_nodes_count) :
    ∃ s2, (∀ rc, ext2fs_node_put s p (.error rc) = .ok (.error rc, s2)) ∧
      ext2fs_node_put s p (.ok ()) = .ok (.ok (), s2.set_node p none) ∧
      WF s2 ∧
      s2.open_nodes = s.open_nodes.erase p ∧
      s2.nodes = Function.update s.nodes p (some { n with references := 0 }) ∧
      s2.insts = Function.update s.insts n.inst
        (some { i with open_nodes_count := i.open_nodes_count - 1 }) ∧
      s2.instance_list = s.instance_list := by
  have hp : p ∈ s.open_nodes := h.referenced_cached p n hn (by omega)
  have h1 : WF (s.set_node p (some { n with references := 0 })) :=
    h.set_references hn (Nat.pos_of_ne_zero (by decide)) (fun hpos => absurd hpos (by omega))
  have hn' : (s.set_node p (some { n with references := 0 })).nodes p
      = some { n with references := 0 } := by simp
  have hlt : i.open_nodes_count < UINT_WRAP := by
    rw [h.count _ i hi]; exact Nat.mod_lt _ (Nat.pos_of_ne_zero (by decide))
  have hd := uint_decr i.open_nodes_count hc hlt
  refine ⟨({ (s.set_node p (some { n with references := 0 })) with
      open_nodes := s.open_nodes.erase p } : State).set_inst n.inst
      (some { i with open_nodes_count := (i.open_nodes_count + UINT_MAX) % UINT_WRAP }),
    ?_, ?_, h1.remove_node (n := { n with references := 0 }) hn' rfl hp hi hc, rfl, rfl, ?_, rfl⟩
  · intro rc
    rw [ext2fs_node_put_one hn hr, ext2fs_node_put_core_error h1 hn' hp hi hc]
    rfl
  · rw [ext2fs_node_put_one hn hr, ext2fs_node_put_core_ok h1 hn' hp hi hc]
    rfl
  · rw [hd]; rfl

theorem ReachableNoWrap.reachable {s : State} (h : ReachableNoWrap s) : Reachable s := by
  induction h with
  | init => exact Reachable.init
  | mounted _ hf _ hr ih => exact Reachable.mounted ih hf hr
  | unmounted _ hr ih => exact Reachable.unmounted ih hr
  | node_get_core _ hf _ _ hr ih => exact Reachable.node_get_core ih hf hr
  | node_put _ hr ih => exact Reachable.node_put ih hr

/-- The cache after `ext2fs_node_get_core`: the old one, with the returned node
appended when it was not there. -/
theorem ext2fs_node_get_core_open_nodes {s s' : State} (h : WF s) {inst index : Nat}
    {env : GetEnv} {rc : Except Errno Nat}
    (hr : ext2fs_node_get_core s inst index env = .ok (rc, s')) :
    s'.open_nodes = s.open_nodes ∨ ∃ p, s'.open_nodes = s.open_nodes ++ [p] := by
  cases hi : s.insts inst with
  | none => simp [ext2fs_node_get_core, hi] at hr
  | some i =>
    rcases hash_table_find_cases h (i.devmap_handle, index) with ⟨p, hp, hk, -⟩ | ⟨hk, -⟩
    · obtain ⟨n, hn⟩ := h.cached_live p hp
      rw [ext2fs_node_get_core_hit h env hi hp hk hn] at hr
      simp only [Except.ok.injEq, Prod.mk.injEq] at hr
      rw [← hr.2]; exact Or.inl rfl
    · rw [ext2fs_node_get_core_miss h env hi hk] at hr
      obtain ⟨enode, node, inode⟩ := env
      rcases enode with _ | p
      · simp only [Except.ok.injEq, Prod.mk.injEq] at hr
        rw [← hr.2]; exact Or.inl rfl
      rcases node with _ | _
      · simp only [Bool.false_eq_true, if_false, Except.ok.injEq, Prod.mk.injEq] at hr
        rw [← hr.2]; exact Or.inl rfl
      rcases inode with e | ino
      · simp only [if_true, Except.ok.injEq, Prod.mk.injEq] at hr
        rw [← hr.2]; exact Or.inl rfl
      · simp only [if_true, Except.ok.injEq, Prod.mk.injEq] at hr
        rw [← hr.2]; exact Or.inr ⟨p, rfl⟩

/-- The function `ext2fs_node_get_core` on an object whose counter is not full keeps every
cached node referenced. -/
theorem ext2fs_node_get_core_referenced {s s' : State} (h : WF s) (ha : all_referenced s)
    {inst index : Nat} {i : ext2fs_instance} {env : GetEnv} {rc : Except Errno Nat}
    (hf : env.fresh s) (hi : s.insts inst = some i)
    (hb : below_max s (i.devmap_handle, index))
    (hr : ext2fs_node_get_core s inst index env = .ok (rc, s')) : all_referenced s' := by
  rcases hash_table_find_cases h (i.devmap_handle, index) with ⟨p, hp, hk, -⟩ | ⟨hk, -⟩
  · obtain ⟨n, hn⟩ := h.cached_live p hp
    rw [ext2fs_node_get_core_hit h env hi hp hk hn] at hr
    simp only [Except.ok.injEq, Prod.mk.injEq] at hr
    rw [← hr.2]
    intro q hq
    by_cases hqp : q = p
    · subst hqp
      refine ⟨{ n with references := (n.references + 1) % UINT_WRAP }, by simp, ?_⟩
      have := hb q hp n hk hn
      simp only [UINT_WRAP, UINT_MAX] at this ⊢
      omega
    · obtain ⟨m, hm, hpos⟩ := ha q hq
      exact ⟨m, by simp [Function.update_noteq hqp, hm], hpos⟩
  · rw [ext2fs_node_get_core_miss h env hi hk] at hr
    obtain ⟨enode, node, inode⟩ := env
    rcases enode with _ | p
    · simp only [Except.ok.injEq, Prod.mk.injEq] at hr
      rw [← hr.2]; exact ha
    rcases node with _ | _
    · simp only [Bool.false_eq_true, if_false, Except.ok.injEq, Prod.mk.injEq] at hr
      rw [← hr.2]; exact ha
    rcases inode with e | ino
    · simp only [if_true, Except.ok.injEq, Prod.mk.injEq] at hr
      rw [← hr.2]; exact ha
    · simp only [if_true, Except.ok.injEq, Prod.mk.injEq] at hr
      rw [← hr.2]
      have hfp : s.nodes p = none := hf p rfl
      intro q hq
      simp only [set_inst_open_nodes, hash_table_insert_open_nodes, set_node_open_nodes,
        List.mem_append, List.mem_singleton] at hq
      by_cases hqp : q = p
      · subst hqp
        exact ⟨{ inst := inst, inode_ref := { index := index, inode := ino }, references := 1 },
          by simp, Nat.one_pos⟩
      · rcases hq with hq | hq
        · obtain ⟨m, hm, hpos⟩ := ha q hq
          exact ⟨m, by simp [Function.update_noteq hqp, hm], hpos⟩
        · exact absurd hq hqp

/-- The cache after `ext2fs_node_put` on a live node: without the node when its
one reference was released, and the same otherwise. -/
theorem ext2fs_node_put_open_nodes {s s' : State} (h : WF s) {p : Nat} {n : ext2fs_node}
    {put_rc rc : Except Errno Unit} (hn : s.nodes p = some n)
    (hr : ext2fs_node_put s p put_rc = .ok (rc, s')) :
    (n.references = 1 ∧ p ∈ s.open_nodes ∧ s'.open_nodes = s.open_nodes.erase p ∧
        ∀ q, q ≠ p → s'.nodes q = s.nodes q) ∨
      (1 < n.references ∧ s'.open_nodes = s.open_nodes ∧
        s'.nodes = Function.update s.nodes p (some { n with references := n.references - 1 })) := by
  have hlt := h.references_lt p n hn
  rcases Nat.lt_trichotomy n.references 1 with h0 | h1 | h2
  · rw [ext2fs_node_put_zero hn (by omega)] at hr; cases hr
  · have hp : p ∈ s.open_nodes := h.referenced_cached p n hn (by omega)
    obtain ⟨i, hi⟩ := h.node_inst p n hn
    by_cases hc : 0 < i.open_nodes_count
    · obtain ⟨s2, herr, hok, -, ho, hnodes, -, -⟩ := ext2fs_node_put_last h hn h1 hi hc
      left
      refine ⟨h1, hp, ?_⟩
      cases put_rc with
      | error e =>
        rw [herr e] at hr
        simp only [Except.ok.injEq, Prod.mk.injEq] at hr
        rw [← hr.2]
        exact ⟨ho, fun q hq => by rw [hnodes, Function.update_noteq hq]⟩
      | ok u =>
        cases u
        rw [hok] at hr
        simp only [Except.ok.injEq, Prod.mk.injEq] at hr
        rw [← hr.2]
        exact ⟨ho, fun q hq => by simp [hnodes, Function.update_noteq hq]⟩
    · have h1' : WF (s.set_node p (some { n with references := 0 })) :=
        h.set_references hn (Nat.pos_of_ne_zero (by decide)) (fun hpos => absurd hpos (by omega))
      rw [ext2fs_node_put_one hn h1, ext2fs_node_put_core_count_zero h1'
        (n := { n with references := 0 }) (by simp) hp hi (by omega)] at hr
      cases hr
  · rw [ext2fs_node_put_many hn h2 hlt] at hr
    simp only [Except.ok.injEq, Prod.mk.injEq] at hr
    rw [← hr.2]
    exact Or.inr ⟨h2, rfl, rfl⟩

/-- The function `ext2fs_node_put` keeps every cached node referenced. -/
theorem ext2fs_node_put_referenced {s s' : State} (h : WF s) (ha : all_referenced s)
    {p : Nat} {put_rc rc : Except Errno Unit}
    (hr : ext2fs_node_put s p put_rc = .ok (rc, s')) : all_referenced s' := by
  cases hn : s.nodes p with
  | none => simp [ext2fs_node_put, hn] at hr
  | some n =>
    rcases ext2fs_node_put_open_nodes h hn hr with ⟨-, -, ho, hnodes⟩ | ⟨h2, ho, hnodes⟩
    · intro q hq
      rw [ho, h.nodup.mem_erase_iff] at hq
      obtain ⟨m, hm, hpos⟩ := ha q hq.2
      exact ⟨m, by rw [hnodes q hq.1]; exact hm, hpos⟩
    · intro q hq
      rw [ho] at hq
      by_cases hqp : q = p
      · subst hqp
        exact ⟨_, by rw [hnodes, Function.update_same], by simp only; omega⟩
      · obtain ⟨m, hm, hpos⟩ := ha q hq
        exact ⟨m, by rw [hnodes, Function.update_noteq hqp]; exact hm, hpos⟩

/-- The two ways `ext2fs_mounted` can return: with an error and the state it was
given, or through a successful `ext2fs_node_get_core` for the root on the state
with the new instance, the append to `instance_list` and the final
`ext2fs_node_put`. -/
theorem ext2fs_mounted_cases {s s' : State} {devmap_handle : Nat} {env : MountEnv}
    {ans : Answer} (hf : env.fresh s)
    (hr : ext2fs_mounted s devmap_handle env = .ok (ans, s')) :
    (s' = s ∧ ∃ rc, ans = .error rc) ∨
      ∃ inst fs root s2 n rc4, env.inst = some inst ∧ env.fs = some fs ∧ s.insts inst = none ∧
        ext2fs_node_get_core (s.set_inst inst (some
          { devmap_handle := devmap_handle, filesystem := fs, open_nodes_count := 0 }))
          inst EXT2_INODE_ROOT_INDEX env.root = .ok (.ok root, s2) ∧
        s2.nodes root = some n ∧
        ext2fs_node_put { s2 with instance_list := s2.instance_list ++ [inst] } root
          env.root_put = .ok (rc4, s') ∧
        ans = .ok [EXT2_INODE_ROOT_INDEX, 0, n.inode_ref.inode.usage_count] := by
  obtain ⟨opts, fs, inst, init, cs, cf, root, root_put⟩ := env
  unfold ext2fs_mounted at hr
  rcases opts with e | u
  · simp only [Except.ok.injEq, Prod.mk.injEq] at hr; exact Or.inl ⟨hr.2.symm, e, hr.1.symm⟩
  rcases fs with _ | fs
  · simp only [Except.ok.injEq, Prod.mk.injEq] at hr; exact Or.inl ⟨hr.2.symm, _, hr.1.symm⟩
  rcases inst with _ | inst
  · simp only [Except.ok.injEq, Prod.mk.injEq] at hr; exact Or.inl ⟨hr.2.symm, _, hr.1.symm⟩
  rcases init with e | u
  · simp only [Except.ok.injEq, Prod.mk.injEq] at hr; exact Or.inl ⟨hr.2.symm, e, hr.1.symm⟩
  rcases cs with e | u
  · simp only [Except.ok.injEq, Prod.mk.injEq] at hr; exact Or.inl ⟨hr.2.symm, e, hr.1.symm⟩
  rcases cf with e | u
  · simp only [Except.ok.injEq, Prod.mk.injEq] at hr; exact Or.inl ⟨hr.2.symm, e, hr.1.symm⟩
  have hip : s.insts inst = none := hf.1 inst rfl
  simp only at hr
  split at hr
  · cases hr
  · rename_i rc s2 hget
    have := ext2fs_node_get_core_error_state hget
    subst this
    simp only [Except.ok.injEq, Prod.mk.injEq] at hr
    rw [set_inst_set_inst_none hip] at hr
    exact Or.inl ⟨hr.2.symm, rc, hr.1.symm⟩
  · rename_i root_node s2 hget
    split at hr
    · cases hr
    · rename_i n hnode
      split at hr
      · cases hr
      · rename_i rc4 s4 hput
        simp only [Except.ok.injEq, Prod.mk.injEq] at hr
        exact Or.inr ⟨inst, fs, root_node, s2, n, rc4, rfl, rfl, hip, hget, hnode,
          by rw [← hr.2]; exact hput, hr.1.symm⟩

/-- The function `ext2fs_mounted` on a device whose root counter is not full keeps every
cached node referenced. -/
theorem ext2fs_mounted_referenced {s s' : State} (h : WF s) (ha : all_referenced s)
    {devmap_handle : Nat} {env : MountEnv} {ans : Answer} (hf : env.fresh s)
    (hb : below_max s (devmap_handle, EXT2_INODE_ROOT_INDEX))
    (hr : ext2fs_mounted s devmap_handle env = .ok (ans, s')) : all_referenced s' := by
  rcases ext2fs_mounted_cases hf hr with ⟨e, -⟩ | ⟨inst, fs, root, s2, n, rc4, -, -, hip, hget,
    -, hput, -⟩
  · rw [e]; exact ha
  · have h1 := h.add_inst hip devmap_handle fs
    have hb1 : below_max (s.set_inst inst (some
        { devmap_handle := devmap_handle, filesystem := fs, open_nodes_count := 0 }))
        (devmap_handle, EXT2_INODE_ROOT_INDEX) := by
      intro p hp m hk hm
      refine hb p hp m ?_ hm
      rw [← hk]
      symm
      refine @node_key_eq_of_eq s (s.set_inst inst (some
        { devmap_handle := devmap_handle, filesystem := fs, open_nodes_count := 0 })) p rfl ?_ ?_
      · intro q j hj
        have hq : q ≠ inst := by rintro rfl; rw [hip] at hj; cases hj
        exact ⟨j, by simp [Function.update_noteq hq, hj], rfl⟩
      · exact fun m' hm' => h.node_inst p m' hm'
    have ha2 := ext2fs_node_get_core_referenced h1 ha (i :=
      { devmap_handle := devmap_handle, filesystem := fs, open_nodes_count := 0 })
      hf.2 (by simp) hb1 hget
    have h2 := ext2fs_node_get_core_wf h1 hf.2 hget
    obtain ⟨hl, hlive⟩ := ext2fs_node_get_core_insts h1 hget
    obtain ⟨j', hj'⟩ := hlive inst _ (by rw [set_inst_insts, Function.update_same])
    have hnot : inst ∉ s2.instance_list := by
      rw [hl]
      intro hmem
      obtain ⟨j, hj⟩ := h.list_live inst hmem
      rw [hip] at hj; cases hj
    exact ext2fs_node_put_referenced (h2.append_inst hj' hnot) ha2 hput

/-- The function `ext2fs_unmounted` changes neither the cache nor a node. -/
theorem ext2fs_unmounted_nodes {s s' : State} {devmap_handle : Nat} {ans : Answer}
    (hr : ext2fs_unmounted s devmap_handle = .ok (ans, s')) :
    s'.open_nodes = s.open_nodes ∧ s'.nodes = s.nodes ∧ s'.insts = s.insts := by
  unfold ext2fs_unmounted at hr
  split at hr
  · cases hr
  · simp only [Except.ok.injEq, Prod.mk.injEq] at hr
    rw [← hr.2]; exact ⟨rfl, rfl, rfl⟩
  · split at hr
    · cases hr
    · split at hr
      · simp only [Except.ok.injEq, Prod.mk.injEq] at hr
        rw [← hr.2]; exact ⟨rfl, rfl, rfl⟩
      · simp only [Except.ok.injEq, Prod.mk.injEq] at hr
        rw [← hr.2]; exact ⟨rfl, rfl, rfl⟩

/-- As long as no counter wraps, every cached node is referenced. -/
theorem reachable_no_wrap_referenced {s : State} (h : ReachableNoWrap s) : all_referenced s := by
  induction h with
  | init => intro p hp; simp [State.init] at hp
  | mounted hs hf hb hr ih =>
    exact ext2fs_mounted_referenced (reachable_wf hs.reachable) ih hf hb hr
  | unmounted hs hr ih =>
    obtain ⟨ho, hn, -⟩ := ext2fs_unmounted_nodes hr
    intro p hp
    rw [ho] at hp
    rw [hn]; exact ih p hp
  | node_get_core hs hf hi hb hr ih =>
    exact ext2fs_node_get_core_referenced (reachable_wf hs.reachable) ih hf hi hb hr
  | node_put hs hr ih =>
    exact ext2fs_node_put_referenced (reachable_wf hs.reachable) ih hr

theorem filter_key_eq_singleton {s : State} (h : WF s) {key : Key} {p : Nat}
    (hp : p ∈ s.open_nodes) (hk : node_key s p = some key) :
    s.open_nodes.filter (fun q => decide (node_key s q = some key)) = [p] := by
  have hmem : p ∈ s.open_nodes.filter (fun q => decide (node_key s q = some key)) := by
    rw [List.mem_filter]; exact ⟨hp, by simpa using hk⟩
  have hall : ∀ a ∈ s.open_nodes.filter (fun q => decide (node_key s q = some key)), a = p := by
    intro a ha
    rw [List.mem_filter] at ha
    exact h.unique a ha.1 p hp ((by simpa using ha.2 : node_key s a = some key).trans hk.symm)
  have hlen := length_le_one_of_all_eq (h.nodup.filter _)
    (fun a ha b hb => (hall a ha).trans (hall b hb).symm)
  match hl : s.open_nodes.filter (fun q => decide (node_key s q = some key)), hmem, hall, hlen with
  | [], hmem, _, _ => simp at hmem
  | [a], _, hall, _ => rw [hall a (by simp)]
  | a :: b :: r, _, _, hlen => simp at hlen

theorem filter_key_eq_nil {s : State} {key : Key}
    (hk : ∀ q ∈ s.open_nodes, node_key s q ≠ some key) :
    s.open_nodes.filter (fun q => decide (node_key s q = some key)) = [] := by
  rw [List.filter_eq_nil_iff]
  intro q hq
  simpa using hk q hq

theorem GetEnv.fresh_of_is_fresh {env : GetEnv} {s : State} (h : env.is_fresh s = true) :
    env.fresh s := by
  intro p hp
  unfold GetEnv.is_fresh at h
  rw [hp] at h
  simpa using h

/-- A successful open while `d` references are outstanding, without a wrap. -/
theorem Outstanding.open_node {inst index : Nat} {i0 : ext2fs_instance} {s s' : State}
    {handle : Option Nat} {d fn : Nat} {env : GetEnv}
    (h : Outstanding inst index i0 s handle d) (hd : d + 1 < UINT_WRAP)
    (hf : env.fresh s)
    (hr : ext2fs_node_get_core s inst index env = .ok (.ok fn, s')) :
    Outstanding inst index i0 s' (some fn) (d + 1) := by
  obtain ⟨i, hi, hh, hc0, hc1⟩ := h.inst_live
  have hw := h.wf
  rcases Nat.eq_zero_or_pos d with hd0 | hdpos
  · -- the object is not cached: a new node
    obtain ⟨habs, -⟩ := h.closed hd0
    rw [← hh] at habs
    rw [ext2fs_node_get_core_miss hw env hi habs] at hr
    obtain ⟨enode, node, inode⟩ := env
    rcases enode with _ | p
    · simp at hr
    rcases node with _ | _
    · simp at hr
    rcases inode with e | ino
    · simp at hr
    simp only [if_true, Except.ok.injEq, Prod.mk.injEq] at hr
    obtain ⟨hfn, hs'⟩ := hr
    subst hfn
    have hfp : s.nodes p = none := hf p rfl
    have hw' := @WF.insert_node s hw inst p index i ino hi hfp habs
    rw [hs'] at hw'
    have hn' : s'.nodes p = some
        { inst := inst, inode_ref := { index := index, inode := ino }, references := 1 } := by
      rw [← hs']; simp
    have hi' : s'.insts inst = some
        { i with open_nodes_count := (i.open_nodes_count + 1) % UINT_WRAP } := by
      rw [← hs']; simp
    refine ⟨hw', h.start_lt, ⟨_, hi', hh, fun e => absurd e (by omega), fun _ => ?_⟩,
      fun e => absurd e (by omega), fun _ => ⟨p, _, rfl, ?_, ?_, hn', rfl, by simp [hd0]⟩⟩
    · simp only; rw [hc0 hd0]
    · rw [← hs']; simp
    · simp [node_key, hn', hi', hh]
  · -- the object is cached: one more reference
    obtain ⟨p, n, -, hp, hk, hn, hninst, hrefs⟩ := h.opened hdpos
    rw [← hh] at hk
    rw [ext2fs_node_get_core_hit hw env hi hp hk hn] at hr
    simp only [Except.ok.injEq, Prod.mk.injEq] at hr
    obtain ⟨hfn, hs'⟩ := hr
    subst hfn
    have hmod : (n.references + 1) % UINT_WRAP = d + 1 := by
      rw [hrefs]; exact Nat.mod_eq_of_lt hd
    rw [hmod] at hs'
    have hw' := hw.set_references (r := d + 1) hn hd (fun _ => hp)
    rw [hs'] at hw'
    have hn' : s'.nodes p = some { n with references := d + 1 } := by
      rw [← hs']; simp
    have hi' : s'.insts inst = some i := by rw [← hs']; exact hi
    have ho' : s'.open_nodes = s.open_nodes := by rw [← hs']; rfl
    refine ⟨hw', h.start_lt, ⟨i, hi', hh, fun e => absurd e (by omega), fun _ => hc1 hdpos⟩,
      fun e => absurd e (by omega), fun _ => ⟨p, _, rfl, by rw [ho']; exact hp, ?_, hn',
        hninst, rfl⟩⟩
    rw [hh] at hk
    rw [← hk]
    apply node_key_congr
    · rw [hn', hn]; rfl
    · intro ip; rw [← hs']; rfl

/-- A successful close while `d` references are outstanding: there was at least
one, and one fewer is outstanding afterwards. -/
theorem Outstanding.close_node {inst index : Nat} {i0 : ext2fs_instance} {s s' : State}
    {d fn : Nat} {put_rc : Except Errno Unit} {u : Unit}
    (h : Outstanding inst index i0 s (some fn) d)
    (hr : ext2fs_node_put s fn put_rc = .ok (.ok u, s')) :
    0 < d ∧ Outstanding inst index i0 s' (some fn) (d - 1) := by
  obtain ⟨i, hi, hh, hc0, hc1⟩ := h.inst_live
  have hw := h.wf
  rcases Nat.eq_zero_or_pos d with hd0 | hdpos
  · obtain ⟨-, hstale⟩ := h.closed hd0
    have := hstale fn rfl
    simp [ext2fs_node_put, this] at hr
  refine ⟨hdpos, ?_⟩
  obtain ⟨p, n, hhandle, hp, hk, hn, hninst, hrefs⟩ := h.opened hdpos
  simp only [Option.some.injEq] at hhandle
  subst hhandle
  subst hninst
  have hlt := hw.references_lt fn n hn
  by_cases hd1 : d = 1
  · -- the last reference
    subst hd1
    have hcnt := hc1 hdpos
    by_cases hc : 0 < i.open_nodes_count
    · obtain ⟨s2, herr, hok, hw2, ho, hnodes, hinsts, -⟩ :=
        ext2fs_node_put_last hw hn hrefs hi hc
      cases put_rc with
      | error e => rw [herr e] at hr; simp at hr
      | ok v =>
        cases v
        rw [hok] at hr
        simp only [Except.ok.injEq, Prod.mk.injEq, true_and] at hr
        have hnot : fn ∉ s2.open_nodes := by
          rw [ho, hw.nodup.mem_erase_iff]; exact fun e => e.1 rfl
        have hw' := hw2.free_node hnot
        rw [hr] at hw'
        have hi' : s'.insts n.inst = some
            { i with open_nodes_count := i.open_nodes_count - 1 } := by
          rw [← hr]; simp [hinsts]
        have hback : i.open_nodes_count - 1 = i0.open_nodes_count := by
          have := h.start_lt
          rw [hcnt] at hc ⊢
          simp only [UINT_WRAP] at this hc ⊢
          omega
        refine ⟨hw', h.start_lt, ⟨_, hi', hh, fun _ => hback, fun e => absurd e (by omega)⟩,
          fun _ => ⟨?_, ?_⟩, fun e => absurd e (by omega)⟩
        · intro q hq
          rw [← hr, set_node_open_nodes, ho, hw.nodup.mem_erase_iff] at hq
          have hkq : node_key s' q = node_key s q := by
            apply node_key_eq_of_eq
            · rw [← hr]; simp [Function.update_noteq hq.1, hnodes]
            · intro ip j hj
              rw [← hr, set_node_insts, hinsts]
              by_cases hip : ip = n.inst
              · subst hip; rw [hi] at hj; cases hj
                exact ⟨{ i with open_nodes_count := i.open_nodes_count - 1 }, by simp, rfl⟩
              · exact ⟨j, by simp [Function.update_noteq hip, hj], rfl⟩
            · exact fun m hm => hw.node_inst q m hm
          rw [hkq, ← hk]
          exact fun e => hq.1 (hw.unique q hq.2 fn hp e)
        · intro fn' hfn'
          simp only [Option.some.injEq] at hfn'
          subst hfn'
          rw [← hr]; simp
    · have h1' : WF (s.set_node fn (some { n with references := 0 })) :=
        hw.set_references hn (Nat.pos_of_ne_zero (by decide))
          (fun hpos => absurd hpos (by omega))
      rw [ext2fs_node_put_one hn hrefs, ext2fs_node_put_core_count_zero h1'
        (n := { n with references := 0 }) (by simp) hp hi (by omega)] at hr
      cases hr
  · -- more references remain
    have h2 : 1 < n.references := by omega
    rw [ext2fs_node_put_many hn h2 hlt] at hr
    simp only [Except.ok.injEq, Prod.mk.injEq, true_and] at hr
    have hw' := hw.set_references (r := n.references - 1) hn (by omega) (fun _ => hp)
    rw [hr] at hw'
    have hn' : s'.nodes fn = some { n with references := n.references - 1 } := by
      rw [← hr]; simp
    have hi' : s'.insts n.inst = some i := by rw [← hr]; exact hi
    have ho' : s'.open_nodes = s.open_nodes := by rw [← hr]; rfl
    refine ⟨hw', h.start_lt, ⟨i, hi', hh, fun e => absurd e (by omega), fun _ => hc1 hdpos⟩,
      fun e => absurd e (by omega), fun _ => ⟨fn, _, rfl, by rw [ho']; exact hp, ?_, hn',
        rfl, by simp only; omega⟩⟩
    rw [← hk]
    apply node_key_congr
    · rw [hn', hn]; rfl
    · intro ip; rw [← hr]; rfl

theorem le_peak (d : Nat) (calls : List Call) : d ≤ peak d calls := by
  cases calls with
  | nil => exact Nat.le_refl d
  | cons c rest =>
    cases c <;> exact Nat.le_max_left _ _

/-- A run of successful calls, none of which wraps the counter, never closes
more than was opened and keeps track of the outstanding references. -/
theorem run_calls_outstanding (inst index : Nat) (i0 : ext2fs_instance) :
    ∀ (calls : List Call) (s : State) (handle : Option Nat) (d : Nat) (s' : State)
      (handle' : Option Nat),
      Outstanding inst index i0 s handle d → peak d calls < UINT_WRAP →
      run_calls inst index s handle calls = some (s', handle') →
      closes calls ≤ d + opens calls ∧
        Outstanding inst index i0 s' handle' (d + opens calls - closes calls) := by
  intro calls
  induction calls with
  | nil =>
    intro s handle d s' handle' h _ hr
    simp only [run_calls, Option.some.injEq, Prod.mk.injEq] at hr
    rw [← hr.1, ← hr.2]
    exact ⟨Nat.zero_le _, h⟩
  | cons c rest ih =>
    intro s handle d s' handle' h hpk hr
    cases c with
    | open_node env =>
      have hpk' : peak (d + 1) rest < UINT_WRAP :=
        Nat.lt_of_le_of_lt (Nat.le_max_right _ _) hpk
      have hd : d + 1 < UINT_WRAP := Nat.lt_of_le_of_lt (le_peak _ _) hpk'
      simp only [run_calls] at hr
      split at hr
      · rename_i hfresh
        split at hr
        · rename_i fn s1 hget
          obtain ⟨hle, ho⟩ := ih s1 (some fn) (d + 1) s' handle'
            (h.open_node hd (GetEnv.fresh_of_is_fresh hfresh) hget) hpk' hr
          refine ⟨by simp only [closes, opens]; omega, ?_⟩
          have e : d + opens (Call.open_node env :: rest) - closes (Call.open_node env :: rest)
              = d + 1 + opens rest - closes rest := by
            simp only [closes, opens]; omega
          rw [e]; exact ho
        · cases hr
      · cases hr
    | close_node put_rc =>
      have hpk' : peak (d - 1) rest < UINT_WRAP :=
        Nat.lt_of_le_of_lt (Nat.le_max_right _ _) hpk
      simp only [run_calls] at hr
      split at hr
      · cases hr
      · rename_i fn
        split at hr
        · rename_i u s1 hput
          obtain ⟨hpos, h1⟩ := h.close_node hput
          obtain ⟨hle, ho⟩ := ih s1 (some fn) (d - 1) s' handle' h1 hpk' hr
          refine ⟨by simp only [closes, opens]; omega, ?_⟩
          have e : d + opens (Call.close_node put_rc :: rest)
              - closes (Call.close_node put_rc :: rest) = d - 1 + opens rest - closes rest := by
            simp only [closes, opens]; omega
          rw [e]; exact ho
        · cases hr

theorem many_references_zero : many_references 0 = many_nodes 1 := by
  apply State.ext_fields
  · rfl
  · funext q
    by_cases hq : q = 0
    · subst hq; simp [many_references, many_nodes, UINT_WRAP]
    · simp [many_references, many_nodes, Function.update_noteq hq]
  · rfl
  · rfl

/-- Opening the one object of `many_references j` another `k` times. -/
theorem run_calls_many_references (k : Nat) : ∀ j,
    run_calls 0 0 (many_references j) (some 0) (List.replicate k (Call.open_node idle_env)) =
      some (many_references (j + k), some 0) := by
  induction k with
  | zero => intro j; rfl
  | succ k ih =>
    intro j
    rw [List.replicate_succ]
    simp only [run_calls]
    rw [many_references_step j (reachable_wf (many_references_reachable j)) idle_env]
    have hf : idle_env.is_fresh (many_references j) = true := rfl
    simp only [hf, if_true]
    rw [ih (j + 1)]
    congr 3
    omega

theorem opens_replicate (k : Nat) (env : GetEnv) :
    opens (List.replicate k (Call.open_node env)) = k ∧
      closes (List.replicate k (Call.open_node env)) = 0 := by
  induction k with
  | zero => exact ⟨rfl, rfl⟩
  | succ k ih =>
    rw [List.replicate_succ]
    simp only [opens, closes, ih.1, ih.2, and_self]

/-- One open of object 0 in the state with nothing cached, then `k` more. -/
theorem run_calls_from_mounted (k : Nat) :
    opens (Call.open_node (demo_env 0) :: List.replicate k (Call.open_node idle_env)) = k + 1 ∧
      closes (Call.open_node (demo_env 0) :: List.replicate k (Call.open_node idle_env)) = 0 ∧
      run_calls 0 0 (many_nodes 0) none
        (Call.open_node (demo_env 0) :: List.replicate k (Call.open_node idle_env)) =
          some (many_references k, some 0) := by
  refine ⟨?_, ?_, ?_⟩
  · simp only [opens, (opens_replicate k idle_env).1]
  · simp only [closes, (opens_replicate k idle_env).2]
  · simp only [run_calls]
    have hf : (demo_env 0).is_fresh (many_nodes 0) = true := rfl
    rw [many_nodes_step 0 (reachable_wf (many_nodes_reachable 0))]
    simp only [hf, if_true]
    have h := run_calls_many_references k 0
    rw [many_references_zero, Nat.zero_add] at h
    rw [h]

/-- Every `many_nodes k` is reached without a counter wrapping. -/
theorem many_nodes_no_wrap (k : Nat) : ReachableNoWrap (many_nodes k) := by
  induction k with
  | zero =>
    exact ReachableNoWrap.mounted ReachableNoWrap.init
      (by constructor <;> intro p _ <;> rfl)
      (by intro p hp; simp [State.init] at hp) mounted_demo
  | succ k ih =>
    exact ReachableNoWrap.node_get_core ih
      (by intro p hp; simp only [demo_env, Option.some.injEq] at hp; subst hp; simp [many_nodes])
      (many_nodes_insts k)
      (fun p hp n hk _ => absurd hk (many_nodes_absent k p hp))
      (many_nodes_step k (reachable_wf ih.reachable))

/-- While the cache holds fewer than `2 ^ 32` nodes, the `open_nodes_count` of an
instance is the number of its cached nodes, and it is not 0 when one of them is
cached. -/
theorem count_of_few_nodes {s : State} (h : WF s) {ip : Nat} {i : ext2fs_instance}
    (hi : s.insts ip = some i) (hfew : s.open_nodes.length < UINT_WRAP) :
    i.open_nodes_count = (cached_nodes_of s ip).length := by
  have hle : (cached_nodes_of s ip).length ≤ s.open_nodes.length := List.length_filter_le _ _
  rw [h.count ip i hi, Nat.mod_eq_of_lt (Nat.lt_of_le_of_lt hle hfew)]

theorem count_pos_of_cached {s : State} (h : WF s) {p : Nat} {n : ext2fs_node}
    {i : ext2fs_instance} (hn : s.nodes p = some n) (hp : p ∈ s.open_nodes)
    (hi : s.insts n.inst = some i) (hfew : s.open_nodes.length < UINT_WRAP) :
    0 < i.open_nodes_count := by
  rw [count_of_few_nodes h hi hfew]
  apply List.length_pos_of_mem (a := p)
  unfold cached_nodes_of
  rw [List.mem_filter]
  exact ⟨hp, by simp [owned_by, hn]⟩

/-! ## The claims on the open-node cache -/

/-- C1: in every state the server can reach by mounts, `ext2fs_node_get_core`
and `ext2fs_node_put` calls (whatever their outcome), the open-node cache holds
at most one node for each (device_handle, object_index) key. -/
theorem C1_at_most_one_node_per_key {s : State} (h : Reachable s) (key : Key) :
    (s.open_nodes.filter (fun p => decide (node_key s p = some key))).length ≤ 1 := by
  have hw := reachable_wf h
  apply length_le_one_of_all_eq (hw.nodup.filter _)
  intro a ha b hb
  rw [List.mem_filter] at ha hb
  have ka : node_key s a = some key := by simpa using ha.2
  have kb : node_key s b = some key := by simpa using hb.2
  exact hw.unique a ha.1 b hb.1 (ka.trans kb.symm)

theorem C1_at_most_one_node_per_key_witness :
    Reachable (many_nodes 3) ∧
      ((many_nodes 3).open_nodes.filter
        (fun p => decide (node_key (many_nodes 3) p = some (7, 1)))).length ≤ 1 :=
  ⟨many_nodes_reachable 3, C1_at_most_one_node_per_key (many_nodes_reachable 3) (7, 1)⟩

/-- C2, as the code has it: when the cache holds node `p` for the key of
`(inst, index)` and the reference count of `p` is below `UINT_MAX`,
`ext2fs_node_get_core` returns `EOK` and `p` whatever the allocator and the
decoder would answer (they are not called), the count of `p` is one higher, and
the cached nodes, their keys, every other node and every instance (so every
`open_nodes_count`) are unchanged. -/
theorem C2_get_cached_node {s : State} (h : Reachable s) {inst index p : Nat}
    {i : ext2fs_instance} {n : ext2fs_node} (hi : s.insts inst = some i)
    (hp : p ∈ s.open_nodes) (hk : node_key s p = some (i.devmap_handle, index))
    (hn : s.nodes p = some n) (hlt : n.references < UINT_MAX) :
    ∃ s', (∀ env, ext2fs_node_get_core s inst index env = .ok (.ok p, s')) ∧
      s'.nodes p = some { n with references := n.references + 1 } ∧
      (∀ q, q ≠ p → s'.nodes q = s.nodes q) ∧
      s'.open_nodes = s.open_nodes ∧ (∀ q, node_key s' q = node_key s q) ∧
      s'.insts = s.insts ∧ s'.instance_list = s.instance_list := by
  have hw := reachable_wf h
  have hmod : (n.references + 1) % UINT_WRAP = n.references + 1 := by
    simp only [UINT_WRAP, UINT_MAX] at hlt ⊢; omega
  refine ⟨s.set_node p (some { n with references := n.references + 1 }), ?_, ?_, ?_, rfl, ?_,
    rfl, rfl⟩
  · intro env
    rw [ext2fs_node_get_core_hit hw env hi hp hk hn, hmod]
  · simp
  · intro q hq; simp [Function.update_noteq hq]
  · intro q
    have hid : ((s.set_node p (some { n with references := n.references + 1 })).nodes q).map
        node_ident = (s.nodes q).map node_ident := by
      by_cases hq : q = p
      · subst hq; simp [hn, node_ident]
      · simp [Function.update_noteq hq]
    exact node_key_congr hid (fun _ => rfl)

theorem C2_get_cached_node_witness :
    ∃ s', (∀ env, ext2fs_node_get_core (many_nodes 2) 0 1 env = .ok (.ok 1, s')) ∧
      s'.nodes 1 = some
        { inst := 0, inode_ref := { index := 1, inode := demo_inode }, references := 1 + 1 } ∧
      (∀ q, q ≠ 1 → s'.nodes q = (many_nodes 2).nodes q) ∧
      s'.open_nodes = (many_nodes 2).open_nodes ∧
      (∀ q, node_key s' q = node_key (many_nodes 2) q) ∧
      s'.insts = (many_nodes 2).insts ∧ s'.instance_list = (many_nodes 2).instance_list :=
  @C2_get_cached_node (many_nodes 2) (many_nodes_reachable 2) 0 1 1
    { devmap_handle := 7, filesystem := 100, open_nodes_count := 2 % UINT_WRAP }
    { inst := 0, inode_ref := { index := 1, inode := demo_inode }, references := 1 }
    rfl (by decide) rfl rfl (by decide)

/-- C2 fails at a full counter: in the reachable state in which the cached node 0
has `UINT_MAX` references, `ext2fs_node_get_core` returns that node with
reference count 0, not `UINT_MAX + 1`. -/
theorem C2_counterexample :
    Reachable (many_references 4294967294) ∧
      0 ∈ (many_references 4294967294).open_nodes ∧
      node_key (many_references 4294967294) 0 = some (7, 0) ∧
      ((many_references 4294967294).nodes 0).map (fun n => n.references) = some 4294967295 ∧
      ∃ s', ext2fs_node_get_core (many_references 4294967294) 0 0 idle_env = .ok (.ok 0, s') ∧
        (s'.nodes 0).map (fun n => n.references) = some 0 := by
  refine ⟨many_references_reachable _, by decide, rfl, rfl, many_references 4294967295, ?_, rfl⟩
  exact many_references_step 4294967294 (reachable_wf (many_references_reachable _)) idle_env

/-- C3: in a reachable state whose cache has room for one more node (with the new
node it holds fewer than `2 ^ 32`, as the memory of the server does in every
run), when the key of `(inst, index)` is not cached, both allocations, which
come before the decoding, succeed (the node at the unused address `p`) and
the record decodes to `inode`, `ext2fs_node_get_core` returns `EOK` and `p`;
node `p` has one reference, the decoded record and `inst` as its instance; the
cache is the old one with `p` appended, and looking the key up finds `p`;
`open_nodes_count` of `inst` is one higher; every other node, every other
instance and the key of every node cached before are unchanged. -/
theorem C3_get_new_node {s : State} (h : Reachable s) {inst index p : Nat}
    {i : ext2fs_instance} {inode : ext2_inode} {env : GetEnv}
    (hi : s.insts inst = some i)
    (habsent : ∀ q ∈ s.open_nodes, node_key s q ≠ some (i.devmap_handle, index))
    (he : env.enode = some p) (hfresh : s.nodes p = none) (hnode : env.node = true)
    (hino : env.inode = .ok inode) (hroom : s.open_nodes.length + 1 < UINT_WRAP) :
    ∃ s', ext2fs_node_get_core s inst index env = .ok (.ok p, s') ∧
      s'.nodes p = some
        { inst := inst, inode_ref := { index := index, inode := inode }, references := 1 } ∧
      s'.open_nodes = s.open_nodes ++ [p] ∧
      hash_table_find s' (i.devmap_handle, index) s'.open_nodes = .ok (some p) ∧
      s'.insts inst = some { i with open_nodes_count := i.open_nodes_count + 1 } ∧
      (∀ q, q ≠ inst → s'.insts q = s.insts q) ∧
      (∀ q, q ≠ p → s'.nodes q = s.nodes q) ∧
      (∀ q ∈ s.open_nodes, node_key s' q = node_key s q) ∧
      s'.instance_list = s.instance_list := by
  have hw := reachable_wf h
  have hc : i.open_nodes_count < UINT_MAX := by
    have hle : (cached_nodes_of s inst).length ≤ s.open_nodes.length :=
      List.length_filter_le _ _
    rw [count_of_few_nodes hw hi (Nat.lt_of_succ_lt hroom)]
    simp only [UINT_MAX]
    omega
  have hmod : (i.open_nodes_count + 1) % UINT_WRAP = i.open_nodes_count + 1 := by
    simp only [UINT_WRAP, UINT_MAX] at hc ⊢; omega
  have hw' := @WF.insert_node s hw inst p index i inode hi hfresh habsent
  have hm := ext2fs_node_get_core_miss hw env hi habsent
  simp only [he, hnode, hino, if_true] at hm
  rw [hmod] at hm hw'
  refine ⟨_, hm, ?_, rfl, ?_, ?_, ?_, ?_, ?_, rfl⟩
  · simp
  · apply hash_table_find_hit hw'
    · simp
    · simp [node_key]
  · simp
  · intro q hq; simp [Function.update_noteq hq]
  · intro q hq; simp [Function.update_noteq hq]
  · intro q hq
    have hqp : q ≠ p := by
      rintro rfl
      obtain ⟨m, hm'⟩ := hw.cached_live q hq
      rw [hfresh] at hm'; cases hm'
    apply node_key_eq_of_eq
    · simp [Function.update_noteq hqp]
    · intro ip j hj
      by_cases hip : ip = inst
      · subst hip; rw [hi] at hj; cases hj
        exact ⟨{ i with open_nodes_count := i.open_nodes_count + 1 }, by simp, rfl⟩
      · exact ⟨j, by simp [Function.update_noteq hip, hj], rfl⟩
    · exact fun m hm' => hw.node_inst q m hm'

theorem C3_get_new_node_witness :
    ∃ s', ext2fs_node_get_core (many_nodes 2) 0 9 (demo_env 5) = .ok (.ok 5, s') ∧
      s'.nodes 5 = some
        { inst := 0, inode_ref := { index := 9, inode := demo_inode }, references := 1 } ∧
      s'.open_nodes = (many_nodes 2).open_nodes ++ [5] ∧
      hash_table_find s' (7, 9) s'.open_nodes = .ok (some 5) ∧
      s'.insts 0 = some { devmap_handle := 7, filesystem := 100, open_nodes_count := 2 + 1 } ∧
      (∀ q, q ≠ 0 → s'.insts q = (many_nodes 2).insts q) ∧
      (∀ q, q ≠ 5 → s'.nodes q = (many_nodes 2).nodes q) ∧
      (∀ q ∈ (many_nodes 2).open_nodes, node_key s' q = node_key (many_nodes 2) q) ∧
      s'.instance_list = (many_nodes 2).instance_list :=
  @C3_get_new_node (many_nodes 2) (many_nodes_reachable 2) 0 9 5
    { devmap_handle := 7, filesystem := 100, open_nodes_count := 2 }
    demo_inode (demo_env 5) rfl (by decide) rfl rfl rfl rfl (by decide)

/-- C4: when the key is not cached and an allocation or the decoding of the
on-disk record fails, `ext2fs_node_get_core` returns the error (`ENOMEM` for an
allocation, the decoder's code otherwise) and the whole state, so the cache,
every reference count and every `open_nodes_count`, is what it was. -/
theorem C4_failed_get_leaves_no_trace {s : State} (h : Reachable s) {inst index : Nat}
    {i : ext2fs_instance} (env : GetEnv) (hi : s.insts inst = some i)
    (habsent : ∀ q ∈ s.open_nodes, node_key s q ≠ some (i.devmap_handle, index)) :
    ((env.enode = none ∨ env.node = false) →
        ext2fs_node_get_core s inst index env = .ok (.error .ENOMEM, s)) ∧
      (∀ p rc, env.enode = some p → env.node = true → env.inode = .error rc →
        ext2fs_node_get_core s inst index env = .ok (.error rc, s)) := by
  have hm := ext2fs_node_get_core_miss (reachable_wf h) env hi habsent
  obtain ⟨enode, node, inode⟩ := env
  constructor
  · rintro (he | hnode)
    · simp only at he; subst he; exact hm
    · simp only at hnode; subst hnode
      cases enode <;> exact hm
  · intro p rc he hnode hino
    simp only at he hnode hino
    subst he hnode hino
    exact hm

theorem C4_failed_get_leaves_no_trace_witness :
    ext2fs_node_get_core (many_nodes 2) 0 5
        { enode := some 9, node := true, inode := .error (.other 5) } =
      .ok (.error (.other 5), many_nodes 2) :=
  (C4_failed_get_leaves_no_trace (many_nodes_reachable 2)
    { enode := some 9, node := true, inode := .error (.other 5) }
    (show (many_nodes 2).insts 0 = some
      { devmap_handle := 7, filesystem := 100, open_nodes_count := 2 % UINT_WRAP } from rfl)
    (by decide)).2 9 (.other 5) rfl rfl rfl

/-- C5: in a reachable state whose cache holds fewer than `2 ^ 32` nodes (as the
memory of the server does in every run), for a cached node `p` with `n > 0`
references whose record release succeeds, `ext2fs_node_put` returns `EOK`; if
`n > 1` the node stays cached with `n - 1` references and no instance changes;
if `n = 1` the node and its key are gone from the cache and the
`open_nodes_count` of its instance, and of no other, is one lower.  In both
cases every other cached node stays cached, with its contents and its key. -/
theorem C5_put_cached_node {s : State} (h : Reachable s) {p : Nat} {n : ext2fs_node}
    {i : ext2fs_instance} (hp : p ∈ s.open_nodes) (hn : s.nodes p = some n)
    (hpos : 0 < n.references) (hi : s.insts n.inst = some i)
    (hfew : s.open_nodes.length < UINT_WRAP) :
    ∃ s', ext2fs_node_put s p (.ok ()) = .ok (.ok (), s') ∧
      (1 < n.references →
        s'.open_nodes = s.open_nodes ∧
        s'.nodes p = some { n with references := n.references - 1 } ∧
        s'.insts = s.insts) ∧
      (n.references = 1 →
        s'.open_nodes = s.open_nodes.erase p ∧ p ∉ s'.open_nodes ∧
        (∀ q ∈ s'.open_nodes, node_key s' q ≠ node_key s p) ∧
        s'.insts n.inst = some { i with open_nodes_count := i.open_nodes_count - 1 } ∧
        (∀ ip, ip ≠ n.inst → s'.insts ip = s.insts ip)) ∧
      (∀ q ∈ s.open_nodes, q ≠ p →
        q ∈ s'.open_nodes ∧ s'.nodes q = s.nodes q ∧ node_key s' q = node_key s q) := by
  have hw := reachable_wf h
  have hlt := hw.references_lt p n hn
  have hc : 0 < i.open_nodes_count := count_pos_of_cached hw hn hp hi hfew
  by_cases h1 : n.references = 1
  · obtain ⟨s2, -, hok, hw2, ho, hnodes, hinsts, -⟩ := ext2fs_node_put_last hw hn h1 hi hc
    have hkq : ∀ q, q ≠ p → node_key (s2.set_node p none) q = node_key s q := by
      intro q hq
      apply node_key_eq_of_eq
      · simp [Function.update_noteq hq, hnodes]
      · intro ip j hj
        simp only [set_node_insts, hinsts]
        by_cases hip : ip = n.inst
        · subst hip; rw [hi] at hj; cases hj
          exact ⟨{ i with open_nodes_count := i.open_nodes_count - 1 }, by simp, rfl⟩
        · exact ⟨j, by simp [Function.update_noteq hip, hj], rfl⟩
      · exact fun m hm => hw.node_inst q m hm
    refine ⟨s2.set_node p none, hok, fun h2 => absurd h1 (by omega), fun _ => ?_, ?_⟩
    · refine ⟨ho, ?_, ?_, ?_, ?_⟩
      · rw [set_node_open_nodes, ho, hw.nodup.mem_erase_iff]
        exact fun e => e.1 rfl
      · intro q hq
        rw [set_node_open_nodes, ho, hw.nodup.mem_erase_iff] at hq
        rw [hkq q hq.1]
        exact fun e => hq.1 (hw.unique q hq.2 p hp e)
      · simp [hinsts]
      · intro ip hip; simp [hinsts, Function.update_noteq hip]
    · intro q hq hqp
      refine ⟨?_, ?_, hkq q hqp⟩
      · rw [set_node_open_nodes, ho, hw.nodup.mem_erase_iff]; exact ⟨hqp, hq⟩
      · simp [Function.update_noteq hqp, hnodes]
  · have h2 : 1 < n.references := by omega
    refine ⟨_, ext2fs_node_put_many hn h2 hlt (.ok ()), fun _ => ⟨rfl, by simp, rfl⟩,
      fun e => absurd e h1, ?_⟩
    intro q hq hqp
    refine ⟨hq, by simp [Function.update_noteq hqp], ?_⟩
    exact node_key_eq_of_eq (by simp [Function.update_noteq hqp]) (fun ip j hj => ⟨j, hj, rfl⟩)
      (fun m hm => hw.node_inst q m hm)

theorem C5_put_cached_node_witness :
    ∃ s', ext2fs_node_put (many_nodes 2) 1 (.ok ()) = .ok (.ok (), s') ∧
      s'.open_nodes = (many_nodes 2).open_nodes.erase 1 ∧
      s'.insts 0 = some { devmap_handle := 7, filesystem := 100, open_nodes_count := 2 - 1 } := by
  obtain ⟨s', h1, -, h2, -⟩ := C5_put_cached_node (many_nodes_reachable 2) (p := 1)
    (n := { inst := 0, inode_ref := { index := 1, inode := demo_inode }, references := 1 })
    (i := { devmap_handle := 7, filesystem := 100, open_nodes_count := 2 })
    (by decide) rfl (by decide) rfl (by decide)
  exact ⟨s', h1, (h2 rfl).1, (h2 rfl).2.2.2.1⟩

/-- C6: in a reachable state whose cache holds fewer than `2 ^ 32` nodes (as the
memory of the server does in every run), when the last reference of a node
`p` is released and `ext2_filesystem_put_inode_ref` fails with `rc`,
`ext2fs_node_put` returns `rc`, and afterwards `p` and its key are not in the
cache and the `open_nodes_count` of its instance is one lower (the node itself
is not freed). -/
theorem C6_failed_release_still_evicts {s : State} (h : Reachable s) {p : Nat}
    {n : ext2fs_node} {i : ext2fs_instance} (hn : s.nodes p = some n)
    (hr : n.references = 1) (hi : s.insts n.inst = some i)
    (hfew : s.open_nodes.length < UINT_WRAP) (rc : Errno) :
    ∃ s', ext2fs_node_put s p (.error rc) = .ok (.error rc, s') ∧
      p ∈ s.open_nodes ∧ p ∉ s'.open_nodes ∧
      hash_table_find s' (i.devmap_handle, n.inode_ref.index) s'.open_nodes = .ok none ∧
      s'.insts n.inst = some { i with open_nodes_count := i.open_nodes_count - 1 } ∧
      s'.nodes p = some { n with references := 0 } := by
  have hw := reachable_wf h
  have hp : p ∈ s.open_nodes := hw.referenced_cached p n hn (by omega)
  have hc : 0 < i.open_nodes_count := count_pos_of_cached hw hn hp hi hfew
  obtain ⟨s2, herr, -, hw2, ho, hnodes, hinsts, -⟩ := ext2fs_node_put_last hw hn hr hi hc
  refine ⟨s2, herr rc, hp, ?_, ?_, by simp [hinsts], by simp [hnodes]⟩
  · rw [ho, hw.nodup.mem_erase_iff]; exact fun e => e.1 rfl
  · apply hash_table_find_miss hw2
    intro q hq
    rw [ho, hw.nodup.mem_erase_iff] at hq
    have hkq : node_key s2 q = node_key s q := by
      apply node_key_eq_of_eq
      · simp [Function.update_noteq hq.1, hnodes]
      · intro ip j hj
        rw [hinsts]
        by_cases hip : ip = n.inst
        · subst hip; rw [hi] at hj; cases hj
          exact ⟨{ i with open_nodes_count := i.open_nodes_count - 1 }, by simp, rfl⟩
        · exact ⟨j, by simp [Function.update_noteq hip, hj], rfl⟩
      · exact fun m hm => hw.node_inst q m hm
    rw [hkq, ← node_key_of_live hn hi]
    exact fun e => hq.1 (hw.unique q hq.2 p hp e)

theorem C6_failed_release_still_evicts_witness :
    ∃ s', ext2fs_node_put (many_nodes 2) 1 (.error .EINVAL) = .ok (.error .EINVAL, s') ∧
      1 ∈ (many_nodes 2).open_nodes ∧ 1 ∉ s'.open_nodes ∧
      hash_table_find s' (7, 1) s'.open_nodes = .ok none ∧
      s'.insts 0 = some { devmap_handle := 7, filesystem := 100, open_nodes_count := 2 - 1 } ∧
      s'.nodes 1 = some
        { inst := 0, inode_ref := { index := 1, inode := demo_inode }, references := 0 } :=
  C6_failed_release_still_evicts (many_nodes_reachable 2) (p := 1)
    (n := { inst := 0, inode_ref := { index := 1, inode := demo_inode }, references := 1 })
    (i := { devmap_handle := 7, filesystem := 100, open_nodes_count := 2 })
    rfl rfl rfl (by decide) .EINVAL

/-- C7: `ext2fs_node_put` on a node whose reference count is 0 stops at
`assert(enode->references > 0)`: it does not return, so it neither reports
success nor writes a decremented (wrapped) count. -/
theorem C7_put_unreferenced_is_fatal {s : State} {fn : Nat} {n : ext2fs_node}
    (hn : s.nodes fn = some n) (hr : n.references = 0) (put_rc : Except Errno Unit) :
    ext2fs_node_put s fn put_rc = .error .assert_references := by
  unfold ext2fs_node_put
  simp [hn, hr]

theorem C7_put_unreferenced_is_fatal_witness :
    leaked_node.nodes 0 = some
        { inst := 0, inode_ref := { index := 0, inode := demo_inode }, references := 0 } ∧
      ext2fs_node_put leaked_node 0 (.ok ()) = .error .assert_references :=
  ⟨rfl, @C7_put_unreferenced_is_fatal leaked_node 0 _ rfl rfl (.ok ())⟩

/-- C8, as the code has it: take a reachable state in which the object
`(inst, index)` is not cached and run any sequence of opens
(`ext2fs_node_get_core`) and closes (`ext2fs_node_put` on the handle opened)
that all return `EOK` and never have `2 ^ 32` or more references outstanding.
Then no more was closed than opened; while opens exceed closes the cache holds
exactly one node for the key, the handle, with `opens - closes` references; and
when they are equal the key is not cached and `open_nodes_count` of the instance
is what it was at the start. -/
theorem C8_open_close_sequence {s0 : State} (h0 : Reachable s0) {inst index : Nat}
    {i0 : ext2fs_instance} (hi : s0.insts inst = some i0)
    (habsent : ∀ q ∈ s0.open_nodes, node_key s0 q ≠ some (i0.devmap_handle, index))
    (calls : List Call) (hpeak : peak 0 calls < UINT_WRAP) {s' : State} {handle : Option Nat}
    (hrun : run_calls inst index s0 none calls = some (s', handle)) :
    closes calls ≤ opens calls ∧
      (closes calls < opens calls → ∃ p n, handle = some p ∧
        s'.open_nodes.filter (fun q => decide (node_key s' q = some (i0.devmap_handle, index)))
          = [p] ∧
        s'.nodes p = some n ∧ n.references = opens calls - closes calls) ∧
      (closes calls = opens calls →
        s'.open_nodes.filter (fun q => decide (node_key s' q = some (i0.devmap_handle, index)))
          = [] ∧
        ∃ i, s'.insts inst = some i ∧ i.open_nodes_count = i0.open_nodes_count) := by
  have hw := reachable_wf h0
  have hstart : Outstanding inst index i0 s0 none 0 :=
    ⟨hw, by rw [hw.count inst i0 hi]; exact Nat.mod_lt _ (Nat.pos_of_ne_zero (by decide)),
      ⟨i0, hi, rfl, fun _ => rfl, fun e => absurd e (Nat.lt_irrefl 0)⟩,
      fun _ => ⟨habsent, fun fn e => by cases e⟩, fun e => absurd e (Nat.lt_irrefl 0)⟩
  obtain ⟨hle, ho⟩ := run_calls_outstanding inst index i0 calls s0 none 0 s' handle hstart hpeak hrun
  rw [Nat.zero_add] at hle ho
  refine ⟨hle, fun hlt => ?_, fun heq => ?_⟩
  · obtain ⟨p, n, hh, hp, hk, hn, -, hrefs⟩ := ho.opened (by omega)
    exact ⟨p, n, hh, filter_key_eq_singleton ho.wf hp hk, hn, hrefs⟩
  · obtain ⟨hk, -⟩ := ho.closed (by omega)
    obtain ⟨i, hi', -, hc, -⟩ := ho.inst_live
    exact ⟨filter_key_eq_nil hk, i, hi', hc (by omega)⟩

theorem C8_open_close_sequence_witness :
    ∃ s' handle, run_calls 0 9 (many_nodes 2) none demo_calls = some (s', handle) ∧
      closes demo_calls ≤ opens demo_calls ∧
      (closes demo_calls < opens demo_calls → ∃ p n, handle = some p ∧
        s'.open_nodes.filter (fun q => decide (node_key s' q = some (7, 9))) = [p] ∧
        s'.nodes p = some n ∧ n.references = opens demo_calls - closes demo_calls) ∧
      (closes demo_calls = opens demo_calls →
        s'.open_nodes.filter (fun q => decide (node_key s' q = some (7, 9))) = [] ∧
        ∃ i, s'.insts 0 = some i ∧ i.open_nodes_count = 2) := by
  have hrun : ∃ s' handle, run_calls 0 9 (many_nodes 2) none demo_calls = some (s', handle) :=
    ⟨_, _, rfl⟩
  obtain ⟨s', handle, hrun⟩ := hrun
  exact ⟨s', handle, hrun, @C8_open_close_sequence (many_nodes 2) (many_nodes_reachable 2) 0 9
    { devmap_handle := 7, filesystem := 100, open_nodes_count := 2 }
    rfl (by decide) demo_calls (by decide) s' handle hrun⟩

/-- C8 fails when the counter wraps: from the state in which device 7 is mounted
and nothing is cached, `2 ^ 32` opens of object 0 all return `EOK`, and
afterwards the one cached node of the object has reference count 0, not
`2 ^ 32`. -/
theorem C8_counterexample :
    Reachable (many_nodes 0) ∧ (many_nodes 0).open_nodes = [] ∧
      opens (Call.open_node (demo_env 0) ::
        List.replicate 4294967295 (Call.open_node idle_env)) = 4294967296 ∧
      closes (Call.open_node (demo_env 0) ::
        List.replicate 4294967295 (Call.open_node idle_env)) = 0 ∧
      run_calls 0 0 (many_nodes 0) none (Call.open_node (demo_env 0) ::
        List.replicate 4294967295 (Call.open_node idle_env)) =
          some (many_references 4294967295, some 0) ∧
      0 ∈ (many_references 4294967295).open_nodes ∧
      (many_references 4294967295).nodes 0 = some
        { inst := 0, inode_ref := { index := 0, inode := demo_inode }, references := 0 } :=
  ⟨many_nodes_reachable 0, rfl, (run_calls_from_mounted 4294967295).1,
    (run_calls_from_mounted 4294967295).2.1, (run_calls_from_mounted 4294967295).2.2,
    by decide, rfl⟩

/-- C9, as the code has it: in every state reached without a reference counter
wrapping (no `ext2fs_node_get_core` on an object whose cached node has
`UINT_MAX` references), every node in the open-node cache is live and has a
positive reference count; an `ext2fs_node_get_core` removes no node from the
cache; and an `ext2fs_node_put` that returns, with or without an error of the
record release, removes a node from the cache exactly when it is the node put
and the put took its count from 1 to 0. -/
theorem C9_cached_nodes_are_referenced {s : State} (h : ReachableNoWrap s) :
    (∀ p ∈ s.open_nodes, ∃ n, s.nodes p = some n ∧ 0 < n.references) ∧
      (∀ inst index env rc s', ext2fs_node_get_core s inst index env = .ok (rc, s') →
        ∀ p ∈ s.open_nodes, p ∈ s'.open_nodes) ∧
      (∀ fn n put_rc rc s', s.nodes fn = some n →
        ext2fs_node_put s fn put_rc = .ok (rc, s') →
        ∀ p ∈ s.open_nodes, (p ∉ s'.open_nodes ↔ p = fn ∧ n.references = 1)) := by
  have hw := reachable_wf h.reachable
  refine ⟨reachable_no_wrap_referenced h, ?_, ?_⟩
  · intro inst index env rc s' hr p hp
    rcases ext2fs_node_get_core_open_nodes hw hr with ho | ⟨q, ho⟩
    · rw [ho]; exact hp
    · rw [ho]; exact List.mem_append_left _ hp
  · intro fn n put_rc rc s' hn hr p hp
    rcases ext2fs_node_put_open_nodes hw hn hr with ⟨h1, -, ho, -⟩ | ⟨h2, ho, -⟩
    · rw [ho, hw.nodup.mem_erase_iff]
      constructor
      · intro hne
        by_cases hpf : p = fn
        · exact ⟨hpf, h1⟩
        · exact absurd ⟨hpf, hp⟩ hne
      · rintro ⟨hpf, -⟩ ⟨hne, -⟩
        exact hne hpf
    · rw [ho]
      constructor
      · intro hne; exact absurd hp hne
      · rintro ⟨-, h1⟩; omega

theorem C9_cached_nodes_are_referenced_witness :
    (∀ p ∈ (many_nodes 2).open_nodes, ∃ n, (many_nodes 2).nodes p = some n ∧ 0 < n.references) ∧
      (∀ inst index env rc s',
        ext2fs_node_get_core (many_nodes 2) inst index env = .ok (rc, s') →
        ∀ p ∈ (many_nodes 2).open_nodes, p ∈ s'.open_nodes) ∧
      (∀ fn n put_rc rc s', (many_nodes 2).nodes fn = some n →
        ext2fs_node_put (many_nodes 2) fn put_rc = .ok (rc, s') →
        ∀ p ∈ (many_nodes 2).open_nodes, (p ∉ s'.open_nodes ↔ p = fn ∧ n.references = 1)) :=
  C9_cached_nodes_are_referenced (many_nodes_no_wrap 2)

/-- C9 fails once a counter has wrapped: `2 ^ 32` references to one object leave
its node in the cache with reference count 0. -/
theorem C9_counterexample :
    Reachable (many_references 4294967295) ∧
      0 ∈ (many_references 4294967295).open_nodes ∧
      (many_references 4294967295).nodes 0 = some
        { inst := 0, inode_ref := { index := 0, inode := demo_inode }, references := 0 } :=
  ⟨many_references_reachable _, by decide, rfl⟩

/-- C10: in every reachable state whose cache holds fewer than `2 ^ 32` nodes (as
the memory of the server does in every run), whether or not the device
handles of the mounted volumes are pairwise distinct, the `open_nodes_count`
of each live instance is the number of nodes in the cache whose `instance` is
that instance. -/
theorem C10_open_nodes_count {s : State} (h : Reachable s) {ip : Nat} {i : ext2fs_instance}
    (hi : s.insts ip = some i) (hfew : s.open_nodes.length < UINT_WRAP) :
    i.open_nodes_count = (cached_nodes_of s ip).length ∧
      (cached_nodes_of s ip).length =
        (s.open_nodes.filter (fun p => (s.nodes p).any (fun n => n.inst == ip))).length := by
  refine ⟨count_of_few_nodes (reachable_wf h) hi hfew, ?_⟩
  unfold cached_nodes_of
  congr 1
  apply List.filter_congr
  intro p _
  unfold owned_by
  cases s.nodes p <;> rfl

theorem C10_open_nodes_count_witness :
    (3 : Nat) = (cached_nodes_of (many_nodes 3) 0).length ∧
      (cached_nodes_of (many_nodes 3) 0).length =
        ((many_nodes 3).open_nodes.filter
          (fun p => ((many_nodes 3).nodes p).any (fun n => n.inst == 0))).length :=
  @C10_open_nodes_count (many_nodes 3) (many_nodes_reachable 3) 0
    { devmap_handle := 7, filesystem := 100, open_nodes_count := 3 } rfl (by decide)

/-! ## The registry, mount and unmount, and the read of a file -/

theorem inst_handle_of_live {s : State} {ip : Nat} {i : ext2fs_instance}
    (hi : s.insts ip = some i) : inst_handle s ip = some i.devmap_handle := by
  simp [inst_handle, hi]

/-- On a list of live instances the loop of `ext2fs_instance_get` returns the
first one with the handle, and `EINVAL` when there is none. -/
theorem ext2fs_instance_get_loop_eq {s : State} (devmap_handle : Nat) :
    ∀ l : List Nat, (∀ ip ∈ l, ∃ i, s.insts ip = some i) →
      (∀ ip, l.find? (fun q => decide (inst_handle s q = some devmap_handle)) = some ip →
        ext2fs_instance_get_loop s devmap_handle l = .ok (.ok ip)) ∧
      (l.find? (fun q => decide (inst_handle s q = some devmap_handle)) = none →
        ext2fs_instance_get_loop s devmap_handle l = .ok (.error .EINVAL)) := by
  intro l
  induction l with
  | nil =>
    intro _
    exact ⟨fun ip h => by simp at h, fun _ => rfl⟩
  | cons a rest ih =>
    intro hl
    obtain ⟨i, hi⟩ := hl a (List.mem_cons_self _ _)
    have ih1 := ih (fun ip hp => hl ip (List.mem_cons_of_mem _ hp))
    by_cases hh : i.devmap_handle = devmap_handle
    · have hd : decide (inst_handle s a = some devmap_handle) = true := by
        simp [inst_handle, hi, hh]
      constructor
      · intro ip hf
        rw [List.find?_cons] at hf
        simp only [hd, Option.some.injEq] at hf
        subst hf
        simp [ext2fs_instance_get_loop, hi, hh]
      · intro hf
        rw [List.find?_cons] at hf
        simp only [hd] at hf
        cases hf
    · have hd : decide (inst_handle s a = some devmap_handle) = false := by
        simp [inst_handle, hi, hh]
      constructor
      · intro ip hf
        rw [List.find?_cons] at hf
        simp only [hd] at hf
        simp only [ext2fs_instance_get_loop, hi, hh, if_false]
        exact ih1.1 ip hf
      · intro hf
        rw [List.find?_cons] at hf
        simp only [hd] at hf
        simp only [ext2fs_instance_get_loop, hi, hh, if_false]
        exact ih1.2 hf

theorem ext2fs_instance_get_some {s : State} (h : WF s) {devmap_handle ip : Nat}
    (hf : s.instance_list.find? (fun q => decide (inst_handle s q = some devmap_handle))
      = some ip) :
    ext2fs_instance_get s devmap_handle = .ok (.ok ip) := by
  unfold ext2fs_instance_get
  have hne : s.instance_list.isEmpty = false := by
    cases hl : s.instance_list with
    | nil => rw [hl] at hf; simp at hf
    | cons a r => rfl
  simp only [hne, Bool.false_eq_true, if_false]
  exact (ext2fs_instance_get_loop_eq devmap_handle s.instance_list h.list_live).1 ip hf

theorem ext2fs_instance_get_none {s : State} (h : WF s) {devmap_handle : Nat}
    (hf : s.instance_list.find? (fun q => decide (inst_handle s q = some devmap_handle))
      = none) :
    ext2fs_instance_get s devmap_handle = .ok (.error .EINVAL) := by
  unfold ext2fs_instance_get
  split
  · rfl
  · exact (ext2fs_instance_get_loop_eq devmap_handle s.instance_list h.list_live).2 hf

/-- The result of `ext2fs_instance_get` in a consistent state, read backwards. -/
theorem ext2fs_instance_get_ok_iff {s : State} (h : WF s) (devmap_handle ip : Nat) :
    ext2fs_instance_get s devmap_handle = .ok (.ok ip) ↔
      s.instance_list.find? (fun q => decide (inst_handle s q = some devmap_handle))
        = some ip := by
  constructor
  · intro hr
    cases hf : s.instance_list.find? (fun q => decide (inst_handle s q = some devmap_handle)) with
    | none => rw [ext2fs_instance_get_none h hf] at hr; cases hr
    | some ip' =>
      rw [ext2fs_instance_get_some h hf] at hr
      simp only [Except.ok.injEq] at hr
      rw [hr]
  · exact ext2fs_instance_get_some h

theorem find_handle_none_iff {s : State} {devmap_handle : Nat} :
    s.instance_list.find? (fun q => decide (inst_handle s q = some devmap_handle)) = none ↔
      ∀ ip ∈ s.instance_list, inst_handle s ip ≠ some devmap_handle := by
  rw [List.find?_eq_none]
  constructor
  · intro h ip hp; simpa using h ip hp
  · intro h ip hp; simpa using h ip hp

/-- The function `ext2fs_unmounted` for a handle no listed instance has. -/
theorem ext2fs_unmounted_absent {s : State} (h : WF s) {devmap_handle : Nat}
    (habs : ∀ ip ∈ s.instance_list, inst_handle s ip ≠ some devmap_handle) :
    ext2fs_unmounted s devmap_handle = .ok (.error .EINVAL, s) := by
  unfold ext2fs_unmounted
  rw [ext2fs_instance_get_none h (find_handle_none_iff.2 habs)]

/-- The function `ext2fs_unmounted` for a handle that the lookup resolves to a busy
instance. -/
theorem ext2fs_unmounted_busy {s : State} {devmap_handle ip : Nat} {i : ext2fs_instance}
    (hget : ext2fs_instance_get s devmap_handle = .ok (.ok ip)) (hi : s.insts ip = some i)
    (hc : i.open_nodes_count ≠ 0) :
    ext2fs_unmounted s devmap_handle = .ok (.error .EBUSY, s) := by
  unfold ext2fs_unmounted
  simp only [hget, hi, ne_eq, hc, not_false_eq_true, if_true]

/-- The function `ext2fs_unmounted` for a handle that the lookup resolves to an instance
with `open_nodes_count == 0`. -/
theorem ext2fs_unmounted_idle {s : State} {devmap_handle ip : Nat} {i : ext2fs_instance}
    (hget : ext2fs_instance_get s devmap_handle = .ok (.ok ip)) (hi : s.insts ip = some i)
    (hc : i.open_nodes_count = 0) :
    ext2fs_unmounted s devmap_handle =
      .ok (.ok [], { s with instance_list := s.instance_list.erase ip }) := by
  unfold ext2fs_unmounted
  simp only [hget, hi, ne_eq, hc, not_true_eq_false, if_false]

theorem mounted_twice_reachable : Reachable mounted_twice :=
  @Reachable.mounted (many_nodes 1) mounted_twice 7 second_mount_env (.ok [2, 0, 1])
    (many_nodes_reachable 1) (by constructor <;> intro p hp <;> cases hp <;> rfl) rfl

theorem many_nodes_instance_get (k : Nat) :
    ext2fs_instance_get (many_nodes k) 7 = .ok (.ok 0) := rfl

theorem uint_one : (0 + 1) % UINT_WRAP = 1 := by simp [UINT_WRAP]

/-- Adding an instance at an unused address changes the key of no live node. -/
theorem node_key_add_inst {s : State} (h : WF s) {ip : Nat} (hip : s.insts ip = none)
    (v : Option ext2fs_instance) (q : Nat) : node_key (s.set_inst ip v) q = node_key s q := by
  refine @node_key_eq_of_eq s (s.set_inst ip v) q rfl ?_ ?_
  · intro a j hj
    have ha : a ≠ ip := by rintro rfl; rw [hip] at hj; cases hj
    exact ⟨j, by simp [Function.update_noteq ha, hj], rfl⟩
  · exact fun m hm => h.node_inst q m hm

/-- A mount in which every call succeeds and whose root object is not cached:
the answer carries the root index and the link count of the decoded root
record, the instance is appended to `instance_list` with `open_nodes_count` 0,
and the cache and every node but the root node just released are what they
were. -/
theorem ext2fs_mounted_ok {s : State} (h : WF s) {devmap_handle fsp ip p : Nat}
    {inode : ext2_inode} {env : MountEnv} {ro : Bool}
    (hopts : env.opts = .ok ()) (hfs : env.fs = some fsp) (hinst : env.inst = some ip)
    (hinit : env.init = .ok ()) (hsanity : env.check_sanity = .ok ())
    (hflags : env.check_flags = .ok ro) (henode : env.root.enode = some p)
    (hnode : env.root.node = true) (hinode : env.root.inode = .ok inode)
    (hip : s.insts ip = none) (hp : s.nodes p = none)
    (habs : ∀ q ∈ s.open_nodes, node_key s q ≠ some (devmap_handle, EXT2_INODE_ROOT_INDEX)) :
    ∃ s', ext2fs_mounted s devmap_handle env =
        .ok (.ok [EXT2_INODE_ROOT_INDEX, 0, inode.usage_count], s') ∧
      WF s' ∧ s'.instance_list = s.instance_list ++ [ip] ∧ s'.open_nodes = s.open_nodes ∧
      s'.insts = Function.update s.insts ip (some
        { devmap_handle := devmap_handle, filesystem := fsp, open_nodes_count := 0 }) ∧
      (∀ q, q ≠ p → s'.nodes q = s.nodes q) ∧
      (∀ n, s'.nodes p = some n → n.references = 0) := by
  obtain ⟨opts, fs, inst, init, cs, cf, root, root_put⟩ := env
  obtain ⟨enode, node, ino⟩ := root
  simp only at hopts hfs hinst hinit hsanity hflags henode hnode hinode
  subst hopts hfs hinst hinit hsanity hflags henode hnode hinode
  have h1 := h.add_inst hip devmap_handle fsp
  have hi1 : (s.set_inst ip (some
      { devmap_handle := devmap_handle, filesystem := fsp, open_nodes_count := 0 })).insts ip
      = some { devmap_handle := devmap_handle, filesystem := fsp, open_nodes_count := 0 } := by
    simp
  have habs1 : ∀ q ∈ (s.set_inst ip (some
      { devmap_handle := devmap_handle, filesystem := fsp, open_nodes_count := 0 })).open_nodes,
      node_key (s.set_inst ip (some
      { devmap_handle := devmap_handle, filesystem := fsp, open_nodes_count := 0 })) q
        ≠ some (devmap_handle, EXT2_INODE_ROOT_INDEX) := by
    intro q hq
    rw [node_key_add_inst h hip]
    exact habs q hq
  have hget := ext2fs_node_get_core_miss h1
    { enode := some p, node := true, inode := .ok inode } hi1 habs1
  simp only [if_true, uint_one] at hget
  have h2 := @WF.insert_node _ h1 ip p EXT2_INODE_ROOT_INDEX _ inode hi1 hp habs1
  simp only [uint_one] at h2
  generalize hs2 : (hash_table_insert ((s.set_inst ip (some
                  { devmap_handle := devmap_handle, filesystem := fsp,
                    open_nodes_count := 0 })).set_node p
                (some { inst := ip,
                        inode_ref := { index := EXT2_INODE_ROOT_INDEX, inode := inode },
                        references := 1 })) p).set_inst ip (some
                  { devmap_handle := devmap_handle, filesystem := fsp,
                    open_nodes_count := 1 }) = s2
    at hget h2
  have e_nodes : s2.nodes = Function.update s.nodes p (some
      { inst := ip, inode_ref := { index := EXT2_INODE_ROOT_INDEX, inode := inode },
        references := 1 }) := by rw [← hs2]; rfl
  have e_insts : s2.insts ip = some
      { devmap_handle := devmap_handle, filesystem := fsp, open_nodes_count := 1 } := by
    rw [← hs2]; simp
  have e_insts' : ∀ a, a ≠ ip → s2.insts a = s.insts a := by
    intro a ha; rw [← hs2]; simp [Function.update_noteq ha]
  have e_open : s2.open_nodes = s.open_nodes ++ [p] := by rw [← hs2]; rfl
  have e_list : s2.instance_list = s.instance_list := by rw [← hs2]; rfl
  have hn2 : s2.nodes p = some
      { inst := ip, inode_ref := { index := EXT2_INODE_ROOT_INDEX, inode := inode },
        references := 1 } := by rw [e_nodes, Function.update_same]
  have hnot : ip ∉ s2.instance_list := by
    rw [e_list]
    intro hmem
    obtain ⟨j, hj⟩ := h.list_live ip hmem
    rw [hip] at hj; cases hj
  have h3 := h2.append_inst e_insts hnot
  have hpo : p ∉ s.open_nodes := by
    intro hmem
    obtain ⟨m, hm⟩ := h.cached_live p hmem
    rw [hp] at hm; cases hm
  obtain ⟨s4, herr, hok, hw4, ho4, hnodes4, hinsts4, hl4⟩ :=
    @ext2fs_node_put_last { s2 with instance_list := s2.instance_list ++ [ip] } h3 p _ _
      hn2 rfl e_insts Nat.one_pos
  have hopen : s4.open_nodes = s.open_nodes := by
    rw [ho4]
    show (s2.open_nodes).erase p = s.open_nodes
    rw [e_open, List.erase_append_right _ hpo]
    simp
  have hinsts : s4.insts = Function.update s.insts ip (some
      { devmap_handle := devmap_handle, filesystem := fsp, open_nodes_count := 0 }) := by
    rw [hinsts4]
    funext a
    by_cases ha : a = ip
    · subst ha; simp
    · simp only [Function.update_noteq ha]
      exact e_insts' a ha
  have hlist : s4.instance_list = s.instance_list ++ [ip] := by
    rw [hl4]; show s2.instance_list ++ [ip] = _; rw [e_list]
  have hnq : ∀ q, q ≠ p → s4.nodes q = s.nodes q := by
    intro q hq
    rw [hnodes4, Function.update_noteq hq]
    show s2.nodes q = s.nodes q
    rw [e_nodes, Function.update_noteq hq]
  have hn4 : s4.nodes p = some
      { inst := ip, inode_ref := { index := EXT2_INODE_ROOT_INDEX, inode := inode },
        references := 0 } := by
    rw [hnodes4, Function.update_same]
  cases root_put with
  | error e =>
    refine ⟨s4, ?_, hw4, hlist, hopen, hinsts, hnq, ?_⟩
    · unfold ext2fs_mounted
      simp only [hget, hn2, herr e]
    · intro n hn; rw [hn4] at hn; cases hn; rfl
  | ok u =>
    cases u
    have hnot4 : p ∉ s4.open_nodes := by rw [hopen]; exact hpo
    refine ⟨s4.set_node p none, ?_, hw4.free_node hnot4, hlist, hopen, hinsts, ?_, ?_⟩
    · unfold ext2fs_mounted
      simp only [hget, hn2, hok]
    · intro q hq
      rw [set_node_nodes, Function.update_noteq hq]
      exact hnq q hq
    · intro n hn
      rw [set_node_nodes, Function.update_same] at hn; cases hn

/-- A mount that answers with success, on a state whose cache has no root node
of the device, made every one of its calls succeed. -/
theorem ext2fs_mounted_success_env {s s' : State} (h : WF s) {devmap_handle : Nat}
    {env : MountEnv} {args : List Nat} (hf : env.fresh s)
    (habs : ∀ q ∈ s.open_nodes, node_key s q ≠ some (devmap_handle, EXT2_INODE_ROOT_INDEX))
    (hr : ext2fs_mounted s devmap_handle env = .ok (.ok args, s')) :
    ∃ fsp ip p inode ro, env.opts = .ok () ∧ env.fs = some fsp ∧ env.inst = some ip ∧
      env.init = .ok () ∧ env.check_sanity = .ok () ∧ env.check_flags = .ok ro ∧
      env.root.enode = some p ∧ env.root.node = true ∧ env.root.inode = .ok inode := by
  obtain ⟨opts, fs, inst, init, cs, cf, root, root_put⟩ := env
  obtain ⟨enode, node, ino⟩ := root
  unfold ext2fs_mounted at hr
  rcases opts with e | u
  · simp at hr
  rcases fs with _ | fs
  · simp at hr
  rcases inst with _ | inst
  · simp at hr
  rcases init with e | u
  · simp at hr
  rcases cs with e | u
  · simp at hr
  rcases cf with e | ro
  · simp at hr
  have hip : s.insts inst = none := hf.1 inst rfl
  have h1 := h.add_inst hip devmap_handle fs
  have hi1 : (s.set_inst inst (some
      { devmap_handle := devmap_handle, filesystem := fs, open_nodes_count := 0 })).insts inst
      = some { devmap_handle := devmap_handle, filesystem := fs, open_nodes_count := 0 } := by
    simp
  have habs1 : ∀ q ∈ (s.set_inst inst (some
      { devmap_handle := devmap_handle, filesystem := fs, open_nodes_count := 0 })).open_nodes,
      node_key (s.set_inst inst (some
      { devmap_handle := devmap_handle, filesystem := fs, open_nodes_count := 0 })) q
        ≠ some (devmap_handle, EXT2_INODE_ROOT_INDEX) := by
    intro q hq
    rw [node_key_add_inst h hip]
    exact habs q hq
  have hget := ext2fs_node_get_core_miss h1
    { enode := enode, node := node, inode := ino } hi1 habs1
  simp only at hr
  rw [hget] at hr
  rcases enode with _ | p
  · simp at hr
  rcases node with _ | _
  · simp at hr
  rcases ino with e | inode
  · simp at hr
  exact ⟨fs, inst, p, inode, ro, rfl, rfl, rfl, rfl, rfl, rfl, rfl, rfl, rfl⟩

/-- After a successful mount on a state that held nothing of the device, the
lookup of the handle finds the new instance. -/
theorem find_handle_append {s s' : State} {devmap_handle ip : Nat}
    (hl : s'.instance_list = s.instance_list ++ [ip])
    (hold : ∀ q ∈ s.instance_list, inst_handle s' q ≠ some devmap_handle)
    (hnew : inst_handle s' ip = some devmap_handle) :
    s'.instance_list.find? (fun q => decide (inst_handle s' q = some devmap_handle))
      = some ip := by
  rw [hl, List.find?_append]
  have h1 : s.instance_list.find? (fun q => decide (inst_handle s' q = some devmap_handle))
      = none := by
    rw [List.find?_eq_none]
    intro q hq
    simpa using hold q hq
  rw [h1]
  simp [List.find?_cons, hnew]

/-- The round trip behind C13 and C14: on a consistent state that holds nothing
of the device, a mount whose calls all succeed answers with the root index and
the link count, leaves the new instance registered with no node of its own in
the cache, and the unmount that follows succeeds and takes the instance out of
`instance_list` again. -/
theorem ext2fs_mounted_unmounted {s : State} (h : WF s) {devmap_handle fsp ip p : Nat}
    {inode : ext2_inode} {env : MountEnv} {ro : Bool} (hf : env.fresh s)
    (hnm : not_mounted s devmap_handle)
    (hopts : env.opts = .ok ()) (hfs : env.fs = some fsp) (hinst : env.inst = some ip)
    (hinit : env.init = .ok ()) (hsanity : env.check_sanity = .ok ())
    (hflags : env.check_flags = .ok ro) (henode : env.root.enode = some p)
    (hnode : env.root.node = true) (hinode : env.root.inode = .ok inode) :
    ∃ s', ext2fs_mounted s devmap_handle env =
        .ok (.ok [EXT2_INODE_ROOT_INDEX, 0, inode.usage_count], s') ∧
      s'.instance_list = s.instance_list ++ [ip] ∧ ip ∉ s.instance_list ∧
      s'.insts ip = some
        { devmap_handle := devmap_handle, filesystem := fsp, open_nodes_count := 0 } ∧
      cached_nodes_of s' ip = [] ∧
      s'.open_nodes = s.open_nodes ∧
      (∀ q ∈ s.open_nodes, s'.nodes q = s.nodes q ∧ node_key s' q = node_key s q) ∧
      (∀ q ∈ s.instance_list, s'.insts q = s.insts q) ∧
      ext2fs_instance_get s' devmap_handle = .ok (.ok ip) ∧
      ext2fs_unmounted s' devmap_handle =
        .ok (.ok [], { s' with instance_list := s.instance_list }) := by
  have hip : s.insts ip = none := hf.1 ip hinst
  have hp : s.nodes p = none := hf.2 p henode
  have habs : ∀ q ∈ s.open_nodes,
      node_key s q ≠ some (devmap_handle, EXT2_INODE_ROOT_INDEX) := by
    intro q hq hk
    exact hnm.2 q hq _ hk rfl
  obtain ⟨s', hm, hw', hl', ho', hi', hn', _⟩ :=
    ext2fs_mounted_ok h hopts hfs hinst hinit hsanity hflags henode hnode hinode hip hp habs
  have hnot : ip ∉ s.instance_list := by
    intro hmem
    obtain ⟨j, hj⟩ := h.list_live ip hmem
    rw [hip] at hj; cases hj
  have hpo : p ∉ s.open_nodes := by
    intro hmem
    obtain ⟨m, hm⟩ := h.cached_live p hmem
    rw [hp] at hm; cases hm
  have hiip : s'.insts ip = some
      { devmap_handle := devmap_handle, filesystem := fsp, open_nodes_count := 0 } := by
    rw [hi', Function.update_same]
  have hother : ∀ q, q ≠ ip → s'.insts q = s.insts q := by
    intro q hq; rw [hi', Function.update_noteq hq]
  have hlist : ∀ q ∈ s.instance_list, s'.insts q = s.insts q := by
    intro q hq
    exact hother q (fun e => hnot (e ▸ hq))
  have hnodes : ∀ q ∈ s.open_nodes, s'.nodes q = s.nodes q ∧ node_key s' q = node_key s q := by
    intro q hq
    have hqp : q ≠ p := fun e => hpo (e ▸ hq)
    refine ⟨hn' q hqp, ?_⟩
    obtain ⟨m, hm⟩ := h.cached_live q hq
    obtain ⟨j, hj⟩ := h.node_inst q m hm
    have hne : m.inst ≠ ip := by rintro e; rw [e, hip] at hj; cases hj
    simp only [node_key, hn' q hqp, hm, hother _ hne]
  have hcached : cached_nodes_of s' ip = [] := by
    unfold cached_nodes_of
    rw [ho', List.filter_eq_nil_iff]
    intro q hq
    obtain ⟨m, hm⟩ := h.cached_live q hq
    obtain ⟨j, hj⟩ := h.node_inst q m hm
    have hne : m.inst ≠ ip := by rintro e; rw [e, hip] at hj; cases hj
    simp [owned_by, (hnodes q hq).1, hm, hne]
  have hfind := @find_handle_append s s' devmap_handle ip hl'
    (by
      intro q hq
      have : inst_handle s' q = inst_handle s q := by
        simp only [inst_handle, hlist q hq]
      rw [this]
      exact hnm.1 q hq)
    (by simp [inst_handle, hiip])
  have hget := ext2fs_instance_get_some hw' hfind
  have hun := ext2fs_unmounted_idle hget hiip rfl
  have herase : s'.instance_list.erase ip = s.instance_list := by
    rw [hl', List.erase_append_right _ hnot]
    simp
  rw [herase] at hun
  exact ⟨s', hm, hl', hnot, hiip, hcached, ho', hnodes, hlist, hget, hun⟩

theorem second_mount_env_fresh (k : Nat) (hk : k ≤ 9) : second_mount_env.fresh (many_nodes k) := by
  constructor
  · intro p hp; cases hp; rfl
  · intro p hp; cases hp
    simp only [many_nodes]
    rw [if_neg (by omega)]

theorem many_nodes_not_mounted (k : Nat) : not_mounted (many_nodes k) 8 := by
  constructor
  · intro ip hip
    simp only [many_nodes, List.mem_singleton] at hip
    subst hip
    simp [inst_handle, many_nodes]
  · intro q hq key hkey
    rw [many_nodes_open_nodes, List.mem_range] at hq
    rw [node_key_many_nodes hq] at hkey
    cases hkey
    show (7 : Nat) ≠ 8
    decide

/-- The calls `ext2fs_node_get_core` and `ext2fs_node_put` write the
`open_nodes_count` of an instance and nothing else of it. -/
theorem ext2fs_node_get_core_handle {s s' : State} {inst index : Nat} {env : GetEnv}
    {rc : Except Errno Nat} (hr : ext2fs_node_get_core s inst index env = .ok (rc, s')) :
    s'.instance_list = s.instance_list ∧ ∀ ip, inst_handle s' ip = inst_handle s ip := by
  unfold ext2fs_node_get_core at hr
  split at hr
  · cases hr
  · rename_i i hi
    split at hr
    · cases hr
    · split at hr
      · cases hr
      · simp only [Except.ok.injEq, Prod.mk.injEq] at hr
        obtain ⟨_, rfl⟩ := hr
        exact ⟨rfl, fun ip => rfl⟩
    · split at hr
      · simp only [Except.ok.injEq, Prod.mk.injEq] at hr
        obtain ⟨_, rfl⟩ := hr
        exact ⟨rfl, fun ip => rfl⟩
      · split at hr
        · split at hr
          · simp only [Except.ok.injEq, Prod.mk.injEq] at hr
            obtain ⟨_, rfl⟩ := hr
            exact ⟨rfl, fun ip => rfl⟩
          · simp only [Except.ok.injEq, Prod.mk.injEq] at hr
            obtain ⟨_, rfl⟩ := hr
            refine ⟨rfl, fun ip => ?_⟩
            by_cases e : ip = inst
            · subst e
              simp [inst_handle, hi]
            · simp [inst_handle, Function.update_noteq e]
        · simp only [Except.ok.injEq, Prod.mk.injEq] at hr
          obtain ⟨_, rfl⟩ := hr
          exact ⟨rfl, fun ip => rfl⟩

theorem ext2fs_node_put_core_handle {s s' : State} {p : Nat} {put_rc rc : Except Errno Unit}
    (hr : ext2fs_node_put_core s p put_rc = .ok (rc, s')) :
    s'.instance_list = s.instance_list ∧ ∀ ip, inst_handle s' ip = inst_handle s ip := by
  unfold ext2fs_node_put_core at hr
  split at hr
  · cases hr
  · rename_i enode hn
    split at hr
    · cases hr
    · rename_i i hi
      have hrem : ∀ s1, hash_table_remove s (i.devmap_handle, enode.inode_ref.index) = .ok s1 →
          s1.instance_list = s.instance_list ∧ s1.insts = s.insts := by
        intro s1 h1
        unfold hash_table_remove at h1
        split at h1
        · cases h1
        · cases h1; exact ⟨rfl, rfl⟩
        · cases h1; exact ⟨rfl, rfl⟩
      split at hr
      · cases hr
      · rename_i s1 h1
        obtain ⟨hl1, hi1⟩ := hrem s1 h1
        have key : ∀ ip, inst_handle (s1.set_inst enode.inst (some
            { i with open_nodes_count := (i.open_nodes_count + UINT_MAX) % UINT_WRAP })) ip
            = inst_handle s ip := by
          intro ip
          by_cases e : ip = enode.inst
          · subst e
            simp [inst_handle, hi]
          · simp [inst_handle, Function.update_noteq e, hi1]
        split at hr
        · split at hr
          · simp only [Except.ok.injEq, Prod.mk.injEq] at hr
            obtain ⟨_, rfl⟩ := hr
            exact ⟨hl1, key⟩
          · simp only [Except.ok.injEq, Prod.mk.injEq] at hr
            obtain ⟨_, rfl⟩ := hr
            exact ⟨hl1, key⟩
        · cases hr

theorem ext2fs_node_put_handle {s s' : State} {p : Nat} {put_rc rc : Except Errno Unit}
    (hr : ext2fs_node_put s p put_rc = .ok (rc, s')) :
    s'.instance_list = s.instance_list ∧ ∀ ip, inst_handle s' ip = inst_handle s ip := by
  unfold ext2fs_node_put at hr
  split at hr
  · cases hr
  · split at hr
    · simp only at hr
      split at hr
      · split at hr
        · cases hr
        · rename_i h1
          simp only [Except.ok.injEq, Prod.mk.injEq] at hr
          obtain ⟨_, rfl⟩ := hr
          obtain ⟨e1, e2⟩ := ext2fs_node_put_core_handle h1
          exact ⟨e1, fun ip => (e2 ip).trans rfl⟩
        · rename_i h1
          simp only [Except.ok.injEq, Prod.mk.injEq] at hr
          obtain ⟨_, rfl⟩ := hr
          obtain ⟨e1, e2⟩ := ext2fs_node_put_core_handle h1
          exact ⟨e1, fun ip => (e2 ip).trans rfl⟩
      · simp only [Except.ok.injEq, Prod.mk.injEq] at hr
        obtain ⟨_, rfl⟩ := hr
        exact ⟨rfl, fun ip => rfl⟩
    · cases hr

/-- A mount that answers with success has appended one new instance with the
handle of the request to `instance_list`, whatever the list held, and has left
the handle of every other instance as it was. -/
theorem ext2fs_mounted_handle {s s' : State} {devmap_handle : Nat} {env : MountEnv}
    {args : List Nat} (hf : env.fresh s)
    (hr : ext2fs_mounted s devmap_handle env = .ok (.ok args, s')) :
    ∃ ip, env.inst = some ip ∧ s.insts ip = none ∧
      s'.instance_list = s.instance_list ++ [ip] ∧
      inst_handle s' ip = some devmap_handle ∧
      ∀ q, q ≠ ip → inst_handle s' q = inst_handle s q := by
  rcases ext2fs_mounted_cases hf hr with ⟨_, rc, ha⟩ |
    ⟨ip, fsp, root, s2, n, rc4, hinst, hfs, hip, hget, hn, hput, ha⟩
  · cases ha
  · obtain ⟨hl2, hh2⟩ := ext2fs_node_get_core_handle hget
    obtain ⟨hl4, hh4⟩ := ext2fs_node_put_handle hput
    refine ⟨ip, hinst, hip, ?_, ?_, ?_⟩
    · rw [hl4]
      show s2.instance_list ++ [ip] = _
      rw [hl2]
      rfl
    · rw [hh4]
      show inst_handle s2 ip = _
      rw [hh2]
      simp [inst_handle]
    · intro q hq
      rw [hh4]
      show inst_handle s2 q = _
      rw [hh2]
      simp [inst_handle, Function.update_noteq hq]

theorem registered_twice_reachable : Reachable registered_twice :=
  @Reachable.mounted (many_nodes 0) registered_twice 7 second_mount_env (.ok [2, 0, 1])
    (many_nodes_reachable 0) (second_mount_env_fresh 0 (by decide)) rfl

/-- What `ext2fs_unmounted` does to the registry: nothing, or it takes one instance
out of `instance_list`; the instances themselves are not written. -/
theorem ext2fs_unmounted_sublist {s s' : State} {devmap_handle : Nat} {ans : Answer}
    (hr : ext2fs_unmounted s devmap_handle = .ok (ans, s')) :
    s'.instance_list.Sublist s.instance_list ∧ s'.insts = s.insts := by
  unfold ext2fs_unmounted at hr
  split at hr
  · cases hr
  · cases hr; exact ⟨List.Sublist.refl _, rfl⟩
  · split at hr
    · cases hr
    · split at hr
      · cases hr; exact ⟨List.Sublist.refl _, rfl⟩
      · cases hr; exact ⟨List.erase_sublist _ _, rfl⟩

/-- Without overflow of the 64-bit sum, the byte count is the least of the rest
of the block, the requested size and the rest of the file. -/
theorem ext2fs_read_file_bytes_eq {pos size file_size block_size : Nat}
    (hpos : pos < file_size)
    (hno : pos + min (block_size - pos % block_size) size < UINT64_WRAP) :
    ext2fs_read_file_bytes pos size file_size block_size =
      min (block_size - pos % block_size) (min size (file_size - pos)) := by
  unfold ext2fs_read_file_bytes
  simp only
  have e : (if block_size - pos % block_size < size then block_size - pos % block_size
      else size) = min (block_size - pos % block_size) size := by
    split <;> omega
  rw [e, Nat.mod_eq_of_lt hno]
  split <;> omega

/-- A read below the end of the file from an allocated block, when the lookup,
`block_get` and `block_put` succeed: the bytes of the block from
`pos % block_size` on, `ext2fs_read_file_bytes` of them. -/
theorem ext2fs_read_file_block {pos size : Nat} {inst : ext2fs_instance}
    {inode_ref : ext2_inode_ref} {env : ReadEnv} {fs_block : Nat} {block_data : List Nat}
    (hpos : pos < inode_ref.inode.size) (hbs : 0 < env.block_size)
    (hidx : env.block_index (pos / env.block_size) = .ok fs_block) (hfs : fs_block ≠ 0)
    (hget : env.block inst.devmap_handle fs_block = .ok block_data)
    (hput : env.block_put = .ok ())
    (hle : pos % env.block_size +
      ext2fs_read_file_bytes pos size inode_ref.inode.size env.block_size ≤ env.block_size) :
    ext2fs_read_file pos size inst inode_ref env =
      .ok { data := .ok ((block_data.drop (pos % env.block_size)).take
              (ext2fs_read_file_bytes pos size inode_ref.inode.size env.block_size)),
            answer :=
              .ok [ext2fs_read_file_bytes pos size inode_ref.inode.size env.block_size] } := by
  unfold ext2fs_read_file
  simp only [ge_iff_le, Nat.not_le.2 hpos, if_false, Nat.pos_iff_ne_zero.1 hbs, hidx, hfs, hget,
    hle, if_true, hput]

/-- A read below the end of the file from a block that is not allocated. -/
theorem ext2fs_read_file_sparse {pos size : Nat} (inst : ext2fs_instance)
    {inode_ref : ext2_inode_ref} {env : ReadEnv}
    (hpos : pos < inode_ref.inode.size) (hbs : 0 < env.block_size)
    (hidx : env.block_index (pos / env.block_size) = .ok 0) :
    ext2fs_read_file pos size inst inode_ref env =
      if env.buffer then
        .ok { data := .ok (List.replicate
                (ext2fs_read_file_bytes pos size inode_ref.inode.size env.block_size) 0),
              answer :=
                .ok [ext2fs_read_file_bytes pos size inode_ref.inode.size env.block_size] }
      else .ok { data := .error .ENOMEM, answer := .error .ENOMEM } := by
  unfold ext2fs_read_file
  simp only [ge_iff_le, Nat.not_le.2 hpos, if_false, Nat.pos_iff_ne_zero.1 hbs, hidx, if_true]

theorem bytes_at_wrap :
    ext2fs_read_file_bytes 18446744073709551614 100 18446744073709551615 1024 = 2 := by
  norm_num [ext2fs_read_file_bytes, UINT64_WRAP]

set_option maxRecDepth 100000 in
theorem block_tail :
    (((List.range 1024).map (fun j => j % 256)).drop 1022).take 2 = [254, 255] := by
  decide

theorem bytes_of_short_file : ext2fs_read_file_bytes 0 100 10 512 = 10 := by
  norm_num [ext2fs_read_file_bytes, UINT64_WRAP]

set_option maxRecDepth 100000 in
theorem block_head :
    (((List.range 512).map (fun j => j % 256)).drop 0).take 10 =
      [0, 1, 2, 3, 4, 5, 6, 7, 8, 9] := by
  decide

/-- The scenario of the specification: a file of 10 bytes on a volume with
blocks of 512 bytes, read of 100 bytes at offset 0: the first 10 bytes of the
block are sent and the answer carries the count 10. -/
theorem read_short_file :
    ext2fs_read_file 0 100 demo_instance (file_of_size 10) (demo_read_env 512) =
      .ok { data := .ok [0, 1, 2, 3, 4, 5, 6, 7, 8, 9], answer := .ok [10] } := by
  have h := @ext2fs_read_file_block 0 100 demo_instance (file_of_size 10) (demo_read_env 512)
    10 ((List.range 512).map (fun j => j % 256))
    (by norm_num [file_of_size]) (by norm_num [demo_read_env])
    (by norm_num [demo_read_env]) (by norm_num) rfl rfl
    (by
      show 0 % 512 + ext2fs_read_file_bytes 0 100 10 512 ≤ 512
      rw [bytes_of_short_file]
      decide)
  simp only [file_of_size, demo_read_env] at h ⊢
  rw [h, bytes_of_short_file]
  have e : 0 % 512 = 0 := by norm_num
  rw [e, block_head]

/-! ## Directories, name lookup and the count of a read -/

/-- The test `ext2fs_is_dots` on a name with its own length: the name is "." or
"..". -/
theorem ext2fs_is_dots_iff (name : List Nat) :
    ext2fs_is_dots name name.length = true ↔ name = [46] ∨ name = [46, 46] := by
  unfold ext2fs_is_dots
  rcases name with _ | ⟨a, _ | ⟨b, _ | ⟨c, r⟩⟩⟩ <;> simp

theorem is_visible_iff (entry : ext2_directory_entry_ll) :
    is_visible entry = true ↔
      entry.inode ≠ 0 ∧ entry.name ≠ [46] ∧ entry.name ≠ [46, 46] := by
  unfold is_visible
  rw [Bool.and_eq_true, bne_iff_ne, Bool.not_eq_true', ← Bool.not_eq_true,
    ext2fs_is_dots_iff, not_or]

/-- The loop of `ext2fs_read_directory` steps over an entry that does not
survive the filter. -/
theorem ext2fs_read_directory_loop_skip (pos : Nat) (buffer : Bool) (cur : Nat)
    {current : ext2_directory_entry_ll} (rest : List (ext2_directory_entry_ll × Except Errno Unit))
    (hv : is_visible current = false) :
    ext2fs_read_directory_loop pos buffer cur ((current, .ok ()) :: rest) =
      ext2fs_read_directory_loop pos buffer cur rest := by
  unfold is_visible at hv
  rw [ext2fs_read_directory_loop]
  by_cases h0 : current.inode = 0
  · simp only [h0, if_true]
  · have hd : ext2fs_is_dots current.name current.name.length = true := by
      simpa [h0] using hv
    simp only [h0, if_false, ext2_directory_entry_ll_get_name_length, hd, if_true]

theorem ext2fs_read_directory_loop_visible (pos : Nat) (buffer : Bool) (cur : Nat)
    {current : ext2_directory_entry_ll} (next_rc : Except Errno Unit)
    (rest : List (ext2_directory_entry_ll × Except Errno Unit))
    (hv : is_visible current = true) :
    ext2fs_read_directory_loop pos buffer cur ((current, next_rc) :: rest) =
      if cur = pos then
        if buffer then .ok (some (current.name ++ [0])) else .error .ENOMEM
      else
        match next_rc with
        | .error rc => .error rc
        | .ok _ => ext2fs_read_directory_loop pos buffer ((cur + 1) % UINT64_WRAP) rest := by
  unfold is_visible at hv
  rw [Bool.and_eq_true, bne_iff_ne, Bool.not_eq_true'] at hv
  rcases next_rc with rc | u <;>
    · conv_lhs => rw [ext2fs_read_directory_loop]
      simp only [hv.1, if_false, ext2_directory_entry_ll_get_name_length, hv.2,
        Bool.false_eq_true]

/-- The loop of `ext2fs_read_directory` over a stream that is walked without an
error, when the entry for the position exists: it is the entry number
`pos - cur` of those that survive the filter. -/
theorem ext2fs_read_directory_loop_found (pos : Nat) (hpos : pos < UINT64_WRAP)
    (buffer : Bool) (entries : List (ext2_directory_entry_ll × Except Errno Unit))
    (hnext : ∀ x ∈ entries, x.2 = .ok ()) (cur : Nat) (hcur : cur ≤ pos)
    (e : ext2_directory_entry_ll)
    (he : ((entries.map Prod.fst).filter is_visible)[pos - cur]? = some e) :
    ext2fs_read_directory_loop pos buffer cur entries =
      if buffer then .ok (some (e.name ++ [0])) else .error .ENOMEM := by
  induction entries generalizing cur with
  | nil => simp at he
  | cons x rest ih =>
    obtain ⟨current, next_rc⟩ := x
    have hx : next_rc = .ok () := hnext (current, next_rc) (List.mem_cons_self _ _)
    subst hx
    have hrest : ∀ y ∈ rest, y.2 = .ok () := fun y hy => hnext y (List.mem_cons_of_mem _ hy)
    by_cases hv : is_visible current = true
    · rw [ext2fs_read_directory_loop_visible pos buffer cur _ rest hv]
      simp only [List.map_cons, List.filter_cons, hv, if_true] at he
      by_cases hc : cur = pos
      · subst hc
        simp only [Nat.sub_self, List.getElem?_cons_zero, Option.some.injEq] at he
        subst he
        simp only [if_true]
      · simp only [hc, if_false]
        have hlt : cur < pos := Nat.lt_of_le_of_ne hcur hc
        have hw : (cur + 1) % UINT64_WRAP = cur + 1 :=
          Nat.mod_eq_of_lt (Nat.lt_of_le_of_lt hlt hpos)
        rw [hw]
        have hidx : pos - cur = (pos - (cur + 1)) + 1 := by omega
        rw [hidx, List.getElem?_cons_succ] at he
        exact ih hrest (cur + 1) hlt he
    · have hv' : is_visible current = false := by simpa using hv
      rw [ext2fs_read_directory_loop_skip pos buffer cur rest hv']
      simp only [List.map_cons, List.filter_cons, hv', Bool.false_eq_true, if_false] at he
      exact ih hrest cur hcur he

/-- The loop of `ext2fs_read_directory` over a stream that is walked without an
error, when fewer entries than the position asks for survive the filter. -/
theorem ext2fs_read_directory_loop_absent (pos : Nat) (hpos : pos < UINT64_WRAP)
    (buffer : Bool) (entries : List (ext2_directory_entry_ll × Except Errno Unit))
    (hnext : ∀ x ∈ entries, x.2 = .ok ()) (cur : Nat) (hcur : cur ≤ pos)
    (he : ((entries.map Prod.fst).filter is_visible).length ≤ pos - cur) :
    ext2fs_read_directory_loop pos buffer cur entries = .ok none := by
  induction entries generalizing cur with
  | nil => rfl
  | cons x rest ih =>
    obtain ⟨current, next_rc⟩ := x
    have hx : next_rc = .ok () := hnext (current, next_rc) (List.mem_cons_self _ _)
    subst hx
    have hrest : ∀ y ∈ rest, y.2 = .ok () := fun y hy => hnext y (List.mem_cons_of_mem _ hy)
    by_cases hv : is_visible current = true
    · rw [ext2fs_read_directory_loop_visible pos buffer cur _ rest hv]
      simp only [List.map_cons, List.filter_cons, hv, if_true, List.length_cons] at he
      have hc : cur ≠ pos := by omega
      simp only [hc, if_false]
      have hlt : cur < pos := Nat.lt_of_le_of_ne hcur hc
      have hw : (cur + 1) % UINT64_WRAP = cur + 1 :=
        Nat.mod_eq_of_lt (Nat.lt_of_le_of_lt hlt hpos)
      rw [hw]
      exact ih hrest (cur + 1) hlt (by omega)
    · have hv' : is_visible current = false := by simpa using hv
      rw [ext2fs_read_directory_loop_skip pos buffer cur rest hv']
      simp only [List.map_cons, List.filter_cons, hv', Bool.false_eq_true, if_false] at he
      exact ih hrest cur hcur he

/-- The loop of `ext2fs_has_children` over a stream that is walked without an
error: whether an entry survives the filter. -/
theorem ext2fs_has_children_loop_eq (entries : List (ext2_directory_entry_ll × Except Errno Unit))
    (hnext : ∀ x ∈ entries, x.2 = .ok ()) :
    ext2fs_has_children_loop entries = .ok ((entries.map Prod.fst).any is_visible) := by
  induction entries with
  | nil => rfl
  | cons x rest ih =>
    obtain ⟨current, next_rc⟩ := x
    have hx : next_rc = .ok () := hnext (current, next_rc) (List.mem_cons_self _ _)
    subst hx
    have hrest : ∀ y ∈ rest, y.2 = .ok () := fun y hy => hnext y (List.mem_cons_of_mem _ hy)
    rw [ext2fs_has_children_loop]
    by_cases hv : is_visible current = true
    · have hv2 := hv
      unfold is_visible at hv2
      rw [Bool.and_eq_true, bne_iff_ne, Bool.not_eq_true'] at hv2
      simp [ext2_directory_entry_ll_get_name_length, hv2.1, hv2.2, hv]
    · have hv' : is_visible current = false := by simpa using hv
      have hc : ¬ (current.inode ≠ 0 ∧
          ¬ ext2fs_is_dots current.name (ext2_directory_entry_ll_get_name_length current) = true) := by
        intro hcon
        apply hv
        unfold is_visible
        rw [Bool.and_eq_true, bne_iff_ne, Bool.not_eq_true']
        exact ⟨hcon.1, by simpa [ext2_directory_entry_ll_get_name_length] using hcon.2⟩
      rw [if_neg hc]
      simp only [ih hrest, List.map_cons, List.any_cons, hv', Bool.false_or]

theorem demo_dir_no_io_error : demo_dir.no_io_error := by
  intro x hx
  simp only [demo_dir, List.mem_cons, List.mem_singleton, List.not_mem_nil, or_false] at hx
  rcases hx with rfl | rfl | rfl | rfl | rfl <;> rfl

theorem empty_dir_no_io_error : empty_dir.no_io_error := by
  intro x hx
  simp only [empty_dir, List.mem_cons, List.mem_singleton, List.not_mem_nil, or_false] at hx
  rcases hx with rfl | rfl | rfl <;> rfl

theorem dir_open_reachable : Reachable dir_open :=
  @Reachable.node_get_core (many_nodes 1) dir_open 0 5 (dir_env 1) (.ok 1)
    (many_nodes_reachable 1) (by intro p hp; cases hp; rfl) rfl

theorem dir_open_node : dir_open.nodes 1 = some
    { inst := 0, inode_ref := { index := 5, inode := dir_inode }, references := 1 } := rfl

theorem dir_open_inst : dir_open.insts 0 = some
    { devmap_handle := 7, filesystem := 100, open_nodes_count := 2 } := rfl

/-- Whether an entry survives the filter, in a stream. -/
theorem any_is_visible_iff (entries : List (ext2_directory_entry_ll × Except Errno Unit)) :
    (entries.map Prod.fst).any is_visible = true ↔
      ∃ x ∈ entries, x.1.inode ≠ 0 ∧ x.1.name ≠ [46] ∧ x.1.name ≠ [46, 46] := by
  rw [List.any_eq_true]
  constructor
  · rintro ⟨e, he, hv⟩
    obtain ⟨x, hx, rfl⟩ := List.mem_map.1 he
    exact ⟨x, hx, (is_visible_iff _).1 hv⟩
  · rintro ⟨x, hx, hv⟩
    exact ⟨x.1, List.mem_map.2 ⟨x, hx, rfl⟩, (is_visible_iff _).2 hv⟩

/-- The function `ext2fs_has_children` on a directory whose stream is walked without
an error. -/
theorem ext2fs_has_children_eq {s : State} {fn : Nat} {enode : ext2fs_node}
    {i : ext2fs_instance} {dir : DirEnv} (hn : s.nodes fn = some enode)
    (hi : s.insts enode.inst = some i)
    (hdir : ext2_inode_is_type enode.inode_ref.inode EXT2_INODE_MODE_DIRECTORY = true)
    (hinit : dir.init = .ok ()) (hnext : dir.no_io_error) (hfini : dir.fini = .ok ()) :
    ext2fs_has_children s fn dir = .ok (.ok ((dir.entries.map Prod.fst).any is_visible)) := by
  unfold ext2fs_has_children
  simp only [hn, hi, hdir, not_true_eq_false, if_false, hinit,
    ext2fs_has_children_loop_eq dir.entries hnext, hfini]

/-- The comparison of `ext2fs_match`: lengths and bytes agree exactly when the
name of the entry is the name looked for. -/
theorem name_test_iff (component : List Nat) (entry : ext2_directory_entry_ll) :
    (ext2_directory_entry_ll_get_name_length entry = component.length ∧
        bcmp component entry.name (ext2_directory_entry_ll_get_name_length entry) = 0) ↔
      entry.name = component := by
  unfold ext2_directory_entry_ll_get_name_length bcmp
  constructor
  · rintro ⟨hl, hb⟩
    split at hb
    · rename_i ht
      rw [List.take_length, hl, List.take_length] at ht
      exact ht.symm
    · cases hb
  · intro h
    rw [h]
    simp

theorem is_match_iff (component : List Nat) (entry : ext2_directory_entry_ll) :
    is_match component entry = true ↔ entry.inode ≠ 0 ∧ entry.name = component := by
  unfold is_match
  rw [Bool.and_eq_true, bne_iff_ne, beq_iff_eq]

/-- The loop of `ext2fs_match` over a stream that is walked without an error, when an
entry is accepted: the call of `ext2fs_node_get_core` for the first such entry
decides. -/
theorem ext2fs_match_loop_found (s : State) (inst : Nat) (component : List Nat) (env : GetEnv)
    (entries : List (ext2_directory_entry_ll × Except Errno Unit))
    (hnext : ∀ x ∈ entries, x.2 = .ok ()) (e : ext2_directory_entry_ll)
    (he : (entries.map Prod.fst).find? (is_match component) = some e) :
    ext2fs_match_loop s inst component env entries =
      ext2fs_match_loop s inst component env [(e, .ok ())] := by
  induction entries with
  | nil => simp at he
  | cons x rest ih =>
    obtain ⟨current, next_rc⟩ := x
    have hx : next_rc = .ok () := hnext (current, next_rc) (List.mem_cons_self _ _)
    subst hx
    have hrest : ∀ y ∈ rest, y.2 = .ok () := fun y hy => hnext y (List.mem_cons_of_mem _ hy)
    rw [List.map_cons, List.find?_cons] at he
    by_cases hm : is_match component current = true
    · simp only [hm, Option.some.injEq] at he
      subst he
      have hc := (is_match_iff component current).1 hm
      simp only [ext2fs_match_loop, if_pos (And.intro hc.1
        ((name_test_iff component current).2 hc.2))]
    · have hm' : is_match component current = false := by simpa using hm
      simp only [hm'] at he
      have hc : ¬ (current.inode ≠ 0 ∧
          (ext2_directory_entry_ll_get_name_length current = component.length ∧
            bcmp component current.name (ext2_directory_entry_ll_get_name_length current) = 0)) := by
        rintro ⟨h0, h1⟩
        exact hm ((is_match_iff component current).2 ⟨h0, (name_test_iff component current).1 h1⟩)
      rw [ext2fs_match_loop, if_neg hc]
      exact ih hrest he

/-- The loop of `ext2fs_match` over a stream that is walked without an error, when no
entry is accepted. -/
theorem ext2fs_match_loop_absent (s : State) (inst : Nat) (component : List Nat) (env : GetEnv)
    (entries : List (ext2_directory_entry_ll × Except Errno Unit))
    (hnext : ∀ x ∈ entries, x.2 = .ok ())
    (he : (entries.map Prod.fst).find? (is_match component) = none) :
    ext2fs_match_loop s inst component env entries = .ok (.ok none, s) := by
  induction entries with
  | nil => rfl
  | cons x rest ih =>
    obtain ⟨current, next_rc⟩ := x
    have hx : next_rc = .ok () := hnext (current, next_rc) (List.mem_cons_self _ _)
    subst hx
    have hrest : ∀ y ∈ rest, y.2 = .ok () := fun y hy => hnext y (List.mem_cons_of_mem _ hy)
    rw [List.map_cons, List.find?_cons] at he
    by_cases hm : is_match component current = true
    · simp only [hm] at he
      cases he
    · have hm' : is_match component current = false := by simpa using hm
      simp only [hm'] at he
      have hc : ¬ (current.inode ≠ 0 ∧
          (ext2_directory_entry_ll_get_name_length current = component.length ∧
            bcmp component current.name (ext2_directory_entry_ll_get_name_length current) = 0)) := by
        rintro ⟨h0, h1⟩
        exact hm ((is_match_iff component current).2 ⟨h0, (name_test_iff component current).1 h1⟩)
      rw [ext2fs_match_loop, if_neg hc]
      exact ih hrest he

/-- The function `ext2fs_match` in a directory whose stream is walked without an
error, for a name that an entry with a non-zero object index has: what
`ext2fs_node_get_core` returns for the object of the first such entry, on the instance
of the directory. -/
theorem ext2fs_match_found {s : State} {pfn : Nat} {eparent : ext2fs_node}
    {i : ext2fs_instance} {dir : DirEnv} (component : List Nat) (env : GetEnv)
    (hn : s.nodes pfn = some eparent) (hi : s.insts eparent.inst = some i)
    (hdir : ext2_inode_is_type eparent.inode_ref.inode EXT2_INODE_MODE_DIRECTORY = true)
    (hinit : dir.init = .ok ()) (hnext : dir.no_io_error) {e : ext2_directory_entry_ll}
    (he : (dir.entries.map Prod.fst).find? (is_match component) = some e) :
    ext2fs_match s pfn component dir env =
      ext2fs_node_get_core s eparent.inst e.inode env := by
  have hc := (is_match_iff component e).1 (List.find?_some he)
  unfold ext2fs_match
  simp only [hn, hi, hdir, not_true_eq_false, if_false, hinit,
    ext2fs_match_loop_found s eparent.inst component env dir.entries hnext e he,
    ext2fs_match_loop, if_pos (And.intro hc.1 ((name_test_iff component e).2 hc.2))]
  rcases ext2fs_node_get_core s eparent.inst e.inode env with f | ⟨rc | rfn, s1⟩ <;> rfl

/-- The function `ext2fs_match` in a directory whose stream is walked without an
error, for a name that no entry with a non-zero object index has. -/
theorem ext2fs_match_absent {s : State} {pfn : Nat} {eparent : ext2fs_node}
    {i : ext2fs_instance} {dir : DirEnv} (component : List Nat) (env : GetEnv)
    (hn : s.nodes pfn = some eparent) (hi : s.insts eparent.inst = some i)
    (hdir : ext2_inode_is_type eparent.inode_ref.inode EXT2_INODE_MODE_DIRECTORY = true)
    (hinit : dir.init = .ok ()) (hnext : dir.no_io_error)
    (he : (dir.entries.map Prod.fst).find? (is_match component) = none) :
    ext2fs_match s pfn component dir env = .ok (.error .ENOENT, s) := by
  unfold ext2fs_match
  simp only [hn, hi, hdir, not_true_eq_false, if_false, hinit,
    ext2fs_match_loop_absent s eparent.inst component env dir.entries hnext he]

/-- The function `ext2fs_match` on a node that is not a directory. -/
theorem ext2fs_match_not_directory {s : State} {pfn : Nat} {eparent : ext2fs_node}
    {i : ext2fs_instance} (dir : DirEnv) (component : List Nat) (env : GetEnv)
    (hn : s.nodes pfn = some eparent) (hi : s.insts eparent.inst = some i)
    (hdir : ext2_inode_is_type eparent.inode_ref.inode EXT2_INODE_MODE_DIRECTORY = false) :
    ext2fs_match s pfn component dir env = .ok (.error .ENOTDIR, s) := by
  unfold ext2fs_match
  simp only [hn, hi, hdir, Bool.false_eq_true, not_false_eq_true, if_true]

/-- Taking `k` more references of a cached node leads to a state the server
can be in. -/
theorem reachable_references {s : State} (h : Reachable s) {p : Nat} {n : ext2fs_node}
    (hn : s.nodes p = some n) (hp : p ∈ s.open_nodes) (k : Nat) :
    Reachable (s.set_node p (some { n with references := (n.references + k) % UINT_WRAP })) := by
  have hw := reachable_wf h
  obtain ⟨i, hi⟩ := hw.node_inst p n hn
  induction k with
  | zero =>
    have e : s.set_node p (some { n with references := (n.references + 0) % UINT_WRAP }) = s := by
      apply State.ext_fields
      · rfl
      · rw [set_node_nodes, Nat.add_zero, Nat.mod_eq_of_lt (hw.references_lt p n hn)]
        funext q
        by_cases hq : q = p
        · subst hq; rw [Function.update_same, hn]
        · rw [Function.update_noteq hq]
      · rfl
      · rfl
    rw [e]; exact h
  | succ k ih =>
    have hwk := reachable_wf ih
    have hnk : (s.set_node p (some { n with references := (n.references + k) % UINT_WRAP })).nodes p
        = some { n with references := (n.references + k) % UINT_WRAP } := by
      rw [set_node_nodes, Function.update_same]
    have hkey : node_key (s.set_node p (some
        { n with references := (n.references + k) % UINT_WRAP })) p
        = some (i.devmap_handle, n.inode_ref.index) := by
      simp only [node_key, hnk, set_node_insts, hi]
    have hget := @ext2fs_node_get_core_hit _ hwk n.inst n.inode_ref.index p i _ idle_env
      hi hp hkey hnk
    rw [set_node_set_node] at hget
    have e : ((n.references + k) % UINT_WRAP + 1) % UINT_WRAP
        = (n.references + (k + 1)) % UINT_WRAP := by
      rw [uint_succ_mod, Nat.add_assoc]
    simp only [e] at hget
    exact @Reachable.node_get_core _ _ _ _ idle_env _ ih (by intro q hq; cases hq) hget

theorem file_open_reachable : Reachable file_open :=
  @Reachable.node_get_core dir_open file_open 0 13 (demo_env 2) (.ok 2)
    dir_open_reachable (by intro p hp; cases hp; rfl) rfl

theorem file_full_reachable : Reachable file_full := by
  have h := @reachable_references file_open file_open_reachable 2
    { inst := 0, inode_ref := { index := 13, inode := demo_inode }, references := 1 }
    rfl (by decide) 4294967294
  have e : (1 + 4294967294) % UINT_WRAP = 4294967295 := by norm_num [UINT_WRAP]
  simp only [e] at h
  exact h

/-- The byte count of a read below the end of the file stays inside the block,
for a block size that fits its type `uint32_t`. -/
theorem ext2fs_read_file_bytes_le {pos size file_size block_size : Nat}
    (hpos : pos < file_size) (hbs : 0 < block_size) (hbs32 : block_size < UINT_WRAP) :
    pos % block_size + ext2fs_read_file_bytes pos size file_size block_size ≤ block_size := by
  have hoff : pos % block_size < block_size := Nat.mod_lt _ hbs
  unfold ext2fs_read_file_bytes
  simp only [UINT_WRAP, UINT64_WRAP] at *
  generalize pos % block_size = off at *
  split <;> split <;> omega

/-- The byte count of a read of at least one byte below the end of the file is
at least 1. -/
theorem ext2fs_read_file_bytes_pos {pos size file_size block_size : Nat}
    (hpos : pos < file_size) (hbs : 0 < block_size) (hs : 0 < size) :
    1 ≤ ext2fs_read_file_bytes pos size file_size block_size := by
  have hoff : pos % block_size < block_size := Nat.mod_lt _ hbs
  unfold ext2fs_read_file_bytes
  simp only
  generalize pos % block_size = off at *
  split <;> split <;> omega

/-- A read below the end of the file whose collaborator calls succeed answers
with the byte count `ext2fs_read_file_bytes`. -/
theorem ext2fs_read_file_answer {pos size : Nat} (inst : ext2fs_instance)
    {inode_ref : ext2_inode_ref} {env : ReadEnv} (hpos : pos < inode_ref.inode.size)
    (hbs : 0 < env.block_size) (hbs32 : env.block_size < UINT_WRAP) (henv : env.succeeds) :
    ∃ sent, ext2fs_read_file pos size inst inode_ref env =
      .ok { data := .ok sent,
            answer :=
              .ok [ext2fs_read_file_bytes pos size inode_ref.inode.size env.block_size] } := by
  obtain ⟨hidx, hbuf, hblk, hput⟩ := henv
  obtain ⟨fs_block, hfb⟩ := hidx (pos / env.block_size)
  by_cases h0 : fs_block = 0
  · subst h0
    rw [ext2fs_read_file_sparse inst hpos hbs hfb]
    simp only [hbuf, if_true]
    exact ⟨_, rfl⟩
  · obtain ⟨block_data, hdata⟩ := hblk inst.devmap_handle fs_block
    exact ⟨_, ext2fs_read_file_block hpos hbs hfb h0 hdata hput
      (ext2fs_read_file_bytes_le hpos hbs hbs32)⟩

theorem demo_read_env_succeeds (block_size : Nat) : (demo_read_env block_size).succeeds := by
  refine ⟨fun b => ?_, rfl, fun d b => ⟨_, rfl⟩, rfl⟩
  by_cases h : b = 2
  · exact ⟨0, by simp [demo_read_env, h]⟩
  · exact ⟨b + 10, by simp [demo_read_env, h]⟩

/-- The count in the answer of a read at or past the end of the file is 0. -/
theorem answer_length_at_end (pos size : Nat) (inst : ext2fs_instance)
    (inode_ref : ext2_inode_ref) (env : ReadEnv) (h : inode_ref.inode.size ≤ pos) :
    answer_length (ext2fs_read_file pos size inst inode_ref env) = 0 := by
  unfold ext2fs_read_file
  simp only [ge_iff_le, h, if_true]
  rfl

/-- The count in the answer of a read below the end of the file whose
collaborator calls succeed. -/
theorem answer_length_eq {pos size : Nat} (inst : ext2fs_instance)
    {inode_ref : ext2_inode_ref} {env : ReadEnv} (hpos : pos < inode_ref.inode.size)
    (hbs : 0 < env.block_size) (hbs32 : env.block_size < UINT_WRAP) (henv : env.succeeds) :
    answer_length (ext2fs_read_file pos size inst inode_ref env) =
      ext2fs_read_file_bytes pos size inode_ref.inode.size env.block_size := by
  obtain ⟨sent, h⟩ := @ext2fs_read_file_answer pos size inst inode_ref env hpos hbs hbs32 henv
  rw [h]
  rfl

/-- A caller at the end of the file stays there. -/
theorem repeated_reads_at_end (size : Nat) (inst : ext2fs_instance)
    (inode_ref : ext2_inode_ref) (env : ReadEnv) (k : Nat) :
    repeated_reads size inst inode_ref env k inode_ref.inode.size = inode_ref.inode.size := by
  induction k with
  | zero => rfl
  | succ k ih =>
    rw [repeated_reads, answer_length_at_end _ _ _ _ _ (Nat.le_refl _), Nat.add_zero, ih]

/-- Without overflow of the 64-bit sum, a caller that repeats the read reaches
the end of the file in at most as many calls as bytes are left. -/
theorem repeated_reads_bytes {size : Nat} (inst : ext2fs_instance)
    {inode_ref : ext2_inode_ref} {env : ReadEnv} (hs : 0 < size) (hbs : 0 < env.block_size)
    (hbs32 : env.block_size < UINT_WRAP) (henv : env.succeeds)
    (hno : inode_ref.inode.size + env.block_size ≤ UINT64_WRAP) (k pos : Nat)
    (hpos : pos ≤ inode_ref.inode.size) (hk : inode_ref.inode.size - pos ≤ k) :
    repeated_reads size inst inode_ref env k pos = inode_ref.inode.size := by
  induction k generalizing pos with
  | zero =>
    have : pos = inode_ref.inode.size := by omega
    rw [this]; rfl
  | succ k ih =>
    rcases Nat.eq_or_lt_of_le hpos with e | hlt
    · rw [e]; exact repeated_reads_at_end size inst inode_ref env (k + 1)
    · rw [repeated_reads, answer_length_eq inst hlt hbs hbs32 henv]
      have h1 := @ext2fs_read_file_bytes_pos pos size inode_ref.inode.size env.block_size
        hlt hbs hs
      have hmin : min (env.block_size - pos % env.block_size) size ≤ env.block_size :=
        Nat.le_trans (Nat.min_le_left _ _) (Nat.sub_le _ _)
      have h2 := @ext2fs_read_file_bytes_eq pos size inode_ref.inode.size env.block_size hlt
        (by omega)
      apply ih
      · rw [h2]; omega
      · omega

/-- Without overflow of the 64-bit sum, a caller that asks for at least a block
each time reaches the end of the file in one call per block that the rest of
the file spans. -/
theorem repeated_reads_blocks {size : Nat} (inst : ext2fs_instance)
    {inode_ref : ext2_inode_ref} {env : ReadEnv} (hbs : 0 < env.block_size)
    (hbs32 : env.block_size < UINT_WRAP) (henv : env.succeeds)
    (hno : inode_ref.inode.size + env.block_size ≤ UINT64_WRAP)
    (hsize : env.block_size ≤ size) (k pos : Nat) (hpos : pos < inode_ref.inode.size)
    (hk : (inode_ref.inode.size - 1) / env.block_size - pos / env.block_size + 1 ≤ k) :
    repeated_reads size inst inode_ref env k pos = inode_ref.inode.size := by
  induction k generalizing pos with
  | zero => omega
  | succ k ih =>
    rw [repeated_reads, answer_length_eq inst hpos hbs hbs32 henv]
    have hoff : pos % env.block_size < env.block_size := Nat.mod_lt _ hbs
    have hmin : min (env.block_size - pos % env.block_size) size ≤ env.block_size :=
      Nat.le_trans (Nat.min_le_left _ _) (Nat.sub_le _ _)
    rw [@ext2fs_read_file_bytes_eq pos size inode_ref.inode.size env.block_size hpos
      (by omega)]
    by_cases hend : inode_ref.inode.size - pos ≤ env.block_size - pos % env.block_size
    · have e : pos + min (env.block_size - pos % env.block_size)
          (min size (inode_ref.inode.size - pos)) = inode_ref.inode.size := by omega
      rw [e]
      exact repeated_reads_at_end size inst inode_ref env k
    · have e : pos + min (env.block_size - pos % env.block_size)
          (min size (inode_ref.inode.size - pos)) =
          env.block_size * (pos / env.block_size + 1) := by
        have hd := Nat.div_add_mod pos env.block_size
        rw [Nat.mul_add, Nat.mul_one]
        omega
      rw [e]
      have hlt : env.block_size * (pos / env.block_size + 1) < inode_ref.inode.size := by
        have hd := Nat.div_add_mod pos env.block_size
        rw [Nat.mul_add, Nat.mul_one]
        omega
      apply ih _ hlt
      rw [Nat.mul_div_cancel_left _ hbs]
      have hq : pos / env.block_size + 1 ≤ (inode_ref.inode.size - 1) / env.block_size := by
        have := Nat.div_le_div_right (c := env.block_size)
          (Nat.le_sub_one_of_lt hlt)
        rw [Nat.mul_div_cancel_left _ hbs] at this
        exact this
      omega

/-! ## The claims on the registry, the read path, directories and name lookup -/

/-- C11, as the code has it: in a reachable state whose cache holds fewer than
`2 ^ 32` nodes (as the memory of the server does in every run), for the
instance `ip` that the lookup of a device handle resolves (the first in
`instance_list` with the handle), unmount is answered with `EBUSY` exactly when
a node of that instance is in the cache; an `EBUSY` answer leaves the whole
state unchanged, so the instance stays in `instance_list`; and when no node of
the instance is cached unmount succeeds and takes the instance out of
`instance_list`. -/
theorem C11_unmount_busy {s : State} (h : Reachable s) {devmap_handle ip : Nat}
    {i : ext2fs_instance} (hget : ext2fs_instance_get s devmap_handle = .ok (.ok ip))
    (hi : s.insts ip = some i) (hfew : s.open_nodes.length < UINT_WRAP) :
    (ext2fs_unmounted s devmap_handle = .ok (.error .EBUSY, s) ↔
        ∃ p ∈ s.open_nodes, owned_by s ip p = true) ∧
      (∀ s', ext2fs_unmounted s devmap_handle = .ok (.error .EBUSY, s') → s' = s) ∧
      ((∀ p ∈ s.open_nodes, owned_by s ip p = false) →
        ext2fs_unmounted s devmap_handle =
          .ok (.ok [], { s with instance_list := s.instance_list.erase ip }) ∧
        ip ∈ s.instance_list ∧ ip ∉ s.instance_list.erase ip) := by
  have hw := reachable_wf h
  have hcount := count_of_few_nodes hw hi hfew
  have hmem : ip ∈ s.instance_list :=
    List.mem_of_find?_eq_some ((ext2fs_instance_get_ok_iff hw devmap_handle ip).1 hget)
  have hiff : ext2fs_unmounted s devmap_handle = .ok (.error .EBUSY, s) ↔
      i.open_nodes_count ≠ 0 := by
    constructor
    · intro hr hc
      rw [ext2fs_unmounted_idle hget hi hc] at hr
      simp at hr
    · exact ext2fs_unmounted_busy hget hi
  have hne : i.open_nodes_count ≠ 0 ↔ ∃ p ∈ s.open_nodes, owned_by s ip p = true := by
    rw [hcount, Nat.ne_zero_iff_zero_lt, List.length_pos_iff_exists_mem]
    unfold cached_nodes_of
    simp only [List.mem_filter, exists_prop]
  refine ⟨hiff.trans hne, ?_, ?_⟩
  · intro s' hr
    by_cases hc : i.open_nodes_count = 0
    · rw [ext2fs_unmounted_idle hget hi hc] at hr
      simp at hr
    · rw [ext2fs_unmounted_busy hget hi hc] at hr
      simp only [Except.ok.injEq, Prod.mk.injEq, true_and] at hr
      exact hr.symm
  · intro hnone
    have hc : i.open_nodes_count = 0 := by
      by_contra hc
      obtain ⟨p, hp, ho⟩ := hne.1 hc
      rw [hnone p hp] at ho
      cases ho
    refine ⟨ext2fs_unmounted_idle hget hi hc, hmem, ?_⟩
    rw [hw.list_nodup.mem_erase_iff]
    exact fun e => e.1 rfl

theorem C11_unmount_busy_witness :
    ext2fs_unmounted (many_nodes 3) 7 = .ok (.error .EBUSY, many_nodes 3) :=
  (@C11_unmount_busy (many_nodes 3) (many_nodes_reachable 3) 7 0
    { devmap_handle := 7, filesystem := 100, open_nodes_count := 3 % UINT_WRAP }
    rfl rfl (by decide)).1.2 ⟨0, by decide, rfl⟩

/-- C11 fails for a volume that the lookup does not resolve: after a second mount
of device 7 the second instance is registered and has no node in the cache,
yet the unmount of device 7 is answered with `EBUSY`, because the lookup
resolves the first instance, which has one. -/
theorem C11_counterexample :
    Reachable mounted_twice ∧ mounted_twice.instance_list = [0, 1] ∧
      inst_handle mounted_twice 1 = some 7 ∧ cached_nodes_of mounted_twice 1 = [] ∧
      ext2fs_unmounted mounted_twice 7 = .ok (.error .EBUSY, mounted_twice) :=
  ⟨mounted_twice_reachable, rfl, rfl, by decide, rfl⟩

/-- C12, as the code has it: unmount of a device handle for which no volume is
registered (also when the registry is empty) is answered with `EINVAL`, the
code `ext2fs_instance_get` returns for an unknown handle, and the whole state,
so the registry and the cache, is unchanged. -/
theorem C12_unmount_unknown_handle {s : State} (h : Reachable s) {devmap_handle : Nat}
    (habs : ∀ ip ∈ s.instance_list, inst_handle s ip ≠ some devmap_handle) :
    ext2fs_unmounted s devmap_handle = .ok (.error .EINVAL, s) :=
  ext2fs_unmounted_absent (reachable_wf h) habs

theorem C12_unmount_unknown_handle_witness :
    ext2fs_unmounted (many_nodes 1) 8 = .ok (.error .EINVAL, many_nodes 1) :=
  C12_unmount_unknown_handle (many_nodes_reachable 1) (by decide)

/-- C12 fails on the error code: with an empty registry, and with a registry that
holds device 7 only, the unmount of device 8 is answered with `EINVAL`, which is
not the `ENOENT` the server uses for an absent name. -/
theorem C12_counterexample :
    ext2fs_unmounted State.init 8 = .ok (.error .EINVAL, State.init) ∧
      Reachable (many_nodes 1) ∧ (many_nodes 1).instance_list = [0] ∧
      inst_handle (many_nodes 1) 0 = some 7 ∧
      (∃ s', ext2fs_unmounted (many_nodes 1) 8 = .ok (.error .EINVAL, s')) ∧
      Errno.EINVAL ≠ Errno.ENOENT :=
  ⟨rfl, many_nodes_reachable 1, rfl, rfl, ⟨_, rfl⟩, by decide⟩

/-- C13: on a reachable state that holds nothing of the device (no registered
volume with the handle and no cached node of it), when the options are received,
both allocations of the mount and those of the root node succeed, and
`ext2_filesystem_init`, `ext2_filesystem_check_sanity`,
`ext2_filesystem_check_flags` and the decoding of the root record succeed, the
mount answers with success and the unmount of the same handle right after it
answers with success too; afterwards `instance_list` is what it was before the
mount, so it holds no volume with the handle, and the cache is what it was: the
same nodes, each unchanged and under the same key. -/
theorem C13_mount_unmount_round_trip {s : State} (h : Reachable s)
    {devmap_handle fsp ip p : Nat} {inode : ext2_inode} {env : MountEnv} {ro : Bool}
    (hf : env.fresh s) (hnm : not_mounted s devmap_handle)
    (hopts : env.opts = .ok ()) (hfs : env.fs = some fsp) (hinst : env.inst = some ip)
    (hinit : env.init = .ok ()) (hsanity : env.check_sanity = .ok ())
    (hflags : env.check_flags = .ok ro) (henode : env.root.enode = some p)
    (hnode : env.root.node = true) (hinode : env.root.inode = .ok inode) :
    ∃ s' s'', ext2fs_mounted s devmap_handle env =
        .ok (.ok [EXT2_INODE_ROOT_INDEX, 0, inode.usage_count], s') ∧
      ext2fs_unmounted s' devmap_handle = .ok (.ok [], s'') ∧
      s''.instance_list = s.instance_list ∧
      (∀ q ∈ s''.instance_list, inst_handle s'' q ≠ some devmap_handle) ∧
      s''.open_nodes = s.open_nodes ∧
      ∀ q ∈ s.open_nodes, s''.nodes q = s.nodes q ∧ node_key s'' q = node_key s q := by
  obtain ⟨s', hm, _, _, _, _, ho, hnodes, hlist, _, hun⟩ :=
    ext2fs_mounted_unmounted (reachable_wf h) hf hnm hopts hfs hinst hinit hsanity hflags
      henode hnode hinode
  refine ⟨s', _, hm, hun, rfl, ?_, ho, ?_⟩
  · intro q hq
    have e : inst_handle { s' with instance_list := s.instance_list } q = inst_handle s q := by
      simp only [inst_handle]
      rw [hlist q hq]
    rw [e]
    exact hnm.1 q hq
  · intro q hq
    exact ⟨(hnodes q hq).1, (hnodes q hq).2⟩

theorem C13_mount_unmount_round_trip_witness :
    ∃ s' s'', ext2fs_mounted (many_nodes 2) 8 second_mount_env =
        .ok (.ok [EXT2_INODE_ROOT_INDEX, 0, demo_inode.usage_count], s') ∧
      ext2fs_unmounted s' 8 = .ok (.ok [], s'') ∧
      s''.instance_list = (many_nodes 2).instance_list ∧
      (∀ q ∈ s''.instance_list, inst_handle s'' q ≠ some 8) ∧
      s''.open_nodes = (many_nodes 2).open_nodes ∧
      ∀ q ∈ (many_nodes 2).open_nodes,
        s''.nodes q = (many_nodes 2).nodes q ∧ node_key s'' q = node_key (many_nodes 2) q :=
  C13_mount_unmount_round_trip (many_nodes_reachable 2) (second_mount_env_fresh 2 (by decide))
    (many_nodes_not_mounted 2) rfl rfl rfl rfl rfl rfl rfl rfl rfl

/-- C14: a mount that answers with success, on a reachable state that holds
nothing of the device, has appended to `instance_list` one new instance with the
device handle of the request and `open_nodes_count` 0, which the lookup of the
handle now finds; the answer carries `EXT2_INODE_ROOT_INDEX`, 0 and the link
count (`usage_count`) of the decoded root record; and the root is not pinned:
no node of the new instance is in the cache, which holds the nodes it held. -/
theorem C14_mount_registers_volume {s s' : State} (h : Reachable s) {devmap_handle : Nat}
    {env : MountEnv} {args : List Nat} (hf : env.fresh s) (hnm : not_mounted s devmap_handle)
    (hr : ext2fs_mounted s devmap_handle env = .ok (.ok args, s')) :
    ∃ ip fsp inode, env.inst = some ip ∧ env.fs = some fsp ∧ env.root.inode = .ok inode ∧
      args = [EXT2_INODE_ROOT_INDEX, 0, inode.usage_count] ∧
      s'.instance_list = s.instance_list ++ [ip] ∧ ip ∉ s.instance_list ∧
      s'.insts ip = some
        { devmap_handle := devmap_handle, filesystem := fsp, open_nodes_count := 0 } ∧
      ext2fs_instance_get s' devmap_handle = .ok (.ok ip) ∧
      cached_nodes_of s' ip = [] ∧ s'.open_nodes = s.open_nodes := by
  have hw := reachable_wf h
  have habs : ∀ q ∈ s.open_nodes,
      node_key s q ≠ some (devmap_handle, EXT2_INODE_ROOT_INDEX) := by
    intro q hq hk
    exact hnm.2 q hq _ hk rfl
  obtain ⟨fsp, ip, p, inode, ro, hopts, hfs, hinst, hinit, hsanity, hflags, henode, hnode,
    hinode⟩ := ext2fs_mounted_success_env hw hf habs hr
  obtain ⟨t, hm, hl, hnot, hi, hc, ho, _, _, hget, _⟩ :=
    ext2fs_mounted_unmounted hw hf hnm hopts hfs hinst hinit hsanity hflags henode hnode hinode
  rw [hm] at hr
  simp only [Except.ok.injEq, Prod.mk.injEq] at hr
  obtain ⟨ha, hs⟩ := hr
  subst hs
  exact ⟨ip, fsp, inode, hinst, hfs, hinode, ha.symm, hl, hnot, hi, hget, hc, ho⟩

theorem C14_mount_registers_volume_witness :
    ∃ ip fsp inode, demo_mount_env.inst = some ip ∧ demo_mount_env.fs = some fsp ∧
      demo_mount_env.root.inode = .ok inode ∧
      [2, 0, 1] = [EXT2_INODE_ROOT_INDEX, 0, inode.usage_count] ∧
      (many_nodes 0).instance_list = State.init.instance_list ++ [ip] ∧
      ip ∉ State.init.instance_list ∧
      (many_nodes 0).insts ip = some
        { devmap_handle := 7, filesystem := fsp, open_nodes_count := 0 } ∧
      ext2fs_instance_get (many_nodes 0) 7 = .ok (.ok ip) ∧
      cached_nodes_of (many_nodes 0) ip = [] ∧
      (many_nodes 0).open_nodes = State.init.open_nodes :=
  C14_mount_registers_volume Reachable.init
    (by constructor <;> intro p hp <;> rfl)
    ⟨fun ip hip => (by cases hip), fun q hq => (by cases hq)⟩ mounted_demo

/-- C15: whichever step of `ext2fs_mounted` fails, the request is answered with
the code of that step and the state returned is the state the request found,
with its registry, its cache and both heaps: `rc` of `async_data_write_accept`,
`ENOMEM` for either `malloc`, `rc` of `ext2_filesystem_init`, of
`ext2_filesystem_check_sanity`, of `ext2_filesystem_check_flags`, and `rc` of
`ext2fs_node_get_core` for the root node (run on the state with the new
instance, which is freed again).  In general a mount that answers with an
error has changed nothing. -/
theorem C15_failed_mount_leaves_no_trace {s : State} (devmap_handle : Nat) {env : MountEnv}
    (hf : env.fresh s) :
    (∀ rc, env.opts = .error rc →
      ext2fs_mounted s devmap_handle env = .ok (.error rc, s)) ∧
    (env.opts = .ok () → env.fs = none →
      ext2fs_mounted s devmap_handle env = .ok (.error .ENOMEM, s)) ∧
    (∀ fsp, env.opts = .ok () → env.fs = some fsp → env.inst = none →
      ext2fs_mounted s devmap_handle env = .ok (.error .ENOMEM, s)) ∧
    (∀ fsp ip rc, env.opts = .ok () → env.fs = some fsp → env.inst = some ip →
      env.init = .error rc →
      ext2fs_mounted s devmap_handle env = .ok (.error rc, s)) ∧
    (∀ fsp ip rc, env.opts = .ok () → env.fs = some fsp → env.inst = some ip →
      env.init = .ok () → env.check_sanity = .error rc →
      ext2fs_mounted s devmap_handle env = .ok (.error rc, s)) ∧
    (∀ fsp ip rc, env.opts = .ok () → env.fs = some fsp → env.inst = some ip →
      env.init = .ok () → env.check_sanity = .ok () → env.check_flags = .error rc →
      ext2fs_mounted s devmap_handle env = .ok (.error rc, s)) ∧
    (∀ fsp ip ro rc s1, env.opts = .ok () → env.fs = some fsp → env.inst = some ip →
      env.init = .ok () → env.check_sanity = .ok () → env.check_flags = .ok ro →
      ext2fs_node_get_core (s.set_inst ip (some
        { devmap_handle := devmap_handle, filesystem := fsp, open_nodes_count := 0 }))
        ip EXT2_INODE_ROOT_INDEX env.root = .ok (.error rc, s1) →
      ext2fs_mounted s devmap_handle env = .ok (.error rc, s)) ∧
    (∀ rc s', ext2fs_mounted s devmap_handle env = .ok (.error rc, s') → s' = s) := by
  obtain ⟨opts, fs, inst, init, cs, cf, root, root_put⟩ := env
  refine ⟨?_, ?_, ?_, ?_, ?_, ?_, ?_, ?_⟩
  · intro rc h1
    simp only at h1; subst h1
    rfl
  · intro h1 h2
    simp only at h1 h2; subst h1 h2
    rfl
  · intro fsp h1 h2 h3
    simp only at h1 h2 h3; subst h1 h2 h3
    rfl
  · intro fsp ip rc h1 h2 h3 h4
    simp only at h1 h2 h3 h4; subst h1 h2 h3 h4
    rfl
  · intro fsp ip rc h1 h2 h3 h4 h5
    simp only at h1 h2 h3 h4 h5; subst h1 h2 h3 h4 h5
    rfl
  · intro fsp ip rc h1 h2 h3 h4 h5 h6
    simp only at h1 h2 h3 h4 h5 h6; subst h1 h2 h3 h4 h5 h6
    rfl
  · intro fsp ip ro rc s1 h1 h2 h3 h4 h5 h6 hget
    simp only at h1 h2 h3 h4 h5 h6 hget; subst h1 h2 h3 h4 h5 h6
    have hip : s.insts ip = none := hf.1 ip rfl
    have e := ext2fs_node_get_core_error_state hget
    subst e
    unfold ext2fs_mounted
    simp only [hget]
    rw [set_inst_set_inst_none hip]
  · intro rc s' hr
    rcases ext2fs_mounted_cases hf hr with ⟨e, _⟩ | ⟨_, _, _, _, _, _, _, _, _, _, _, _, ha⟩
    · exact e
    · cases ha

theorem C15_failed_mount_leaves_no_trace_witness :
    ext2fs_mounted (many_nodes 1) 8 failed_root_env = .ok (.error (.other 5), many_nodes 1) :=
  (@C15_failed_mount_leaves_no_trace (many_nodes 1) 8 failed_root_env
    (by constructor <;> intro p hp <;> cases hp <;> rfl)).2.2.2.2.2.2.1
    101 1 false (.other 5) _ rfl rfl rfl rfl rfl rfl rfl

/-- C16, as the code has it: `ext2fs_mounted` never looks the device handle up,
so a duplicate registration is not rejected.  In every reachable state no instance
is in `instance_list` twice; a mount that answers with success appends
one new instance with the handle of the request, whether or not an instance with
that handle is registered already; the device handles in the registry stay
pairwise distinct across a mount of a handle that is not registered and across
an unmount. -/
theorem C16_registration {s : State} (h : Reachable s) :
    s.instance_list.Nodup ∧
    (∀ devmap_handle env args s', MountEnv.fresh env s →
      ext2fs_mounted s devmap_handle env = .ok (.ok args, s') →
      ∃ ip, ip ∉ s.instance_list ∧ s'.instance_list = s.instance_list ++ [ip] ∧
        inst_handle s' ip = some devmap_handle) ∧
    (handles_distinct s → ∀ devmap_handle env ans s', MountEnv.fresh env s →
      (∀ ip ∈ s.instance_list, inst_handle s ip ≠ some devmap_handle) →
      ext2fs_mounted s devmap_handle env = .ok (ans, s') → handles_distinct s') ∧
    (handles_distinct s → ∀ devmap_handle ans s',
      ext2fs_unmounted s devmap_handle = .ok (ans, s') → handles_distinct s') := by
  have hw := reachable_wf h
  have hnot : ∀ ip, s.insts ip = none → ip ∉ s.instance_list := by
    intro ip hip hmem
    obtain ⟨j, hj⟩ := hw.list_live ip hmem
    rw [hip] at hj; cases hj
  refine ⟨hw.list_nodup, ?_, ?_, ?_⟩
  · intro devmap_handle env args s' hf hr
    obtain ⟨ip, _, hip, hl, hh, _⟩ := ext2fs_mounted_handle hf hr
    exact ⟨ip, hnot ip hip, hl, hh⟩
  · intro hd devmap_handle env ans s' hf habs hr
    cases ans with
    | error rc =>
      rcases ext2fs_mounted_cases hf hr with ⟨e, _⟩ | ⟨_, _, _, _, _, _, _, _, _, _, _, _, ha⟩
      · rw [e]; exact hd
      · cases ha
    | ok args =>
      obtain ⟨ip, _, hip, hl, hh, hother⟩ := ext2fs_mounted_handle hf hr
      have hmap : s.instance_list.map (inst_handle s') = s.instance_list.map (inst_handle s) := by
        apply List.map_congr_left
        intro q hq
        exact hother q (fun e => hnot ip hip (e ▸ hq))
      unfold handles_distinct
      rw [hl, List.map_append, hmap, List.nodup_append]
      refine ⟨hd, by simp, ?_⟩
      intro a ha hb
      simp only [List.map_cons, List.map_nil, List.mem_singleton] at hb
      subst hb
      rw [hh, List.mem_map] at ha
      obtain ⟨q, hq, e⟩ := ha
      exact habs q hq e
  · intro hd devmap_handle ans s' hr
    obtain ⟨hsub, hi⟩ := ext2fs_unmounted_sublist hr
    unfold handles_distinct
    have e : inst_handle s' = inst_handle s := by
      funext q; simp only [inst_handle, hi]
    rw [e]
    exact List.Nodup.sublist (hsub.map _) hd

theorem C16_registration_witness :
    ∃ ip, ip ∉ (many_nodes 0).instance_list ∧
      registered_twice.instance_list = (many_nodes 0).instance_list ++ [ip] ∧
      inst_handle registered_twice ip = some 7 :=
  (C16_registration (many_nodes_reachable 0)).2.1 7 second_mount_env [2, 0, 1] registered_twice
    (second_mount_env_fresh 0 (by decide)) rfl

/-- C16 fails as stated: two mount requests for device 7 from start-up, each
with every call succeeding, both answer with success and leave two instances
with device handle 7 in `instance_list`. -/
theorem C16_counterexample :
    ext2fs_mounted State.init 7 demo_mount_env = .ok (.ok [2, 0, 1], many_nodes 0) ∧
      (many_nodes 0).instance_list = [0] ∧ inst_handle (many_nodes 0) 0 = some 7 ∧
      ext2fs_mounted (many_nodes 0) 7 second_mount_env = .ok (.ok [2, 0, 1], registered_twice) ∧
      registered_twice.instance_list = [0, 1] ∧
      inst_handle registered_twice 0 = some 7 ∧ inst_handle registered_twice 1 = some 7 ∧
      Reachable registered_twice ∧ ¬ handles_distinct registered_twice := by
  refine ⟨mounted_demo, rfl, rfl, rfl, rfl, rfl, rfl, registered_twice_reachable, ?_⟩
  show ¬ ([some 7, some 7] : List (Option Nat)).Nodup
  decide

/-- C17, as the code has it: in a reachable state `ext2fs_instance_get` returns
`EOK` for a device handle exactly when some instance in `instance_list` has that
handle; the instance it hands out is the first one in the list with the
handle; when there is none it returns `EINVAL`.  It has no access to the state
but reading, so the registry is what it was. -/
theorem C17_instance_get {s : State} (h : Reachable s) (devmap_handle : Nat) :
    (∀ ip, ext2fs_instance_get s devmap_handle = .ok (.ok ip) ↔
        s.instance_list.find? (fun q => decide (inst_handle s q = some devmap_handle))
          = some ip) ∧
      ((∃ ip ∈ s.instance_list, inst_handle s ip = some devmap_handle) ↔
        ∃ ip, ext2fs_instance_get s devmap_handle = .ok (.ok ip)) ∧
      (∀ ip, ext2fs_instance_get s devmap_handle = .ok (.ok ip) →
        ip ∈ s.instance_list ∧ inst_handle s ip = some devmap_handle) ∧
      ((∀ ip ∈ s.instance_list, inst_handle s ip ≠ some devmap_handle) →
        ext2fs_instance_get s devmap_handle = .ok (.error .EINVAL)) := by
  have hw := reachable_wf h
  have hmem : ∀ ip, ext2fs_instance_get s devmap_handle = .ok (.ok ip) →
      ip ∈ s.instance_list ∧ inst_handle s ip = some devmap_handle := by
    intro ip hr
    rw [ext2fs_instance_get_ok_iff hw] at hr
    exact ⟨List.mem_of_find?_eq_some hr, by simpa using List.find?_some hr⟩
  refine ⟨ext2fs_instance_get_ok_iff hw devmap_handle, ⟨?_, ?_⟩, hmem,
    fun habs => ext2fs_instance_get_none hw (find_handle_none_iff.2 habs)⟩
  · rintro ⟨ip, hp, hh⟩
    cases hf : s.instance_list.find? (fun q => decide (inst_handle s q = some devmap_handle)) with
    | none => exact absurd hh (find_handle_none_iff.1 hf ip hp)
    | some ip' => exact ⟨ip', ext2fs_instance_get_some hw hf⟩
  · rintro ⟨ip, hr⟩
    exact ⟨ip, hmem ip hr⟩

theorem C17_instance_get_witness :
    Reachable (many_nodes 1) ∧ ext2fs_instance_get (many_nodes 1) 7 = .ok (.ok 0) :=
  ⟨many_nodes_reachable 1, ((C17_instance_get (many_nodes_reachable 1) 7).1 0).2 rfl⟩

/-- C17 fails on the error code: the lookup of a handle that no registered instance
has returns `EINVAL`, not `ENOENT`. -/
theorem C17_counterexample :
    ext2fs_instance_get State.init 7 = .ok (.error .EINVAL) ∧
      (many_nodes 1).instance_list = [0] ∧ inst_handle (many_nodes 1) 0 = some 7 ∧
      ext2fs_instance_get (many_nodes 1) 8 = .ok (.error .EINVAL) ∧
      Errno.EINVAL ≠ Errno.ENOENT :=
  ⟨rfl, rfl, rfl, rfl, by decide⟩

/-- C18: a read of a file at an offset at or past its size, with any requested
size, sends back zero bytes of data and answers with success and the count 0,
whatever the outcomes of the block-index lookup, the allocation and the block
device would be (so none of them is consulted), also with a block size of 0. -/
theorem C18_read_at_or_past_end (pos size : Nat) (inst : ext2fs_instance)
    (inode_ref : ext2_inode_ref) (env : ReadEnv) (h : inode_ref.inode.size ≤ pos) :
    ext2fs_read_file pos size inst inode_ref env = .ok { data := .ok [], answer := .ok [0] } := by
  unfold ext2fs_read_file
  simp only [ge_iff_le, h, if_true]

theorem C18_read_at_or_past_end_witness :
    ext2fs_read_file 10 100 demo_instance (file_of_size 10) failing_read_env =
      .ok { data := .ok [], answer := .ok [0] } :=
  C18_read_at_or_past_end 10 100 demo_instance (file_of_size 10) failing_read_env
    (Nat.le_refl 10)

/-- C19, where the code departs from it: in a file of 2^64 - 1 bytes on a
volume with blocks of 1024 bytes, a read of 100 bytes at offset 2^64 - 2, whose
lookup and block read succeed, sends the 2 bytes at 1022 and 1023 of the block
and answers with the count 2, while the least of the rest of the block (2),
the requested size (100) and the rest of the file (1) is 1: the 64-bit sum
`pos + bytes` of the test for the end of the file has wrapped to 0. -/
theorem C19_read_length_wraps :
    ext2fs_read_file 18446744073709551614 100 demo_instance
        (file_of_size 18446744073709551615) (demo_read_env 1024) =
      .ok { data := .ok [254, 255], answer := .ok [2] } ∧
    min (1024 - 18446744073709551614 % 1024)
      (min 100 (18446744073709551615 - 18446744073709551614)) = 1 ∧
    (18446744073709551614 + 2) % UINT64_WRAP = 0 := by
  refine ⟨?_, by decide, by norm_num [UINT64_WRAP]⟩
  · have h := @ext2fs_read_file_block 18446744073709551614 100 demo_instance
      (file_of_size 18446744073709551615) (demo_read_env 1024) 18014398509481993
      ((List.range 1024).map (fun j => j % 256))
      (by norm_num [file_of_size]) (by norm_num [demo_read_env])
      (by norm_num [demo_read_env]) (by norm_num) rfl rfl
      (by
        show 18446744073709551614 % 1024 +
          ext2fs_read_file_bytes 18446744073709551614 100 18446744073709551615 1024 ≤ 1024
        rw [bytes_at_wrap])
    simp only [file_of_size, demo_read_env] at h ⊢
    rw [h, bytes_at_wrap]
    have e : 18446744073709551614 % 1024 = 1022 := by norm_num
    rw [e, block_tail]

/-- C20, as the code has it: a read below the end of the file of a logical block
whose physical index is 0 sends back zeros and answers with their count, which
is the count of any read, the least of the rest of the block, the requested
size and the rest of the file (the 64-bit sum of the test for the end of the
file not overflowing), when `malloc` gives a buffer; when it does not, both
requests are answered with `ENOMEM`.  The outcome is the same whatever
`block_get` and `block_put` would return: the device is not read. -/
theorem C20_read_sparse_block {pos size : Nat} (inst : ext2fs_instance)
    {inode_ref : ext2_inode_ref} {env : ReadEnv}
    (hpos : pos < inode_ref.inode.size) (hbs : 0 < env.block_size)
    (hidx : env.block_index (pos / env.block_size) = .ok 0)
    (hno : pos + min (env.block_size - pos % env.block_size) size < UINT64_WRAP)
    (block : Nat → Nat → Except Errno (List Nat)) (block_put : Except Errno Unit) :
    (env.buffer = true →
      ext2fs_read_file pos size inst inode_ref
          { env with block := block, block_put := block_put } =
        .ok { data := .ok (List.replicate (min (env.block_size - pos % env.block_size)
                (min size (inode_ref.inode.size - pos))) 0),
              answer := .ok [min (env.block_size - pos % env.block_size)
                (min size (inode_ref.inode.size - pos))] }) ∧
    (env.buffer = false →
      ext2fs_read_file pos size inst inode_ref
          { env with block := block, block_put := block_put } =
        .ok { data := .error .ENOMEM, answer := .error .ENOMEM }) := by
  have h := @ext2fs_read_file_sparse pos size inst inode_ref
    { env with block := block, block_put := block_put } hpos hbs hidx
  simp only [ext2fs_read_file_bytes_eq hpos hno] at h
  constructor
  · intro hb
    rw [h]
    simp only [hb, if_true]
  · intro hb
    rw [h]
    simp only [hb, Bool.false_eq_true, if_false]

theorem C20_read_sparse_block_witness :
    ext2fs_read_file 1024 512 demo_instance (file_of_size 4096)
        { demo_read_env 512 with block := failing_read_env.block, block_put := .ok () } =
      .ok { data := .ok (List.replicate 512 0), answer := .ok [512] } :=
  (@C20_read_sparse_block 1024 512 demo_instance (file_of_size 4096) (demo_read_env 512)
    (by decide) (by decide) rfl (by decide) failing_read_env.block (.ok ())).1 rfl

/-- C20 fails as stated: in a file of 2000 bytes on a volume with blocks of 512
bytes whose logical block 2 is not allocated, a read of 1000 bytes at offset
1024 sends 512 zeros and answers with the count 512, not the 1000 bytes that
were requested; and with no memory for the buffer it sends no zeros at all. -/
theorem C20_counterexample :
    (ext2fs_read_file 1024 1000 demo_instance (file_of_size 2000) (demo_read_env 512) =
        .ok { data := .ok (List.replicate 512 0), answer := .ok [512] } ∧
      (List.replicate 512 0).length ≠ 1000) ∧
    ext2fs_read_file 1024 512 demo_instance (file_of_size 4096)
        { demo_read_env 512 with buffer := false } =
      .ok { data := .error .ENOMEM, answer := .error .ENOMEM } := by
  refine ⟨⟨?_, by rw [List.length_replicate]; decide⟩, rfl⟩
  have h := @ext2fs_read_file_sparse 1024 1000 demo_instance (file_of_size 2000)
    (demo_read_env 512) (by decide) (by decide) rfl
  rw [h]
  have e : ext2fs_read_file_bytes 1024 1000 (file_of_size 2000).inode.size
      (demo_read_env 512).block_size = 512 := by
    norm_num [ext2fs_read_file_bytes, UINT64_WRAP, file_of_size, demo_read_env]
  rw [e]
  rfl

/-- C21, as the code has it: for a directory whose stream is walked without an
error (the iterator is set up, every advance and the release succeed) and a
position `pos` of the `aoff64_t` range: when entry number `pos`, counted from 0
in the order of the disk, among the entries with a non-zero object index whose
name is neither "." nor "..", exists, a directory read at `pos` sends its name
(with its terminator) and answers with success if `malloc` gives the buffer
for the name, and answers both requests with `ENOMEM` if it does not; when
fewer than `pos + 1` such entries exist, both requests are answered with
`ENOENT`, whatever `malloc` would do. -/
theorem C21_read_directory_position (pos size : Nat) (inst : ext2fs_instance)
    (inode_ref : ext2_inode_ref) {dir : DirEnv} (hpos : pos < UINT64_WRAP)
    (hinit : dir.init = .ok ()) (hnext : dir.no_io_error) (hfini : dir.fini = .ok ()) :
    (∀ e, (visible_entries dir)[pos]? = some e →
      ext2fs_read_directory pos size inst inode_ref dir true =
        { data := some (.ok (e.name ++ [0])), answer := .ok [1] } ∧
      ext2fs_read_directory pos size inst inode_ref dir false =
        { data := some (.error .ENOMEM), answer := .error .ENOMEM }) ∧
    ((visible_entries dir).length ≤ pos → ∀ buffer,
      ext2fs_read_directory pos size inst inode_ref dir buffer =
        { data := some (.error .ENOENT), answer := .error .ENOENT }) ∧
    (∀ e, e ∈ visible_entries dir ↔
      (∃ x ∈ dir.entries, x.1 = e) ∧ e.inode ≠ 0 ∧ e.name ≠ [46] ∧ e.name ≠ [46, 46]) := by
  refine ⟨?_, ?_, ?_⟩
  · intro e he
    constructor
    · have h := ext2fs_read_directory_loop_found pos hpos true dir.entries hnext 0
        (Nat.zero_le _) e he
      unfold ext2fs_read_directory
      simp only [hinit, h, if_true, hfini]
    · have h := ext2fs_read_directory_loop_found pos hpos false dir.entries hnext 0
        (Nat.zero_le _) e he
      unfold ext2fs_read_directory
      simp only [hinit, h, Bool.false_eq_true, if_false]
  · intro he buffer
    have h := ext2fs_read_directory_loop_absent pos hpos buffer dir.entries hnext 0
      (Nat.zero_le _) he
    unfold ext2fs_read_directory
    simp only [hinit, h, hfini]
  · intro e
    unfold visible_entries
    rw [List.mem_filter, is_visible_iff, List.mem_map]

theorem C21_read_directory_position_witness :
    (ext2fs_read_directory 0 100 demo_instance (file_of_size 0) demo_dir true =
        { data := some (.ok [97, 0]), answer := .ok [1] } ∧
      ext2fs_read_directory 1 100 demo_instance (file_of_size 0) demo_dir true =
        { data := some (.ok [98, 0]), answer := .ok [1] } ∧
      ext2fs_read_directory 2 100 demo_instance (file_of_size 0) demo_dir true =
        { data := some (.ok [99, 0]), answer := .ok [1] }) ∧
    ext2fs_read_directory 3 100 demo_instance (file_of_size 0) demo_dir true =
      { data := some (.error .ENOENT), answer := .error .ENOENT } :=
  ⟨⟨((C21_read_directory_position 0 100 demo_instance (file_of_size 0) (by decide) rfl
        demo_dir_no_io_error rfl).1 ⟨13, [97]⟩ rfl).1,
      ((C21_read_directory_position 1 100 demo_instance (file_of_size 0) (by decide) rfl
        demo_dir_no_io_error rfl).1 ⟨14, [98]⟩ rfl).1,
      ((C21_read_directory_position 2 100 demo_instance (file_of_size 0) (by decide) rfl
        demo_dir_no_io_error rfl).1 ⟨15, [99]⟩ rfl).1⟩,
    (C21_read_directory_position 3 100 demo_instance (file_of_size 0) (by decide) rfl
      demo_dir_no_io_error rfl).2.1 (by decide) true⟩

/-- C21 fails as stated when there is no memory for the name: the stream of
`demo_dir` is walked without an error and its entry number 0 that is not
deleted and not a dot entry is "a", yet the read at position 0 sends no name
and does not answer with `ENOENT`: both requests are answered with `ENOMEM`. -/
theorem C21_counterexample :
    demo_dir.init = .ok () ∧ demo_dir.no_io_error ∧ demo_dir.fini = .ok () ∧
      (visible_entries demo_dir)[0]? = some ⟨13, [97]⟩ ∧
      ext2fs_read_directory 0 100 demo_instance (file_of_size 0) demo_dir false =
        { data := some (.error .ENOMEM), answer := .error .ENOMEM } ∧
      Errno.ENOMEM ≠ Errno.ENOENT :=
  ⟨rfl, demo_dir_no_io_error, rfl, rfl, rfl, by decide⟩

/-- C22, as the code has it: when a directory read finds the entry at the
requested position and gets its buffer, the data sent are the bytes of the
name followed by one 0 byte that the server adds, `name_size + 1` bytes in
all; the reply to the request reports the count 1 when the release of the
iterator succeeds, and the code of the release when it fails. -/
theorem C22_read_directory_payload (pos size : Nat) (inst : ext2fs_instance)
    (inode_ref : ext2_inode_ref) {dir : DirEnv} {e : ext2_directory_entry_ll}
    (hpos : pos < UINT64_WRAP) (hinit : dir.init = .ok ()) (hnext : dir.no_io_error)
    (he : (visible_entries dir)[pos]? = some e) :
    (ext2fs_read_directory pos size inst inode_ref dir true).data =
        some (.ok (e.name ++ [0])) ∧
      (e.name ++ [0]).length = ext2_directory_entry_ll_get_name_length e + 1 ∧
      (e.name ++ [0]).getLast? = some 0 ∧
      (dir.fini = .ok () →
        (ext2fs_read_directory pos size inst inode_ref dir true).answer = .ok [1]) ∧
      (∀ rc, dir.fini = .error rc →
        (ext2fs_read_directory pos size inst inode_ref dir true).answer = .error rc) := by
  have h := ext2fs_read_directory_loop_found pos hpos true dir.entries hnext 0
    (Nat.zero_le _) e he
  simp only [if_true] at h
  refine ⟨?_, by simp [ext2_directory_entry_ll_get_name_length], by simp, ?_, ?_⟩
  · unfold ext2fs_read_directory
    simp only [hinit, h]
    cases dir.fini <;> rfl
  · intro hf
    unfold ext2fs_read_directory
    simp only [hinit, h, hf]
  · intro rc hf
    unfold ext2fs_read_directory
    simp only [hinit, h, hf]

theorem C22_read_directory_payload_witness :
    (ext2fs_read_directory 0 100 demo_instance (file_of_size 0) demo_dir true).data =
      some (.ok ([97] ++ [0])) :=
  (@C22_read_directory_payload 0 100 demo_instance (file_of_size 0) demo_dir ⟨13, [97]⟩
    (by decide) rfl demo_dir_no_io_error rfl).1

/-- C22 fails as stated: the read at position 0 of a directory whose first
visible entry has the one-byte name "a" sends 2 bytes, the name and a 0 byte. -/
theorem C22_counterexample :
    ext2fs_read_directory 0 100 demo_instance (file_of_size 0) demo_dir true =
        { data := some (.ok [97, 0]), answer := .ok [1] } ∧
      (visible_entries demo_dir)[0]? = some ⟨13, [97]⟩ ∧
      ([97, 0] : List Nat).length ≠ ext2_directory_entry_ll_get_name_length ⟨13, [97]⟩ ∧
      (0 : Nat) ∈ ([97, 0] : List Nat) := by
  refine ⟨rfl, rfl, by decide, by decide⟩

/-- C23: for a live directory node whose stream is walked without an error,
`ext2fs_has_children` returns `EOK` and reports true exactly when some entry of
the stream has a non-zero object index and a name other than "." and ".."; a
directory all of whose entries are deleted or named "." or ".." reports
false. -/
theorem C23_has_children {s : State} {fn : Nat} {enode : ext2fs_node}
    {i : ext2fs_instance} {dir : DirEnv} (hn : s.nodes fn = some enode)
    (hi : s.insts enode.inst = some i)
    (hdir : ext2_inode_is_type enode.inode_ref.inode EXT2_INODE_MODE_DIRECTORY = true)
    (hinit : dir.init = .ok ()) (hnext : dir.no_io_error) (hfini : dir.fini = .ok ()) :
    (∃ found, ext2fs_has_children s fn dir = .ok (.ok found)) ∧
    (ext2fs_has_children s fn dir = .ok (.ok true) ↔
      ∃ x ∈ dir.entries, x.1.inode ≠ 0 ∧ x.1.name ≠ [46] ∧ x.1.name ≠ [46, 46]) ∧
    ((∀ x ∈ dir.entries, x.1.inode = 0 ∨ x.1.name = [46] ∨ x.1.name = [46, 46]) →
      ext2fs_has_children s fn dir = .ok (.ok false)) := by
  have h := ext2fs_has_children_eq hn hi hdir hinit hnext hfini
  refine ⟨⟨_, h⟩, ?_, ?_⟩
  · rw [h, ← any_is_visible_iff]
    simp
  · intro hall
    rw [h]
    have : (dir.entries.map Prod.fst).any is_visible = false := by
      rw [← Bool.not_eq_true, any_is_visible_iff]
      rintro ⟨x, hx, h0, h1, h2⟩
      rcases hall x hx with e | e | e
      · exact h0 e
      · exact h1 e
      · exact h2 e
    rw [this]

theorem C23_has_children_witness :
    ext2fs_has_children dir_open 1 demo_dir = .ok (.ok true) ∧
      ext2fs_has_children dir_open 1 empty_dir = .ok (.ok false) :=
  ⟨(C23_has_children dir_open_node dir_open_inst (by decide) rfl demo_dir_no_io_error rfl).2.1.2
      ⟨(⟨13, [97]⟩, .ok ()), by simp [demo_dir], by decide, by decide, by decide⟩,
    (C23_has_children dir_open_node dir_open_inst (by decide) rfl empty_dir_no_io_error rfl).2.2
      (by
        intro x hx
        simp only [empty_dir, List.mem_cons, List.mem_singleton, List.not_mem_nil,
          or_false] at hx
        rcases hx with rfl | rfl | rfl
        · exact Or.inr (Or.inl rfl)
        · exact Or.inr (Or.inr rfl)
        · exact Or.inl rfl)⟩

/-- C24, as the code has it: `ext2fs_match` on a live node that is not a directory
returns `ENOTDIR`.  In a directory whose stream is walked without an error it
returns what `ext2fs_node_get_core`, on the instance of the directory, returns
for the object index of the first entry in the order of the disk that has a
non-zero object index and the name looked for, byte for byte: when the object
is cached, its node with the reference count raised by 1 modulo `2 ^ 32`, and
when it is not cached and the allocations and the decoding succeed, a new node
with one reference.  When no such entry exists it returns `ENOENT` and the
state is unchanged. -/
theorem C24_match {s : State} (h : Reachable s) {pfn : Nat} {eparent : ext2fs_node}
    {i : ext2fs_instance} (dir : DirEnv) (component : List Nat) (env : GetEnv)
    (hn : s.nodes pfn = some eparent) (hi : s.insts eparent.inst = some i) :
    (ext2_inode_is_type eparent.inode_ref.inode EXT2_INODE_MODE_DIRECTORY = false →
      ext2fs_match s pfn component dir env = .ok (.error .ENOTDIR, s)) ∧
    (ext2_inode_is_type eparent.inode_ref.inode EXT2_INODE_MODE_DIRECTORY = true →
      dir.init = .ok () → dir.no_io_error →
      (∀ e, (dir.entries.map Prod.fst).find? (is_match component) = some e →
        (e.inode ≠ 0 ∧ e.name = component) ∧
        ext2fs_match s pfn component dir env =
          ext2fs_node_get_core s eparent.inst e.inode env ∧
        (∀ p n, p ∈ s.open_nodes → node_key s p = some (i.devmap_handle, e.inode) →
          s.nodes p = some n →
          ext2fs_match s pfn component dir env =
            .ok (.ok p, s.set_node p (some
              { n with references := (n.references + 1) % UINT_WRAP }))) ∧
        (∀ p inode, (∀ q ∈ s.open_nodes, node_key s q ≠ some (i.devmap_handle, e.inode)) →
          env.enode = some p → env.node = true → env.inode = .ok inode →
          ∃ s', ext2fs_match s pfn component dir env = .ok (.ok p, s') ∧
            s'.nodes p = some ⟨eparent.inst, ⟨e.inode, inode⟩, 1⟩)) ∧
      ((dir.entries.map Prod.fst).find? (is_match component) = none →
        ext2fs_match s pfn component dir env = .ok (.error .ENOENT, s))) := by
  have hw := reachable_wf h
  refine ⟨ext2fs_match_not_directory dir component env hn hi, ?_⟩
  intro hdir hinit hnext
  refine ⟨?_, ext2fs_match_absent component env hn hi hdir hinit hnext⟩
  intro e he
  have hm := ext2fs_match_found component env hn hi hdir hinit hnext he
  refine ⟨(is_match_iff component e).1 (List.find?_some he), hm, ?_, ?_⟩
  · intro p n hp hk hnp
    rw [hm]
    exact ext2fs_node_get_core_hit hw env hi hp hk hnp
  · intro p inode hk henode hnode hinode
    rw [hm, ext2fs_node_get_core_miss hw env hi hk]
    simp only [henode, hnode, if_true, hinode]
    refine ⟨_, rfl, ?_⟩
    simp

theorem C24_match_witness :
    ext2fs_match dir_open 1 [97] demo_dir (demo_env 2) = .ok (.ok 2, file_open) :=
  ((((C24_match dir_open_reachable demo_dir [97] (demo_env 2) dir_open_node dir_open_inst).2
    (by decide) rfl demo_dir_no_io_error).1 ⟨13, [97]⟩ rfl).2.1).trans rfl

/-- C24 fails where the counter of references is full: file 13, the entry "a" of
directory 5, is cached with `UINT_MAX` references; `ext2fs_match` for "a"
returns `EOK` and its node, whose count of references is 0 afterwards, not one
more than before. -/
theorem C24_counterexample :
    Reachable file_full ∧
      file_full.nodes 2 = some
        { inst := 0, inode_ref := { index := 13, inode := demo_inode },
          references := 4294967295 } ∧
      ext2fs_match file_full 1 [97] demo_dir idle_env =
        .ok (.ok 2, file_full.set_node 2 (some
          { inst := 0, inode_ref := { index := 13, inode := demo_inode },
            references := 0 })) :=
  ⟨file_full_reachable, rfl, rfl⟩

/-- C25, as the code has it: `ext2fs_match` leaves out the entries with object index
0 and no others.  An entry with a non-zero object index that is named "." or
".." does not survive the filter of a directory read, and is accepted for its
name by the lookup; in a directory whose stream is walked without an error,
the lookup of a name, "." and ".." included, returns what
`ext2fs_node_get_core` returns for the first entry with a non-zero object index
and that name; when every entry has object index 0 or another name, it
returns `ENOENT` and the state is unchanged. -/
theorem C25_match_does_not_skip_dots {s : State} {pfn : Nat} {eparent : ext2fs_node}
    {i : ext2fs_instance} {dir : DirEnv} (component : List Nat) (env : GetEnv)
    (hn : s.nodes pfn = some eparent) (hi : s.insts eparent.inst = some i)
    (hdir : ext2_inode_is_type eparent.inode_ref.inode EXT2_INODE_MODE_DIRECTORY = true)
    (hinit : dir.init = .ok ()) (hnext : dir.no_io_error) :
    (∀ e : ext2_directory_entry_ll, e.inode ≠ 0 → e.name = [46] ∨ e.name = [46, 46] →
      is_visible e = false ∧ is_match e.name e = true) ∧
    (∀ e, (dir.entries.map Prod.fst).find? (is_match component) = some e →
      ext2fs_match s pfn component dir env =
        ext2fs_node_get_core s eparent.inst e.inode env) ∧
    ((∀ x ∈ dir.entries, x.1.inode = 0 ∨ x.1.name ≠ component) ↔
      (dir.entries.map Prod.fst).find? (is_match component) = none) ∧
    ((∀ x ∈ dir.entries, x.1.inode = 0 ∨ x.1.name ≠ component) →
      ext2fs_match s pfn component dir env = .ok (.error .ENOENT, s)) := by
  have hnone : (∀ x ∈ dir.entries, x.1.inode = 0 ∨ x.1.name ≠ component) ↔
      (dir.entries.map Prod.fst).find? (is_match component) = none := by
    rw [List.find?_eq_none]
    constructor
    · intro hall e he hm
      obtain ⟨x, hx, rfl⟩ := List.mem_map.1 he
      have hc := (is_match_iff component x.1).1 hm
      rcases hall x hx with h0 | h1
      · exact hc.1 h0
      · exact h1 hc.2
    · intro hall x hx
      by_cases h0 : x.1.inode = 0
      · exact Or.inl h0
      · refine Or.inr (fun h1 => ?_)
        exact hall x.1 (List.mem_map.2 ⟨x, hx, rfl⟩) ((is_match_iff component x.1).2 ⟨h0, h1⟩)
  refine ⟨?_, fun e he => ext2fs_match_found component env hn hi hdir hinit hnext he, hnone,
    fun hall => ext2fs_match_absent component env hn hi hdir hinit hnext (hnone.1 hall)⟩
  intro e h0 hd
  constructor
  · rw [← Bool.not_eq_true, is_visible_iff]
    rintro ⟨_, h1, h2⟩
    rcases hd with hd | hd
    · exact h1 hd
    · exact h2 hd
  · exact (is_match_iff e.name e).2 ⟨h0, rfl⟩

theorem C25_match_does_not_skip_dots_witness :
    ext2fs_match dir_open 1 [46, 46] demo_dir idle_env =
      ext2fs_node_get_core dir_open 0 2 idle_env :=
  (@C25_match_does_not_skip_dots dir_open 1 _ _ demo_dir [46, 46] idle_env dir_open_node
    dir_open_inst (by decide) rfl demo_dir_no_io_error).2.1 ⟨2, [46, 46]⟩ rfl

/-- C25 fails as stated: in directory 5, whose stream holds the entries "." (object
5, the directory itself) and ".." (object 2), the lookup of "." returns `EOK`
and the node of the directory with one more reference, and the lookup of
".." returns `EOK` and a new node for object 2; neither returns `ENOENT`. -/
theorem C25_counterexample :
    Reachable dir_open ∧
      ext2fs_match dir_open 1 [46] demo_dir idle_env =
        .ok (.ok 1, dir_open.set_node 1 (some
          { inst := 0, inode_ref := { index := 5, inode := dir_inode }, references := 2 })) ∧
      ∃ s', ext2fs_match dir_open 1 [46, 46] demo_dir (demo_env 3) = .ok (.ok 3, s') ∧
        s'.nodes 3 = some
          { inst := 0, inode_ref := { index := 2, inode := demo_inode }, references := 1 } ∧
        s'.open_nodes = dir_open.open_nodes ++ [3] :=
  ⟨dir_open_reachable, rfl, _, rfl, rfl, rfl⟩

/-- C26: for every state and all arguments, `ext2fs_create_node`,
`ext2fs_destroy_node`, `ext2fs_link` and `ext2fs_unlink` return `ENOTSUP`, and
`ext2fs_write`, `ext2fs_truncate` and `ext2fs_destroy` answer `ENOTSUP`; the state
after each of them is the state before, with its registry, its cache and every
count of references. -/
theorem C26_mutating_operations_unsupported (s : State) (devmap_handle flags fn pfn cfn : Nat)
    (name : List Nat) (request : List Nat) :
    ext2fs_create_node s devmap_handle flags = (.error .ENOTSUP, s) ∧
      ext2fs_destroy_node s fn = (.error .ENOTSUP, s) ∧
      ext2fs_link s pfn cfn name = (.error .ENOTSUP, s) ∧
      ext2fs_unlink s pfn cfn name = (.error .ENOTSUP, s) ∧
      ext2fs_write s request = (.error .ENOTSUP, s) ∧
      ext2fs_truncate s request = (.error .ENOTSUP, s) ∧
      ext2fs_destroy s request = (.error .ENOTSUP, s) :=
  ⟨rfl, rfl, rfl, rfl, rfl, rfl, rfl⟩

/-- C28: for every offset below the size of the file, every requested size and
every block size above 0 (of its type `uint32_t`), `offset_in_block + bytes` is
at most the block size, so the read does not stop at the assertion before the
copy out of the block, whatever the collaborators return; and the outcome
depends on the device through one block only, the physical block that the
lookup gives for the logical block `pos / block_size`: a device that agrees on
that block gives the same outcome. -/
theorem C28_read_touches_one_block (pos size : Nat) (inst : ext2fs_instance)
    (inode_ref : ext2_inode_ref) (env : ReadEnv) (hpos : pos < inode_ref.inode.size)
    (hbs : 0 < env.block_size) (hbs32 : env.block_size < UINT_WRAP) :
    pos % env.block_size +
        ext2fs_read_file_bytes pos size inode_ref.inode.size env.block_size ≤ env.block_size ∧
      (∃ reply, ext2fs_read_file pos size inst inode_ref env = .ok reply) ∧
      (∀ block : Nat → Nat → Except Errno (List Nat),
        (∀ fs_block, env.block_index (pos / env.block_size) = .ok fs_block →
          block inst.devmap_handle fs_block = env.block inst.devmap_handle fs_block) →
        ext2fs_read_file pos size inst inode_ref { env with block := block } =
          ext2fs_read_file pos size inst inode_ref env) := by
  have hle := @ext2fs_read_file_bytes_le pos size inode_ref.inode.size env.block_size hpos hbs
    hbs32
  refine ⟨hle, ?_, ?_⟩
  · unfold ext2fs_read_file
    simp only [ge_iff_le, Nat.not_le.2 hpos, if_false, Nat.pos_iff_ne_zero.1 hbs, hle, if_true]
    cases env.block_index (pos / env.block_size) with
    | error rc => exact ⟨_, rfl⟩
    | ok fs_block =>
      by_cases h0 : fs_block = 0
      · simp only [h0, if_true]
        cases env.buffer
        · exact ⟨_, rfl⟩
        · exact ⟨_, rfl⟩
      · simp only [h0, if_false]
        cases env.block inst.devmap_handle fs_block with
        | error rc => exact ⟨_, rfl⟩
        | ok block_data =>
          cases env.block_put with
          | error rc => exact ⟨_, rfl⟩
          | ok u => exact ⟨_, rfl⟩
  · intro block hsame
    unfold ext2fs_read_file
    simp only [ge_iff_le, Nat.not_le.2 hpos, if_false, Nat.pos_iff_ne_zero.1 hbs, hle, if_true]
    cases hfb : env.block_index (pos / env.block_size) with
    | error rc => rfl
    | ok fs_block =>
      simp only [hsame fs_block hfb]

theorem C28_read_touches_one_block_witness :
    1000 % 512 + ext2fs_read_file_bytes 1000 100 (file_of_size 4096).inode.size
        (demo_read_env 512).block_size ≤ (demo_read_env 512).block_size :=
  (C28_read_touches_one_block 1000 100 demo_instance (file_of_size 4096) (demo_read_env 512)
    (by decide) (by decide) (by decide)).1

/-- C29, as the code has it: a file read below the end of the file, of at least
one byte, on blocks of at least one byte, whose collaborator calls succeed,
answers with a count of at least 1.  When the size of the file is at least a
block below `2 ^ 64`, the count does not step over the end of the file, and a
caller that repeats the read with the offset advanced by the count is at the
end of the file after at most as many calls as bytes were left; after one
call per block that the rest of the file spans if every call asks for at least
a block. -/
theorem C29_reads_make_progress {size : Nat} (inst : ext2fs_instance)
    (inode_ref : ext2_inode_ref) {env : ReadEnv} (hs : 0 < size) (hbs : 0 < env.block_size)
    (hbs32 : env.block_size < UINT_WRAP) (henv : env.succeeds) :
    (∀ pos, pos < inode_ref.inode.size →
      1 ≤ answer_length (ext2fs_read_file pos size inst inode_ref env)) ∧
    (inode_ref.inode.size + env.block_size ≤ UINT64_WRAP →
      (∀ pos, pos < inode_ref.inode.size →
        pos + answer_length (ext2fs_read_file pos size inst inode_ref env)
          ≤ inode_ref.inode.size) ∧
      (∀ pos, pos ≤ inode_ref.inode.size →
        repeated_reads size inst inode_ref env (inode_ref.inode.size - pos) pos
          = inode_ref.inode.size) ∧
      (env.block_size ≤ size → ∀ pos, pos < inode_ref.inode.size →
        repeated_reads size inst inode_ref env
          ((inode_ref.inode.size - 1) / env.block_size - pos / env.block_size + 1) pos
          = inode_ref.inode.size)) := by
  refine ⟨?_, fun hno => ⟨?_, ?_, ?_⟩⟩
  · intro pos hpos
    rw [answer_length_eq inst hpos hbs hbs32 henv]
    exact ext2fs_read_file_bytes_pos hpos hbs hs
  · intro pos hpos
    rw [answer_length_eq inst hpos hbs hbs32 henv]
    have hmin : min (env.block_size - pos % env.block_size) size ≤ env.block_size :=
      Nat.le_trans (Nat.min_le_left _ _) (Nat.sub_le _ _)
    rw [@ext2fs_read_file_bytes_eq pos size inode_ref.inode.size env.block_size hpos
      (by omega)]
    omega
  · intro pos hpos
    exact repeated_reads_bytes inst hs hbs hbs32 henv hno _ pos hpos (Nat.le_refl _)
  · intro hsize pos hpos
    exact repeated_reads_blocks inst hbs hbs32 henv hno hsize _ pos hpos (Nat.le_refl _)

theorem C29_reads_make_progress_witness :
    repeated_reads 512 demo_instance (file_of_size 1500) (demo_read_env 512)
        (((file_of_size 1500).inode.size - 1) / (demo_read_env 512).block_size -
          100 / (demo_read_env 512).block_size + 1) 100
      = (file_of_size 1500).inode.size :=
  ((@C29_reads_make_progress 512 demo_instance (file_of_size 1500) (demo_read_env 512)
    (by decide) (by decide) (by decide) (demo_read_env_succeeds 512)).2 (by decide)).2.2
    (Nat.le_refl _) 100 (by decide)

/-- C29 fails on its bound: in a file of 10 bytes on blocks of 512 bytes, which
spans one block, a caller that reads one byte at a time from offset 0 is at
offset 2 after two calls (one per block spanned plus one) and at offset 9
after nine; the tenth call takes it to the end of the file. -/
theorem C29_counterexample :
    (10 - 1) / 512 - 0 / 512 + 1 = 1 ∧
      repeated_reads 1 demo_instance (file_of_size 10) (demo_read_env 512) 2 0 = 2 ∧
      repeated_reads 1 demo_instance (file_of_size 10) (demo_read_env 512) 9 0 = 9 ∧
      repeated_reads 1 demo_instance (file_of_size 10) (demo_read_env 512) 10 0 = 10 := by
  refine ⟨by decide, rfl, rfl, rfl⟩

/-- C30, as the code has it: for a live directory node whose stream is walked
without an error, `ext2fs_has_children` reports false exactly when the read at
position 0 of the same stream answers both requests with `ENOENT` (whether or
not there is memory for a buffer); it reports true exactly when that read,
given its buffer, sends a name and answers with success, which is exactly
when that read, left without a buffer, answers both requests with `ENOMEM`. -/
theorem C30_has_children_agrees_with_read (size : Nat) (inst : ext2fs_instance)
    (inode_ref : ext2_inode_ref) {s : State} {fn : Nat} {enode : ext2fs_node}
    {i : ext2fs_instance} {dir : DirEnv} (hn : s.nodes fn = some enode)
    (hi : s.insts enode.inst = some i)
    (hdir : ext2_inode_is_type enode.inode_ref.inode EXT2_INODE_MODE_DIRECTORY = true)
    (hinit : dir.init = .ok ()) (hnext : dir.no_io_error) (hfini : dir.fini = .ok ()) :
    (∀ buffer, ext2fs_has_children s fn dir = .ok (.ok false) ↔
      ext2fs_read_directory 0 size inst inode_ref dir buffer =
        { data := some (.error .ENOENT), answer := .error .ENOENT }) ∧
    (ext2fs_has_children s fn dir = .ok (.ok true) ↔
      ∃ name, ext2fs_read_directory 0 size inst inode_ref dir true =
        { data := some (.ok name), answer := .ok [1] }) ∧
    (ext2fs_has_children s fn dir = .ok (.ok true) ↔
      ext2fs_read_directory 0 size inst inode_ref dir false =
        { data := some (.error .ENOMEM), answer := .error .ENOMEM }) := by
  have h := ext2fs_has_children_eq hn hi hdir hinit hnext hfini
  have hp : (0 : Nat) < UINT64_WRAP := by decide
  cases hl : visible_entries dir with
  | nil =>
    have hany : (dir.entries.map Prod.fst).any is_visible = false := by
      rw [← Bool.not_eq_true, List.any_eq_true]
      rintro ⟨e, he, hv⟩
      have : e ∈ visible_entries dir := List.mem_filter.2 ⟨he, hv⟩
      rw [hl] at this
      cases this
    have hread : ∀ buffer, ext2fs_read_directory 0 size inst inode_ref dir buffer =
        { data := some (.error .ENOENT), answer := .error .ENOENT } := by
      intro buffer
      have hloop := ext2fs_read_directory_loop_absent 0 hp buffer dir.entries hnext 0
        (Nat.le_refl _) (by
          show (visible_entries dir).length ≤ 0 - 0
          rw [hl]; exact Nat.le_refl _)
      unfold ext2fs_read_directory
      simp only [hinit, hloop, hfini]
    rw [h, hany]
    refine ⟨fun buffer => ⟨fun _ => hread buffer, fun _ => rfl⟩, ?_, ?_⟩
    · constructor
      · intro hc; simp at hc
      · rintro ⟨name, hr⟩
        rw [hread true] at hr
        simp at hr
    · rw [hread false]
      simp
  | cons e rest =>
    have hany : (dir.entries.map Prod.fst).any is_visible = true := by
      rw [List.any_eq_true]
      have : e ∈ visible_entries dir := by rw [hl]; exact List.mem_cons_self _ _
      exact ⟨e, (List.mem_filter.1 this).1, (List.mem_filter.1 this).2⟩
    have hread : ∀ buffer, ext2fs_read_directory 0 size inst inode_ref dir buffer =
        if buffer then { data := some (.ok (e.name ++ [0])), answer := .ok [1] }
        else { data := some (.error .ENOMEM), answer := .error .ENOMEM } := by
      intro buffer
      have hloop := ext2fs_read_directory_loop_found 0 hp buffer dir.entries hnext 0
        (Nat.le_refl _) e (by
          show (visible_entries dir)[0 - 0]? = some e
          rw [hl]; simp)
      unfold ext2fs_read_directory
      cases buffer
      · simp only [Bool.false_eq_true, if_false] at hloop
        simp only [hinit, hloop, Bool.false_eq_true, if_false]
      · simp only [if_true] at hloop
        simp only [hinit, hloop, hfini, if_true]
    rw [h, hany]
    refine ⟨fun buffer => ?_, ?_, ?_⟩
    · rw [hread buffer]
      cases buffer <;> simp
    · rw [hread true]
      simp
    · rw [hread false]
      simp

theorem C30_has_children_agrees_with_read_witness :
    (ext2fs_has_children dir_open 1 demo_dir = .ok (.ok true) ↔
        ∃ name, ext2fs_read_directory 0 100 demo_instance (file_of_size 0) demo_dir true =
          { data := some (.ok name), answer := .ok [1] }) ∧
      (ext2fs_has_children dir_open 1 empty_dir = .ok (.ok false) ↔
        ext2fs_read_directory 0 100 demo_instance (file_of_size 0) empty_dir true =
          { data := some (.error .ENOENT), answer := .error .ENOENT }) :=
  ⟨(C30_has_children_agrees_with_read 100 demo_instance (file_of_size 0) dir_open_node
      dir_open_inst (by decide) rfl demo_dir_no_io_error rfl).2.1,
    (C30_has_children_agrees_with_read 100 demo_instance (file_of_size 0) dir_open_node
      dir_open_inst (by decide) rfl empty_dir_no_io_error rfl).1 true⟩

/-- C30 fails as stated when there is no memory for the name: the stream of
`demo_dir` is walked without an error and `ext2fs_has_children` reports true for
it, yet the read at position 0 does not succeed: both requests are answered
with `ENOMEM`. -/
theorem C30_counterexample :
    demo_dir.init = .ok () ∧ demo_dir.no_io_error ∧ demo_dir.fini = .ok () ∧
      ext2fs_has_children dir_open 1 demo_dir = .ok (.ok true) ∧
      ext2fs_read_directory 0 100 demo_instance (file_of_size 0) demo_dir false =
        { data := some (.error .ENOMEM), answer := .error .ENOMEM } :=
  ⟨rfl, demo_dir_no_io_error, rfl, rfl, rfl⟩

end Ext2fs
